import Mathlib

/-!
# BrainGrid: delay ring event queue, cluster event router and epoch scheduler

A shallow embedding of `Core/EventQueue.cpp` and of the stepping loop of
`Core/Simulator.cpp`, followed by the properties proved about them.

Conventions of the embedding.

* Machine integers are natural numbers (or integers for `int`), reduced
  modulo the width of their C++ type where the source can wrap.
* An array is a list; `a[i]` reads with `List.getD _ i 0` and writes with
  `List.set`.  An index outside the array is undefined behaviour in the
  source; the embedding reads 0 there and drops the write.
* `assert` is taken as active: a failed assertion stops the function and
  is reported as a `Failure` carrying the object as it stands at that moment.
* `EventQueue.h` and `SynapseIndexMap.h` are not among the sources at hand.
  The constants and helpers the code takes from them are parameters
  (`BuildConfig`, `SynapseIndexMap`).
* CUDA transfers are taken to succeed; a `cudaMemcpy` of `n` elements
  replaces the first `n` elements of the destination.
-/

namespace BrainGrid

/-! ## Build-time parameters -/

/-- Build-time constants used by `EventQueue.cpp`: whether `USE_GPU` is defined,
the number of bits of a `BGQUEUE_ELEMENT` word and `LENGTH_OF_DELAYQUEUE`. -/
structure BuildConfig where
  USE_GPU : Bool
  WORD_BITS : Nat
  LENGTH_OF_DELAYQUEUE : Nat
  deriving DecidableEq, Repr

/-- The data model bounds the delay horizon by the word width; the masks
`0x1 << k` are built from an `int`, so a word has at most 32 usable bits. -/
def BuildConfig.Valid (cfg : BuildConfig) : Prop :=
  cfg.LENGTH_OF_DELAYQUEUE ≤ cfg.WORD_BITS ∧ cfg.WORD_BITS ≤ 32

instance (cfg : BuildConfig) : Decidable cfg.Valid :=
  inferInstanceAs (Decidable (cfg.LENGTH_OF_DELAYQUEUE ≤ cfg.WORD_BITS ∧ cfg.WORD_BITS ≤ 32))

/-- The static helpers of `SynapseIndexMap` that the staged router calls to pack a
(cluster, synapse) pair into one `OUTGOING_SYNAPSE_INDEX_TYPE` and to unpack it. -/
structure SynapseIndexMap where
  getOutgoingSynapseIndex : Nat → Nat → Nat
  getClusterIndex : Nat → Nat
  getSynapseIndex : Nat → Nat

/-- Packing followed by unpacking gives the pair back, for the pair at hand. -/
def SynapseIndexMap.Faithful (map : SynapseIndexMap) (clusterID idx : Nat) : Prop :=
  map.getClusterIndex (map.getOutgoingSynapseIndex clusterID idx) = clusterID ∧
  map.getSynapseIndex (map.getOutgoingSynapseIndex clusterID idx) = idx

/-! ## Machine arithmetic -/

/-- Conversion of an integer to `uint32_t`. -/
def toU32 (x : Int) : Nat := (x % 2 ^ 32).toNat

/-- Conversion of an integer to `uint64_t`. -/
def toU64 (x : Int) : Nat := (x % 2 ^ 64).toNat

/-- Conversion of an integer to a 32-bit `int` (two's complement wrap-around). -/
def toI32 (x : Int) : Int :=
  if x % 2 ^ 32 < 2 ^ 31 then x % 2 ^ 32 else x % 2 ^ 32 - 2 ^ 32

/-- The expression `0x1 << k`. -/
def bitMask (k : Nat) : Nat := 1 <<< k

/-- The expression `queue & (0x1 << k)` converted to `bool`. -/
def testEvent (queue k : Nat) : Bool := (queue &&& bitMask k) != 0

/-- The statement `queue |= (0x1 << k)` on a word of `WORD_BITS` bits. -/
def setEvent (cfg : BuildConfig) (queue k : Nat) : Nat :=
  (queue ||| bitMask k) % 2 ^ cfg.WORD_BITS

/-- The statement `queue &= ~(0x1 << k)` on a word of `WORD_BITS` bits. -/
def resetEvent (cfg : BuildConfig) (queue k : Nat) : Nat :=
  queue &&& ((2 ^ cfg.WORD_BITS - 1) ^^^ (bitMask k % 2 ^ cfg.WORD_BITS))

/-- A `cudaMemcpy` of `n` elements from `src` to `dst`. -/
def memcpy (dst src : List Nat) (n : Nat) : List Nat :=
  src.take n ++ dst.drop n

/-! ## The event queue object -/

/-- The object behind an `InterClustersEventHandler*`, seen through the calls of
`addAnEvent(idx, clusterID)` it has received, oldest first. -/
structure InterClustersEventHandler where
  received : List (Nat × Nat)
  deriving DecidableEq, Repr

/-- The call `eventHandler->addAnEvent(idx, clusterID)`. -/
def InterClustersEventHandler.addAnEvent (h : InterClustersEventHandler)
    (idx clusterID : Nat) : InterClustersEventHandler :=
  { received := h.received ++ [(idx, clusterID)] }

/-- The data members of `EventQueue`.  `m_eventHandler` is `none` for `NULL`.
The members of the inter clusters buffers exist in the `USE_GPU` build only. -/
structure EventQueue where
  m_clusterID : Nat
  m_queueEvent : List Nat
  m_nMaxEvent : Nat
  m_idxQueue : Nat
  m_eventHandler : Option InterClustersEventHandler
  m_nMaxInterClustersOutgoingEvents : Nat
  m_nInterClustersOutgoingEvents : Nat
  m_interClustersOutgoingEvents : List Nat
  m_nMaxInterClustersIncomingEvents : Nat
  m_nInterClustersIncomingEvents : Nat
  m_interClustersIncomingEvents : List Nat
  deriving DecidableEq, Repr

/-- The ways an operation of the queue can stop.  The first three are the error kinds
of the specification; the source raises each of them through `assert`. -/
inductive QueueError where
  | DoubleScheduleError
  | CapacityExceededError
  | ConfigMismatchError
  | NullEventHandler
  | OwnClusterInOutgoing
  deriving DecidableEq, Repr

/-- A failed assertion: the error kind and the object as it stands when it fires. -/
structure Failure where
  error : QueueError
  state : EventQueue
  deriving DecidableEq, Repr

/-- Outcome of an operation that can fail. -/
inductive Outcome where
  | ok (q : EventQueue)
  | fail (f : Failure)
  deriving DecidableEq, Repr

/-- Sequencing: run `f` on the state an operation left, or keep its failure. -/
def Outcome.andThen (r : Outcome) (f : EventQueue → Outcome) : Outcome :=
  match r with
  | .ok q => f q
  | .fail e => .fail e

/-- The constructor `EventQueue::EventQueue()`. -/
def EventQueue.new : EventQueue :=
  { m_clusterID := 0
    m_queueEvent := []
    m_nMaxEvent := 0
    m_idxQueue := 0
    m_eventHandler := none
    m_nMaxInterClustersOutgoingEvents := 0
    m_nInterClustersOutgoingEvents := 0
    m_interClustersOutgoingEvents := []
    m_nMaxInterClustersIncomingEvents := 0
    m_nInterClustersIncomingEvents := 0
    m_interClustersIncomingEvents := [] }

/-- An array obtained from `new T[n]`: `n` elements of indeterminate value, given
by `fresh`. -/
def newArray (fresh : Nat → Nat) (n : Nat) : List Nat :=
  (List.range n).map fresh

/-- The host side `EventQueue::initEventQueue`.  Without `USE_GPU` it takes the first
two arguments only and leaves the buffers alone.  `fresh` gives the indeterminate
contents of the arrays it allocates. -/
def initEventQueue (cfg : BuildConfig) (fresh : Nat → Nat) (q : EventQueue)
    (clusterID nMaxEvent nMaxInterClustersOutgoingEvents
      nMaxInterClustersIncomingEvents : Nat) : EventQueue :=
  let q1 := { q with
    m_clusterID := clusterID
    m_nMaxEvent := nMaxEvent
    m_queueEvent := newArray fresh nMaxEvent }
  if cfg.USE_GPU then
    let q2 := { q1 with
      m_nMaxInterClustersOutgoingEvents := nMaxInterClustersOutgoingEvents
      m_interClustersOutgoingEvents :=
        if nMaxInterClustersOutgoingEvents ≠ 0 then
          newArray fresh nMaxInterClustersOutgoingEvents
        else q1.m_interClustersOutgoingEvents }
    { q2 with
      m_nMaxInterClustersIncomingEvents := nMaxInterClustersIncomingEvents
      m_interClustersIncomingEvents :=
        if nMaxInterClustersIncomingEvents ≠ 0 then
          newArray fresh nMaxInterClustersIncomingEvents
        else q2.m_interClustersIncomingEvents }
  else q1

/-- The function `EventQueue::addAnEvent(const BGSIZE idx, const CLUSTER_INDEX_TYPE clusterID)`. -/
def addAnEvent (cfg : BuildConfig) (map : SynapseIndexMap) (q : EventQueue)
    (idx clusterID : Nat) : Outcome :=
  if clusterID ≠ q.m_clusterID then
    if cfg.USE_GPU then
      if q.m_nInterClustersOutgoingEvents < q.m_nMaxInterClustersOutgoingEvents then
        .ok { q with
          m_interClustersOutgoingEvents :=
            q.m_interClustersOutgoingEvents.set q.m_nInterClustersOutgoingEvents
              (map.getOutgoingSynapseIndex clusterID idx)
          m_nInterClustersOutgoingEvents := q.m_nInterClustersOutgoingEvents + 1 }
      else .fail ⟨.CapacityExceededError, q⟩
    else
      match q.m_eventHandler with
      | none => .fail ⟨.NullEventHandler, q⟩
      | some h => .ok { q with m_eventHandler := some (h.addAnEvent idx clusterID) }
  else
    let queue := q.m_queueEvent.getD idx 0
    if testEvent queue q.m_idxQueue then .fail ⟨.DoubleScheduleError, q⟩
    else .ok { q with m_queueEvent := q.m_queueEvent.set idx (setEvent cfg queue q.m_idxQueue) }

/-- The function `EventQueue::addAnInterClustersIncomingEvent` (`USE_GPU` build). -/
def addAnInterClustersIncomingEvent (q : EventQueue) (idx : Nat) : Outcome :=
  if q.m_nInterClustersIncomingEvents < q.m_nMaxInterClustersIncomingEvents then
    .ok { q with
      m_interClustersIncomingEvents :=
        q.m_interClustersIncomingEvents.set q.m_nInterClustersIncomingEvents idx
      m_nInterClustersIncomingEvents := q.m_nInterClustersIncomingEvents + 1 }
  else .fail ⟨.CapacityExceededError, q⟩

/-- One round of the loop of `processInterClustersOutgoingEvents`, at index `i`.  A call
through a `NULL` handler is reported like the assertion of the build without `USE_GPU`. -/
def outgoingEventStep (map : SynapseIndexMap) (q : EventQueue) (i : Nat) : Outcome :=
  let idx := q.m_interClustersOutgoingEvents.getD i 0
  let iCluster := map.getClusterIndex idx
  let iSyn := map.getSynapseIndex idx
  if iCluster ≠ q.m_clusterID then
    match q.m_eventHandler with
    | none => .fail ⟨.NullEventHandler, q⟩
    | some h => .ok { q with m_eventHandler := some (h.addAnEvent iSyn iCluster) }
  else .fail ⟨.OwnClusterInOutgoing, q⟩

/-- The loop `for (BGSIZE i = from; i < from + count; i++)` over a body that can fail. -/
def forLoop (body : EventQueue → Nat → Outcome) : Nat → Nat → EventQueue → Outcome
  | _, 0, q => .ok q
  | i, count + 1, q => (body q i).andThen (forLoop body (i + 1) count)

/-- The host function `EventQueue::processInterClustersOutgoingEvents(pEventQueue)`: `q` is the
host object it is called on, `pEventQueue` the object in device memory. -/
def processInterClustersOutgoingEvents (map : SynapseIndexMap) (q pEventQueue : EventQueue) :
    Outcome :=
  let nInterClustersOutgoingEvents_h := pEventQueue.m_nInterClustersOutgoingEvents
  let q1 := { q with
    m_nInterClustersOutgoingEvents := nInterClustersOutgoingEvents_h
    m_interClustersOutgoingEvents :=
      memcpy q.m_interClustersOutgoingEvents pEventQueue.m_interClustersOutgoingEvents
        nInterClustersOutgoingEvents_h }
  (forLoop (outgoingEventStep map) 0 q1.m_nInterClustersOutgoingEvents q1).andThen
    fun q2 => .ok { q2 with m_nInterClustersOutgoingEvents := 0 }

/-- One round of the loop of `processInterClustersIncomingEventsInDevice`, at index `i`. -/
def incomingEventStep (cfg : BuildConfig) (q : EventQueue) (i : Nat) : Outcome :=
  let iSyn := q.m_interClustersIncomingEvents.getD i 0
  let queue := q.m_queueEvent.getD iSyn 0
  if testEvent queue q.m_idxQueue then .fail ⟨.DoubleScheduleError, q⟩
  else .ok { q with m_queueEvent := q.m_queueEvent.set iSyn (setEvent cfg queue q.m_idxQueue) }

/-- The device function `EventQueue::processInterClustersIncomingEventsInDevice`. -/
def processInterClustersIncomingEventsInDevice (cfg : BuildConfig) (q : EventQueue) : Outcome :=
  (forLoop (incomingEventStep cfg) 0 q.m_nInterClustersIncomingEvents q).andThen
    fun q1 => .ok { q1 with m_nInterClustersIncomingEvents := 0 }

/-- The slot index computed by `EventQueue::addAnEvent(idx, delay)`:
`uint32_t idxQueue = m_idxQueue + delay; if (idxQueue >= LENGTH_OF_DELAYQUEUE) idxQueue -= LENGTH_OF_DELAYQUEUE;` -/
def delayedIndex (cfg : BuildConfig) (m_idxQueue : Nat) (delay : Int) : Nat :=
  let idxQueue := toU32 ((m_idxQueue : Int) + delay)
  if idxQueue ≥ cfg.LENGTH_OF_DELAYQUEUE then
    toU32 ((idxQueue : Int) - (cfg.LENGTH_OF_DELAYQUEUE : Int))
  else idxQueue

/-- The function `EventQueue::addAnEvent(const BGSIZE idx, const int delay)`. -/
def addAnEventDelay (cfg : BuildConfig) (q : EventQueue) (idx : Nat) (delay : Int) : Outcome :=
  let queue := q.m_queueEvent.getD idx 0
  let idxQueue := delayedIndex cfg q.m_idxQueue delay
  if testEvent queue idxQueue then .fail ⟨.DoubleScheduleError, q⟩
  else .ok { q with m_queueEvent := q.m_queueEvent.set idx (setEvent cfg queue idxQueue) }

/-- The function `EventQueue::checkAnEvent(const BGSIZE idx)`: the value returned and the
object afterwards. -/
def checkAnEvent (cfg : BuildConfig) (q : EventQueue) (idx : Nat) : Bool × EventQueue :=
  let queue := q.m_queueEvent.getD idx 0
  let r := testEvent queue q.m_idxQueue
  (r, { q with m_queueEvent := q.m_queueEvent.set idx (resetEvent cfg queue q.m_idxQueue) })

/-- The slot index computed by `EventQueue::checkAnEvent(idx, delay)`:
`int idxQueue = m_idxQueue - delay; if (idxQueue < 0) idxQueue += LENGTH_OF_DELAYQUEUE;` -/
def pastIndex (cfg : BuildConfig) (m_idxQueue : Nat) (delay : Int) : Int :=
  let idxQueue := toI32 ((m_idxQueue : Int) - delay)
  if idxQueue < 0 then toI32 (idxQueue + (cfg.LENGTH_OF_DELAYQUEUE : Int)) else idxQueue

/-- The function `EventQueue::checkAnEvent(const BGSIZE idx, const int delay)`.  A shift by a
negative count is undefined in the source; the embedding shifts by 0 then. -/
def checkAnEventDelay (cfg : BuildConfig) (q : EventQueue) (idx : Nat) (delay : Int) :
    Bool × EventQueue :=
  let queue := q.m_queueEvent.getD idx 0
  let idxQueue := (pastIndex cfg q.m_idxQueue delay).toNat
  let r := testEvent queue idxQueue
  (r, { q with m_queueEvent := q.m_queueEvent.set idx (resetEvent cfg queue idxQueue) })

/-- The function `EventQueue::clearAnEvent`. -/
def clearAnEvent (q : EventQueue) (idx : Nat) : EventQueue :=
  { q with m_queueEvent := q.m_queueEvent.set idx 0 }

/-- The function `EventQueue::advanceEventQueue`: `if (++m_idxQueue >= LENGTH_OF_DELAYQUEUE) m_idxQueue = 0;` -/
def advanceEventQueue (cfg : BuildConfig) (q : EventQueue) : EventQueue :=
  let next := toU32 ((q.m_idxQueue : Int) + 1)
  if next ≥ cfg.LENGTH_OF_DELAYQUEUE then { q with m_idxQueue := 0 }
  else { q with m_idxQueue := next }

/-- The function `EventQueue::regEventHandler`. -/
def regEventHandler (q : EventQueue) (eventHandler : Option InterClustersEventHandler) :
    EventQueue :=
  { q with m_eventHandler := eventHandler }

/-! ## Checkpoint streams

A stream is the sequence of its numeric fields: `output << v << ends` appends one
field, `input >> v; input.ignore()` consumes one.  Extraction from an exhausted stream
stores 0.  The fields are taken to fit the type they are read into. -/

/-- The statements `input >> v; input.ignore();`: the value read and the rest of the stream. -/
def readField (input : List Nat) : Nat × List Nat :=
  match input with
  | [] => (0, [])
  | v :: rest => (v, rest)

/-- The function `EventQueue::serialize`. -/
def serialize (q : EventQueue) : List Nat :=
  [q.m_idxQueue, q.m_nMaxEvent] ++
    (List.range q.m_nMaxEvent).map (fun idx => q.m_queueEvent.getD idx 0)

/-- The loop of `EventQueue::deserialize` that reads `count` words into the array from
index `idx` on. -/
def readWords : List Nat → Nat → Nat → List Nat → List Nat
  | m_queueEvent, _, 0, _ => m_queueEvent
  | m_queueEvent, idx, count + 1, input =>
    readWords (m_queueEvent.set idx (readField input).1) (idx + 1) count (readField input).2

/-- The function `EventQueue::deserialize`.  The ring pointer is read straight into
`m_idxQueue` before the stored capacity is read and compared. -/
def deserialize (q : EventQueue) (input : List Nat) : Outcome :=
  let q1 := { q with m_idxQueue := (readField input).1 }
  let input1 := (readField input).2
  let nMaxEvent := (readField input1).1
  let input2 := (readField input1).2
  if q1.m_nMaxEvent = nMaxEvent then
    let q2 := { q1 with m_nMaxEvent := nMaxEvent }
    .ok { q2 with m_queueEvent := readWords q2.m_queueEvent 0 q2.m_nMaxEvent input2 }
  else .fail ⟨.ConfigMismatchError, q1⟩

/-- The capacity field of a checkpoint stream: the second field. -/
def storedCapacity (input : List Nat) : Nat :=
  (readField (readField input).2).1

/-! ## The epoch scheduler -/

/-- The loop of `Simulator::advanceUntilGrowth`.  The state is `g_simulationStep` together
with the calls `model->advance(sim_info, iStep)` made so far, each recorded with the value
of `g_simulationStep` at the call.  The result is `none` when `fuel` rounds do not reach
the end of the loop. -/
def advanceLoop (minSynapticTransDelay : Int) (endStep : Nat) :
    Nat → Nat → List (Nat × Int) → Option (Nat × List (Nat × Int))
  | 0, g_simulationStep, calls =>
    if g_simulationStep < endStep then none else some (g_simulationStep, calls)
  | fuel + 1, g_simulationStep, calls =>
    if g_simulationStep < endStep then
      let iStep := toI32 (toU64 ((endStep : Int) - (g_simulationStep : Int)))
      let iStep := if iStep < minSynapticTransDelay then iStep else minSynapticTransDelay
      advanceLoop minSynapticTransDelay endStep fuel
        (toU64 ((g_simulationStep : Int) + iStep)) (calls ++ [(g_simulationStep, iStep)])
    else some (g_simulationStep, calls)

/-- The function `Simulator::advanceUntilGrowth`.  `epochSteps` is the value of
`static_cast<uint64_t>(sim_info->epochDuration / sim_info->deltaT)`, a floating point
quotient computed outside the embedding. -/
def advanceUntilGrowth (fuel g_simulationStep epochSteps : Nat) (minSynapticTransDelay : Int) :
    Option (Nat × List (Nat × Int)) :=
  let endStep := toU64 ((g_simulationStep : Int) + (epochSteps : Int))
  advanceLoop minSynapticTransDelay endStep fuel g_simulationStep []

/-- The calls `model->advance(sim_info, iStep)` that the loop of
`Simulator::advanceUntilGrowth` has made once it has ended or gone through `fuel` rounds,
whichever comes first: the loop of `advanceLoop`, observed also while it is still running. -/
def advanceCalls (minSynapticTransDelay : Int) (endStep : Nat) :
    Nat → Nat → List (Nat × Int) → List (Nat × Int)
  | 0, _, calls => calls
  | fuel + 1, g_simulationStep, calls =>
    if g_simulationStep < endStep then
      let iStep := toI32 (toU64 ((endStep : Int) - (g_simulationStep : Int)))
      let iStep := if iStep < minSynapticTransDelay then iStep else minSynapticTransDelay
      advanceCalls minSynapticTransDelay endStep fuel
        (toU64 ((g_simulationStep : Int) + iStep)) (calls ++ [(g_simulationStep, iStep)])
    else calls

/-- The calls `model->advance(sim_info, iStep)` made by `Simulator::advanceUntilGrowth` within
its first `fuel` rounds, whether or not the function has returned by then. -/
def advanceUntilGrowthCalls (fuel g_simulationStep epochSteps : Nat)
    (minSynapticTransDelay : Int) : List (Nat × Int) :=
  let endStep := toU64 ((g_simulationStep : Int) + (epochSteps : Int))
  advanceCalls minSynapticTransDelay endStep fuel g_simulationStep []

/-! ## State predicates -/

/-- The array of words has as many elements as the configured capacity. -/
def EventQueue.Allocated (q : EventQueue) : Prop :=
  q.m_queueEvent.length = q.m_nMaxEvent

instance (q : EventQueue) : Decidable q.Allocated :=
  inferInstanceAs (Decidable (q.m_queueEvent.length = q.m_nMaxEvent))

/-- Every word fits a `BGQUEUE_ELEMENT`. -/
def EventQueue.WordsFit (cfg : BuildConfig) (q : EventQueue) : Prop :=
  ∀ w ∈ q.m_queueEvent, w < 2 ^ cfg.WORD_BITS

instance (cfg : BuildConfig) (q : EventQueue) : Decidable (q.WordsFit cfg) :=
  inferInstanceAs (Decidable (∀ w ∈ q.m_queueEvent, w < 2 ^ cfg.WORD_BITS))

/-- Bit `k` of word `idx` of the queue. -/
def EventQueue.bit (q : EventQueue) (idx k : Nat) : Bool :=
  (q.m_queueEvent.getD idx 0).testBit k

/-! ## Sequences of calls -/

/-- A sequence of calls `addAnEvent(idx, clusterID)`, one per pair `(idx, clusterID)` of the
list, in order; it stops at the first call that fails. -/
def addEvents (cfg : BuildConfig) (map : SynapseIndexMap) :
    EventQueue → List (Nat × Nat) → Outcome
  | q, [] => .ok q
  | q, e :: rest => (addAnEvent cfg map q e.1 e.2).andThen (fun q1 => addEvents cfg map q1 rest)

/-- The array after the values `vs` have been stored at the indices `i`, `i + 1`, ... -/
def writeAt : List Nat → Nat → List Nat → List Nat
  | buf, _, [] => buf
  | buf, i, v :: vs => writeAt (buf.set i v) (i + 1) vs

/-- The record `getOutgoingSynapseIndex(clusterID, idx)` of a pair `(idx, clusterID)`. -/
def SynapseIndexMap.record (map : SynapseIndexMap) (e : Nat × Nat) : Nat :=
  map.getOutgoingSynapseIndex e.2 e.1

instance (map : SynapseIndexMap) (clusterID idx : Nat) : Decidable (map.Faithful clusterID idx) :=
  inferInstanceAs (Decidable
    (map.getClusterIndex (map.getOutgoingSynapseIndex clusterID idx) = clusterID ∧
      map.getSynapseIndex (map.getOutgoingSynapseIndex clusterID idx) = idx))

/-! ## Concrete configurations and states used as examples -/

/-- A build without `USE_GPU`, 32-bit words and a delay horizon of 8 steps. -/
def cfgHost8 : BuildConfig :=
  { USE_GPU := false, WORD_BITS := 32, LENGTH_OF_DELAYQUEUE := 8 }

/-- A build with `USE_GPU`, 32-bit words and a delay horizon of 32 steps. -/
def cfgGpu32 : BuildConfig :=
  { USE_GPU := true, WORD_BITS := 32, LENGTH_OF_DELAYQUEUE := 32 }

/-- A queue of cluster 0 with four empty words and ring pointer 0. -/
def emptyQueue4 : EventQueue :=
  { EventQueue.new with m_queueEvent := [0, 0, 0, 0], m_nMaxEvent := 4 }

/-- A queue of cluster 0 with four words, events pending in words 1 and 3, ring pointer 6. -/
def busyQueue4 : EventQueue :=
  { EventQueue.new with m_queueEvent := [0, 5, 0, 64], m_nMaxEvent := 4, m_idxQueue := 6 }

/-- A packing that keeps the synapse index in the low 28 bits and the cluster above them. -/
def shiftMap : SynapseIndexMap :=
  { getOutgoingSynapseIndex := fun clusterID idx => clusterID * 2 ^ 28 + idx
    getClusterIndex := fun x => x / 2 ^ 28
    getSynapseIndex := fun x => x % 2 ^ 28 }

/-- A device side queue of cluster 0 with an empty outgoing buffer of capacity 2. -/
def deviceQueue2 : EventQueue :=
  { emptyQueue4 with
    m_nMaxInterClustersOutgoingEvents := 2
    m_interClustersOutgoingEvents := [9, 9] }

/-- A host side queue of cluster 0 with a handler that has received nothing yet. -/
def hostQueue2 : EventQueue :=
  { emptyQueue4 with
    m_eventHandler := some { received := [] }
    m_nMaxInterClustersOutgoingEvents := 2
    m_interClustersOutgoingEvents := [0, 0] }


/-- The object as an operation leaves it, whether it returned or stopped. -/
def Outcome.state (r : Outcome) : EventQueue :=
  match r with
  | .ok q => q
  | .fail f => f.state

/-- A queue of cluster 0 with capacity 2 whose words hold whatever the allocation left,
here the value 1 in every word. -/
def dirtyQueue2 : EventQueue :=
  initEventQueue cfgHost8 (fun _ => 1) EventQueue.new 0 2 0 0
/-- A device side queue of cluster 0 with capacity 4, ring pointer 6, one pending event in
word 1 and the synapse indices 2 and 0 staged in an incoming buffer of capacity 3. -/
def incomingQueue : EventQueue :=
  { busyQueue4 with
    m_queueEvent := [0, 5, 0, 0]
    m_nMaxInterClustersIncomingEvents := 3
    m_nInterClustersIncomingEvents := 2
    m_interClustersIncomingEvents := [2, 0, 7] }

/-- The synapse indices staged in the incoming buffer, in staging order. -/
def stagedIncoming (q : EventQueue) : List Nat :=
  (List.range q.m_nInterClustersIncomingEvents).map
    (fun i => q.m_interClustersIncomingEvents.getD i 0)

/-- The drain of the incoming buffer in the words of the specification: the own-cluster
`addAnEvent` applied to each staged synapse index in staging order, then the incoming
count set to zero. -/
def drainIncomingSpec (cfg : BuildConfig) (map : SynapseIndexMap) (q : EventQueue) : Outcome :=
  (addEvents cfg map q ((stagedIncoming q).map (fun i => (i, q.m_clusterID)))).andThen
    fun q1 => .ok { q1 with m_nInterClustersIncomingEvents := 0 }

/-! ## Host and device copies of the queue (`USE_GPU` build) -/

/-- The host function `EventQueue::copyEventQueueHostToDevice(pEventQueue)`: the host object
`q` it is called on and the object in device memory, both after the call. -/
def copyEventQueueHostToDevice (q pEventQueue : EventQueue) : EventQueue × EventQueue :=
  (q, { pEventQueue with
    m_queueEvent := memcpy pEventQueue.m_queueEvent q.m_queueEvent q.m_nMaxEvent
    m_idxQueue := q.m_idxQueue })

/-- The host function `EventQueue::copyEventQueueDeviceToHost(pEventQueue)`: the host object
`q` it is called on and the object in device memory, both after the call.  Its `cudaMemcpy`
has the device array `pQueueEvent_h` as destination, the host array `m_queueEvent` as source
and the kind `cudaMemcpyHostToDevice`, as in `copyEventQueueHostToDevice`. -/
def copyEventQueueDeviceToHost (q pEventQueue : EventQueue) : EventQueue × EventQueue :=
  let device := { pEventQueue with
    m_queueEvent := memcpy pEventQueue.m_queueEvent q.m_queueEvent q.m_nMaxEvent }
  ({ q with m_idxQueue := device.m_idxQueue }, device)

/-- A host side queue of capacity 4 with no pending event and ring pointer 0, mirror of the
device queue `busyQueue4`. -/
def hostMirror4 : EventQueue := emptyQueue4
/-! ## The epochs of `Simulator::simulate` -/

/-- What `Simulator::simulate` does that can be seen from outside, in the order it does it:
the assignment `sim_info->currentStep = currentStep`, the call of `advanceUntilGrowth`, the
calls `model->advance(sim_info, iStep)` made inside it (with `g_simulationStep` at the
call), and the calls of `model->updateConnections` and `model->updateHistory` (with the
value of `sim_info->currentStep` they find). -/
inductive SimEvent where
  | setCurrentStep (currentStep : Int)
  | callAdvanceUntilGrowth (currentStep : Int)
  | advance (g_simulationStep : Nat) (iStep : Int)
  | updateConnections (currentStep : Int)
  | updateHistory (currentStep : Int)
  deriving DecidableEq, Repr

/-- The loop `for (int currentStep = 1; currentStep <= sim_info->maxSteps; currentStep++)` of
`Simulator::simulate`, from the value `currentStep` on.  `fuel` bounds the rounds of every
inner stepping loop, `rounds` the rounds of this loop; the result is `none` when one of
them is used up before its loop ends.  The increment of the `int` counter wraps around. -/
def simulateLoop (fuel : Nat) (maxSteps : Int) (epochSteps : Nat) (minSynapticTransDelay : Int) :
    Nat → Int → Nat → List SimEvent → Option (Nat × List SimEvent)
  | 0, currentStep, g_simulationStep, events =>
    if currentStep ≤ maxSteps then none else some (g_simulationStep, events)
  | rounds + 1, currentStep, g_simulationStep, events =>
    if currentStep ≤ maxSteps then
      match advanceUntilGrowth fuel g_simulationStep epochSteps minSynapticTransDelay with
      | none => none
      | some (g1, calls) =>
        simulateLoop fuel maxSteps epochSteps minSynapticTransDelay rounds
          (toI32 (currentStep + 1)) g1
          (events ++ [SimEvent.setCurrentStep currentStep,
              SimEvent.callAdvanceUntilGrowth currentStep]
            ++ calls.map (fun c => SimEvent.advance c.1 c.2)
            ++ [SimEvent.updateConnections currentStep, SimEvent.updateHistory currentStep])
    else some (g_simulationStep, events)

/-- The function `Simulator::simulate`: the final `g_simulationStep` and the events, or `none`
when `fuel` rounds do not suffice. -/
def simulate (fuel g_simulationStep : Nat) (maxSteps : Int) (epochSteps : Nat)
    (minSynapticTransDelay : Int) : Option (Nat × List SimEvent) :=
  simulateLoop fuel maxSteps epochSteps minSynapticTransDelay fuel 1 g_simulationStep []

/-- The events of one epoch with the value `currentStep` and the inner steps `calls`. -/
def epochEvents (currentStep : Int) (calls : List (Nat × Int)) : List SimEvent :=
  [SimEvent.setCurrentStep currentStep, SimEvent.callAdvanceUntilGrowth currentStep]
    ++ calls.map (fun c => SimEvent.advance c.1 c.2)
    ++ [SimEvent.updateConnections currentStep, SimEvent.updateHistory currentStep]

/-- The events of consecutive epochs, the first one with the value `first` of `currentStep`,
given the inner steps of each epoch. -/
def epochsEvents : Int → List (List (Nat × Int)) → List SimEvent
  | _, [] => []
  | first, calls :: rest => epochEvents first calls ++ epochsEvents (first + 1) rest

/-- The values assigned to `sim_info->currentStep`, in order. -/
def currentSteps (events : List SimEvent) : List Int :=
  events.filterMap fun e =>
    match e with
    | SimEvent.setCurrentStep c => some c
    | _ => none

/-- The events other than the inner calls of `model->advance`. -/
def epochSkeleton (events : List SimEvent) : List SimEvent :=
  events.filter fun e =>
    match e with
    | SimEvent.advance _ _ => false
    | _ => true
/-! ## The staged router as a pair of objects (`USE_GPU` build) -/

/-- The device side `EventQueue::initEventQueue`, which receives the three arrays already
allocated. -/
def initEventQueueDevice (q : EventQueue) (clusterID nMaxEvent : Nat) (pQueueEvent : List Nat)
    (nMaxInterClustersOutgoingEvents : Nat) (interClustersOutgoingEvents : List Nat)
    (nMaxInterClustersIncomingEvents : Nat) (interClustersIncomingEvents : List Nat) :
    EventQueue :=
  { q with
    m_clusterID := clusterID
    m_nMaxEvent := nMaxEvent
    m_queueEvent := pQueueEvent
    m_nMaxInterClustersOutgoingEvents := nMaxInterClustersOutgoingEvents
    m_interClustersOutgoingEvents := interClustersOutgoingEvents
    m_nMaxInterClustersIncomingEvents := nMaxInterClustersIncomingEvents
    m_interClustersIncomingEvents := interClustersIncomingEvents }

/-- The host function `EventQueue::createEventQueueInDevice` called on `q`: the object it
creates in device memory.  The arrays come from `cudaMalloc`, their contents are given by
`fresh`; a buffer of capacity 0 stays `NULL`. -/
def createEventQueueInDevice (fresh : Nat → Nat) (q : EventQueue) : EventQueue :=
  initEventQueueDevice EventQueue.new q.m_clusterID q.m_nMaxEvent
    (newArray fresh q.m_nMaxEvent)
    q.m_nMaxInterClustersOutgoingEvents
    (if q.m_nMaxInterClustersOutgoingEvents ≠ 0 then
      newArray fresh q.m_nMaxInterClustersOutgoingEvents else [])
    q.m_nMaxInterClustersIncomingEvents
    (if q.m_nMaxInterClustersIncomingEvents ≠ 0 then
      newArray fresh q.m_nMaxInterClustersIncomingEvents else [])

/-- The calls that act on the outgoing buffers of a host object and its device object. -/
inductive RouterOp where
  | hostAddAnEvent (idx clusterID : Nat)
  | deviceAddAnEvent (idx clusterID : Nat)
  | regEventHandler (eventHandler : InterClustersEventHandler)
  | processInterClustersOutgoingEvents
  deriving DecidableEq, Repr

/-- One call on the pair (host object, device object); `none` when an assertion of the call
fails, which ends the program. -/
def routerStep (cfg : BuildConfig) (map : SynapseIndexMap) (s : EventQueue × EventQueue)
    (op : RouterOp) : Option (EventQueue × EventQueue) :=
  match op with
  | .hostAddAnEvent idx clusterID =>
    match addAnEvent cfg map s.1 idx clusterID with
    | .ok q => some (q, s.2)
    | .fail _ => none
  | .deviceAddAnEvent idx clusterID =>
    match addAnEvent cfg map s.2 idx clusterID with
    | .ok q => some (s.1, q)
    | .fail _ => none
  | .regEventHandler eventHandler => some (regEventHandler s.1 (some eventHandler), s.2)
  | .processInterClustersOutgoingEvents =>
    match processInterClustersOutgoingEvents map s.1 s.2 with
    | .ok q => some (q, s.2)
    | .fail _ => none

/-- A sequence of calls on the pair, in order. -/
def routerRun (cfg : BuildConfig) (map : SynapseIndexMap) :
    EventQueue × EventQueue → List RouterOp → Option (EventQueue × EventQueue)
  | s, [] => some s
  | s, op :: rest =>
    match routerStep cfg map s op with
    | none => none
    | some s1 => routerRun cfg map s1 rest

/-- Whether the packing of `SynapseIndexMap` gives back the cluster of the pair a call of
`addAnEvent` names. -/
def RouterOp.roundTrips (map : SynapseIndexMap) (op : RouterOp) : Bool :=
  match op with
  | .hostAddAnEvent idx clusterID =>
    decide (map.getClusterIndex (map.getOutgoingSynapseIndex clusterID idx) = clusterID)
  | .deviceAddAnEvent idx clusterID =>
    decide (map.getClusterIndex (map.getOutgoingSynapseIndex clusterID idx) = clusterID)
  | _ => true

/-- The invariant of an outgoing buffer: the count is at most the configured capacity, the
array has room for the capacity, and every record held names a cluster other than the own. -/
def OutgoingInv (map : SynapseIndexMap) (q : EventQueue) : Prop :=
  q.m_nInterClustersOutgoingEvents ≤ q.m_nMaxInterClustersOutgoingEvents ∧
  q.m_nMaxInterClustersOutgoingEvents ≤ q.m_interClustersOutgoingEvents.length ∧
  ∀ i, i < q.m_nInterClustersOutgoingEvents →
    map.getClusterIndex (q.m_interClustersOutgoingEvents.getD i 0) ≠ q.m_clusterID

/-- The invariant of a host object and its device object. -/
def RouterInv (map : SynapseIndexMap) (s : EventQueue × EventQueue) : Prop :=
  OutgoingInv map s.1 ∧ OutgoingInv map s.2 ∧ s.1.m_clusterID = s.2.m_clusterID ∧
  s.1.m_nMaxInterClustersOutgoingEvents = s.2.m_nMaxInterClustersOutgoingEvents

/-- The host object of cluster 0 after `initEventQueue(0, 4, 2, 2)` in the `USE_GPU` build. -/
def initialHost : EventQueue :=
  initEventQueue cfgGpu32 (fun _ => 0) EventQueue.new 0 4 2 2

/-! ## Bit level lemmas -/

theorem bitMask_eq (k : Nat) : bitMask k = 2 ^ k := by
  simp [bitMask, Nat.one_shiftLeft]

theorem testEvent_eq_testBit (queue k : Nat) : testEvent queue k = queue.testBit k := by
  unfold testEvent
  rw [bitMask_eq, Nat.and_two_pow]
  cases h : queue.testBit k <;> simp

theorem testBit_setEvent (cfg : BuildConfig) (queue k j : Nat) :
    (setEvent cfg queue k).testBit j =
      (decide (j < cfg.WORD_BITS) && (queue.testBit j || decide (k = j))) := by
  unfold setEvent
  rw [bitMask_eq, Nat.testBit_mod_two_pow, Nat.testBit_or, Nat.testBit_two_pow]

theorem testBit_resetEvent (cfg : BuildConfig) (queue k j : Nat) :
    (resetEvent cfg queue k).testBit j =
      (queue.testBit j && decide (j < cfg.WORD_BITS) && !decide (k = j)) := by
  unfold resetEvent
  rw [bitMask_eq, Nat.testBit_and, Nat.testBit_xor, Nat.testBit_two_pow_sub_one,
    Nat.testBit_mod_two_pow, Nat.testBit_two_pow]
  cases queue.testBit j <;> cases decide (j < cfg.WORD_BITS) <;> cases decide (k = j) <;> rfl


theorem toU32_of_lt (n : Nat) (h : n < 2 ^ 32) : toU32 (n : Int) = n := by
  unfold toU32
  have : ((n : Int) % 2 ^ 32) = (n : Int) := Int.emod_eq_of_lt (by omega) (by exact_mod_cast h)
  rw [this]
  simp

theorem advanceEventQueue_eq (cfg : BuildConfig) (hL : cfg.LENGTH_OF_DELAYQUEUE < 2 ^ 32)
    (q : EventQueue) (hp : q.m_idxQueue < cfg.LENGTH_OF_DELAYQUEUE) :
    advanceEventQueue cfg q =
      { q with m_idxQueue := (q.m_idxQueue + 1) % cfg.LENGTH_OF_DELAYQUEUE } := by
  unfold advanceEventQueue
  have h1 : toU32 ((q.m_idxQueue : Int) + 1) = q.m_idxQueue + 1 := by
    have := toU32_of_lt (q.m_idxQueue + 1) (by omega)
    simpa using this
  simp only [h1]
  by_cases h : q.m_idxQueue + 1 ≥ cfg.LENGTH_OF_DELAYQUEUE
  · have : q.m_idxQueue + 1 = cfg.LENGTH_OF_DELAYQUEUE := by omega
    simp [this]
  · rw [if_neg h, Nat.mod_eq_of_lt (by omega)]

theorem advanceEventQueue_iterate (cfg : BuildConfig) (hL : cfg.LENGTH_OF_DELAYQUEUE < 2 ^ 32)
    (q : EventQueue) (hp : q.m_idxQueue < cfg.LENGTH_OF_DELAYQUEUE) (n : Nat) :
    (advanceEventQueue cfg)^[n] q =
      { q with m_idxQueue := (q.m_idxQueue + n) % cfg.LENGTH_OF_DELAYQUEUE } := by
  induction n with
  | zero => simp [Nat.mod_eq_of_lt hp]
  | succ n ih =>
    rw [Function.iterate_succ_apply', ih, advanceEventQueue_eq cfg hL _ (Nat.mod_lt _ (by omega))]
    simp [Nat.add_assoc]

theorem advanceEventQueue_iterate_words (cfg : BuildConfig) (q : EventQueue) (n : Nat) :
    ((advanceEventQueue cfg)^[n] q).m_queueEvent = q.m_queueEvent := by
  induction n with
  | zero => rfl
  | succ n ih =>
    rw [Function.iterate_succ_apply', ← ih]
    unfold advanceEventQueue
    simp only []
    split <;> rfl

theorem delayedIndex_eq (cfg : BuildConfig) (hL : cfg.LENGTH_OF_DELAYQUEUE ≤ 2 ^ 31)
    (p delay : Nat) (hp : p < cfg.LENGTH_OF_DELAYQUEUE) (hd : delay < cfg.LENGTH_OF_DELAYQUEUE) :
    delayedIndex cfg p (delay : Int) = (p + delay) % cfg.LENGTH_OF_DELAYQUEUE := by
  unfold delayedIndex
  have h1 : toU32 ((p : Int) + (delay : Int)) = p + delay := by
    have := toU32_of_lt (p + delay) (by omega)
    simpa using this
  simp only [h1]
  by_cases h : p + delay ≥ cfg.LENGTH_OF_DELAYQUEUE
  · rw [if_pos h]
    have h2 : ((p + delay : Nat) : Int) - (cfg.LENGTH_OF_DELAYQUEUE : Int)
        = ((p + delay - cfg.LENGTH_OF_DELAYQUEUE : Nat) : Int) := by omega
    rw [h2, toU32_of_lt _ (by omega)]
    rw [Nat.mod_eq_sub_mod h, Nat.mod_eq_of_lt (by omega)]
  · rw [if_neg h, Nat.mod_eq_of_lt (by omega)]

theorem getD_set_self (l : List Nat) (i v : Nat) (h : i < l.length) :
    (l.set i v).getD i 0 = v := by
  simp [List.getD_eq_getElem?_getD, List.getElem?_set, h]

theorem getD_set_ne (l : List Nat) (i j v : Nat) (h : i ≠ j) :
    (l.set i v).getD j 0 = l.getD j 0 := by
  simp [List.getD_eq_getElem?_getD, List.getElem?_set, h]

theorem valid_lt (cfg : BuildConfig) (hcfg : cfg.Valid) :
    cfg.LENGTH_OF_DELAYQUEUE ≤ 32 := by
  unfold BuildConfig.Valid at hcfg
  omega

/-! ## Properties of the delay ring -/

/-- C1: an event scheduled with `delay` on a clear target bit is returned by `checkAnEvent`
after exactly `delay` calls of `advanceEventQueue`, and a second `checkAnEvent` issued
right after returns false. -/
theorem schedule_advance_consume (cfg : BuildConfig) (hcfg : cfg.Valid) (q : EventQueue)
    (idx delay : Nat) (halloc : q.Allocated) (hidx : idx < q.m_nMaxEvent)
    (hp : q.m_idxQueue < cfg.LENGTH_OF_DELAYQUEUE) (hd : delay < cfg.LENGTH_OF_DELAYQUEUE)
    (hclear : q.bit idx ((q.m_idxQueue + delay) % cfg.LENGTH_OF_DELAYQUEUE) = false) :
    ∃ q1, addAnEventDelay cfg q idx (delay : Int) = .ok q1 ∧
      (checkAnEvent cfg ((advanceEventQueue cfg)^[delay] q1) idx).1 = true ∧
      (checkAnEvent cfg (checkAnEvent cfg ((advanceEventQueue cfg)^[delay] q1) idx).2 idx).1
        = false := by
  have hL32 := valid_lt cfg hcfg
  have hW : cfg.LENGTH_OF_DELAYQUEUE ≤ cfg.WORD_BITS := hcfg.1
  have hlen : idx < q.m_queueEvent.length := by
    unfold EventQueue.Allocated at halloc
    omega
  have ht : (q.m_idxQueue + delay) % cfg.LENGTH_OF_DELAYQUEUE < cfg.LENGTH_OF_DELAYQUEUE :=
    Nat.mod_lt _ (by omega)
  have hadv : ∀ q1 : EventQueue, q1.m_idxQueue = q.m_idxQueue →
      (advanceEventQueue cfg)^[delay] q1 =
        { q1 with m_idxQueue := (q.m_idxQueue + delay) % cfg.LENGTH_OF_DELAYQUEUE } := by
    intro q1 h1
    rw [advanceEventQueue_iterate cfg (by omega) q1 (by omega), h1]
  obtain ⟨q1, hq1⟩ : ∃ q1 : EventQueue, q1 = { q with m_queueEvent := (q.m_queueEvent.set idx
      (setEvent cfg (q.m_queueEvent.getD idx 0)
        ((q.m_idxQueue + delay) % cfg.LENGTH_OF_DELAYQUEUE))) } := ⟨_, rfl⟩
  have hi : q1.m_idxQueue = q.m_idxQueue := by rw [hq1]
  have hw : q1.m_queueEvent = q.m_queueEvent.set idx (setEvent cfg (q.m_queueEvent.getD idx 0)
      ((q.m_idxQueue + delay) % cfg.LENGTH_OF_DELAYQUEUE)) := by rw [hq1]
  refine ⟨q1, ?_, ?_, ?_⟩
  · unfold addAnEventDelay
    simp only [delayedIndex_eq cfg (by omega) _ _ hp hd, testEvent_eq_testBit]
    unfold EventQueue.bit at hclear
    rw [hclear, hq1]
    rfl
  · rw [hadv q1 hi]
    simp only [checkAnEvent, hw, getD_set_self _ _ _ hlen, testEvent_eq_testBit,
      testBit_setEvent]
    simp
    omega
  · rw [hadv q1 hi]
    simp only [checkAnEvent, hw, getD_set_self _ _ _ hlen, testEvent_eq_testBit]
    rw [getD_set_self _ _ _ (by simpa using hlen), testBit_resetEvent]
    simp

/-- C1, concrete: with a horizon of 8, scheduling slot 3 with delay 5 on an empty queue and
advancing 5 times makes `checkAnEvent(3)` return true once and false right after. -/
theorem schedule_advance_consume_witness :
    ∃ q1, addAnEventDelay cfgHost8 emptyQueue4 3 (5 : Nat) = .ok q1 ∧
      (checkAnEvent cfgHost8 ((advanceEventQueue cfgHost8)^[5] q1) 3).1 = true ∧
      (checkAnEvent cfgHost8
        (checkAnEvent cfgHost8 ((advanceEventQueue cfgHost8)^[5] q1) 3).2 3).1 = false :=
  schedule_advance_consume cfgHost8 (by decide) emptyQueue4 3 5 (by decide) (by decide)
    (by decide) (by decide) (by decide)

/-- C2: from a ring pointer below the horizon, `LENGTH_OF_DELAYQUEUE` calls of
`advanceEventQueue` give back the very same object (pointer included), and no number of
calls alters any bitmask word. -/
theorem advance_full_rotation (cfg : BuildConfig) (hL : cfg.LENGTH_OF_DELAYQUEUE < 2 ^ 32)
    (q : EventQueue) (hp : q.m_idxQueue < cfg.LENGTH_OF_DELAYQUEUE) :
    (advanceEventQueue cfg)^[cfg.LENGTH_OF_DELAYQUEUE] q = q ∧
      ((advanceEventQueue cfg)^[cfg.LENGTH_OF_DELAYQUEUE] q).m_idxQueue = q.m_idxQueue ∧
      ∀ n, ((advanceEventQueue cfg)^[n] q).m_queueEvent = q.m_queueEvent := by
  have h : (advanceEventQueue cfg)^[cfg.LENGTH_OF_DELAYQUEUE] q = q := by
    rw [advanceEventQueue_iterate cfg hL q hp]
    simp [Nat.mod_eq_of_lt hp]
  exact ⟨h, by rw [h], advanceEventQueue_iterate_words cfg q⟩

/-- C2, concrete: 8 advances of a queue with pointer 6 and horizon 8. -/
theorem advance_full_rotation_witness :
    (advanceEventQueue cfgHost8)^[cfgHost8.LENGTH_OF_DELAYQUEUE] busyQueue4 = busyQueue4 ∧
      ((advanceEventQueue cfgHost8)^[cfgHost8.LENGTH_OF_DELAYQUEUE] busyQueue4).m_idxQueue
        = busyQueue4.m_idxQueue ∧
      ∀ n, ((advanceEventQueue cfgHost8)^[n] busyQueue4).m_queueEvent
        = busyQueue4.m_queueEvent :=
  advance_full_rotation cfgHost8 (by decide) busyQueue4 (by decide)

/-! ## Checkpoint round trip -/

theorem readField_fst (input : List Nat) : (readField input).1 = input.getD 0 0 := by
  cases input <;> rfl

theorem readField_snd_getD (input : List Nat) (k : Nat) :
    (readField input).2.getD k 0 = input.getD (k + 1) 0 := by
  cases input <;> simp [readField]

theorem length_readWords (count : Nat) : ∀ (words : List Nat) (idx : Nat) (input : List Nat),
    (readWords words idx count input).length = words.length := by
  induction count with
  | zero => intro words idx input; rfl
  | succ n ih =>
    intro words idx input
    rw [readWords, ih, List.length_set]

theorem getD_readWords (count : Nat) : ∀ (words : List Nat) (idx : Nat) (input : List Nat)
    (j : Nat), (readWords words idx count input).getD j 0 =
      if idx ≤ j ∧ j < idx + count ∧ j < words.length then input.getD (j - idx) 0
      else words.getD j 0 := by
  induction count with
  | zero =>
    intro words idx input j
    rw [readWords, if_neg (by omega)]
  | succ n ih =>
    intro words idx input j
    rw [readWords, ih, List.length_set]
    by_cases hj : idx = j
    · subst hj
      rw [if_neg (by omega)]
      by_cases hlen : idx < words.length
      · rw [if_pos (by omega), getD_set_self _ _ _ hlen, readField_fst, Nat.sub_self]
      · rw [if_neg (by omega), List.set_eq_of_length_le (by omega)]
    · rw [getD_set_ne _ _ _ _ hj]
      by_cases hc : idx + 1 ≤ j ∧ j < idx + 1 + n ∧ j < words.length
      · rw [if_pos hc, if_pos (by omega), readField_snd_getD]
        congr 1
        omega
      · rw [if_neg hc, if_neg (by omega)]

theorem serialize_words (words : List Nat) :
    (List.range words.length).map (fun idx => words.getD idx 0) = words := by
  apply List.ext_getElem
  · simp
  · intro i h1 h2
    simp [List.getD_eq_getElem?_getD, List.getElem?_eq_getElem h2]

theorem readWords_all (words target : List Nat) (h : target.length = words.length)
    (rest : List Nat) : readWords target 0 words.length (words ++ rest) = words := by
  apply List.ext_getElem
  · rw [length_readWords, h]
  · intro i h1 h2
    have hg := getD_readWords words.length target 0 (words ++ rest) i
    rw [if_pos (by omega)] at hg
    rw [List.getD_eq_getElem?_getD, List.getD_eq_getElem?_getD,
      List.getElem?_eq_getElem h1, Nat.sub_zero, List.getElem?_append_left h2,
      List.getElem?_eq_getElem h2] at hg
    simpa using hg

/-- C3: `deserialize` applied to the stream written by `serialize`, on a queue of the same
configured capacity, succeeds and yields the ring pointer and the bitmask words of the
serialized queue, word for word; the capacity is the common one. -/
theorem deserialize_serialize (q target : EventQueue) (hq : q.Allocated)
    (ht : target.Allocated) (hcap : target.m_nMaxEvent = q.m_nMaxEvent) :
    ∃ r, deserialize target (serialize q) = .ok r ∧ r.m_idxQueue = q.m_idxQueue ∧
      r.m_queueEvent = q.m_queueEvent ∧ r.m_nMaxEvent = q.m_nMaxEvent ∧
      ∀ idx, r.m_queueEvent.getD idx 0 = q.m_queueEvent.getD idx 0 := by
  unfold EventQueue.Allocated at hq ht
  have hw : readWords target.m_queueEvent 0 q.m_nMaxEvent
      ((List.range q.m_nMaxEvent).map (fun idx => q.m_queueEvent.getD idx 0)) =
      q.m_queueEvent := by
    have := readWords_all q.m_queueEvent target.m_queueEvent (by omega) []
    rw [List.append_nil, hq] at this
    rw [← hq, serialize_words, hq]
    exact this
  refine ⟨{ target with
      m_idxQueue := q.m_idxQueue
      m_queueEvent := q.m_queueEvent
      m_nMaxEvent := q.m_nMaxEvent }, ?_, rfl, rfl, rfl, fun _ => rfl⟩
  simp only [deserialize, serialize, readField, List.cons_append, List.nil_append, hcap,
    if_true, hw]

/-- C3, concrete: a queue with pending events restored into an empty queue of capacity 4. -/
theorem deserialize_serialize_witness :
    ∃ r, deserialize emptyQueue4 (serialize busyQueue4) = .ok r ∧
      r.m_idxQueue = busyQueue4.m_idxQueue ∧ r.m_queueEvent = busyQueue4.m_queueEvent ∧
      r.m_nMaxEvent = busyQueue4.m_nMaxEvent ∧
      ∀ idx, r.m_queueEvent.getD idx 0 = busyQueue4.m_queueEvent.getD idx 0 :=
  deserialize_serialize busyQueue4 emptyQueue4 (by decide) (by decide) (by decide)

/-- C4: `deserialize` stops with an error exactly when the capacity stored in the stream
differs from the configured capacity `m_nMaxEvent`; the error is then `ConfigMismatchError`,
and with an equal capacity the call succeeds. -/
theorem deserialize_fails_iff (q : EventQueue) (input : List Nat) :
    ((∃ f, deserialize q input = .fail f) ↔ storedCapacity input ≠ q.m_nMaxEvent) ∧
      (∀ f, deserialize q input = .fail f → f.error = QueueError.ConfigMismatchError) ∧
      (storedCapacity input = q.m_nMaxEvent → ∃ r, deserialize q input = .ok r) := by
  unfold deserialize storedCapacity
  by_cases h : q.m_nMaxEvent = (readField (readField input).2).1
  · simp only [h, if_true]
    refine ⟨?_, ?_, ?_⟩
    · simp
    · intro f hf
      cases hf
    · intro _
      exact ⟨_, rfl⟩
  · simp only [if_neg h]
    refine ⟨?_, ?_, ?_⟩
    · constructor
      · intro _ h2
        exact h h2.symm
      · intro _
        exact ⟨_, rfl⟩
    · intro f hf
      cases hf
      rfl
    · intro h2
      exact absurd h2.symm h

/-- C5 as stated fails: restoring a stream of stored capacity 7 into a queue of capacity 4
stops with `ConfigMismatchError`, yet the ring pointer, 6 before the call, is 2 after it. -/
theorem deserialize_mismatch_overwrites_pointer :
    deserialize busyQueue4 [2, 7, 1, 1, 1, 1, 1, 1, 1] =
        .fail ⟨QueueError.ConfigMismatchError, { busyQueue4 with m_idxQueue := 2 }⟩ ∧
      storedCapacity [2, 7, 1, 1, 1, 1, 1, 1, 1] ≠ busyQueue4.m_nMaxEvent ∧
      ({ busyQueue4 with m_idxQueue := 2 } : EventQueue).m_idxQueue ≠ busyQueue4.m_idxQueue := by
  decide

/-- C5, amended: when the stored capacity differs from the configured one, `deserialize`
stops with `ConfigMismatchError` before the capacity, any bitmask word or any other member
is overwritten, the ring pointer excepted: it already holds the pointer field of the
stream. -/
theorem deserialize_mismatch_state (q : EventQueue) (input : List Nat)
    (h : storedCapacity input ≠ q.m_nMaxEvent) :
    ∃ f, deserialize q input = .fail f ∧ f.error = QueueError.ConfigMismatchError ∧
      f.state = { q with m_idxQueue := (readField input).1 } ∧
      f.state.m_nMaxEvent = q.m_nMaxEvent ∧ f.state.m_queueEvent = q.m_queueEvent := by
  unfold storedCapacity at h
  refine ⟨⟨QueueError.ConfigMismatchError, { q with m_idxQueue := (readField input).1 }⟩,
    ?_, rfl, rfl, rfl, rfl⟩
  unfold deserialize
  simp only []
  rw [if_neg (fun h2 => h h2.symm)]

/-- C5, amended, concrete: the stream of stored capacity 7 against the queue of capacity 4. -/
theorem deserialize_mismatch_state_witness :
    ∃ f, deserialize busyQueue4 [2, 7, 1, 1, 1, 1, 1, 1, 1] = .fail f ∧
      f.error = QueueError.ConfigMismatchError ∧
      f.state = { busyQueue4 with m_idxQueue := (readField [2, 7, 1, 1, 1, 1, 1, 1, 1]).1 } ∧
      f.state.m_nMaxEvent = busyQueue4.m_nMaxEvent ∧
      f.state.m_queueEvent = busyQueue4.m_queueEvent :=
  deserialize_mismatch_state busyQueue4 [2, 7, 1, 1, 1, 1, 1, 1, 1] (by decide)

/-! ## The staged router -/

theorem getD_writeAt (vs : List Nat) : ∀ (buf : List Nat) (i j : Nat),
    (writeAt buf i vs).getD j 0 =
      if i ≤ j ∧ j < i + vs.length ∧ j < buf.length then vs.getD (j - i) 0
      else buf.getD j 0 := by
  induction vs with
  | nil =>
    intro buf i j
    rw [writeAt, if_neg (by simp; omega)]
  | cons v vs ih =>
    intro buf i j
    rw [writeAt, ih, List.length_set, List.length_cons]
    by_cases hj : i = j
    · subst hj
      rw [if_neg (by omega)]
      by_cases hlen : i < buf.length
      · rw [if_pos (by omega), getD_set_self _ _ _ hlen, Nat.sub_self]
        rfl
      · rw [if_neg (by omega), List.set_eq_of_length_le (by omega)]
    · rw [getD_set_ne _ _ _ _ hj]
      by_cases hc : i + 1 ≤ j ∧ j < i + 1 + vs.length ∧ j < buf.length
      · rw [if_pos hc, if_pos (by omega)]
        have : j - i = (j - (i + 1)) + 1 := by omega
        rw [this]
        rfl
      · rw [if_neg hc, if_neg (by omega)]

theorem length_writeAt (vs : List Nat) : ∀ (buf : List Nat) (i : Nat),
    (writeAt buf i vs).length = buf.length := by
  induction vs with
  | nil => intro buf i; rfl
  | cons v vs ih =>
    intro buf i
    rw [writeAt, ih, List.length_set]

theorem addAnEvent_foreign_room (cfg : BuildConfig) (map : SynapseIndexMap) (q : EventQueue)
    (idx clusterID : Nat) (hgpu : cfg.USE_GPU = true) (hc : clusterID ≠ q.m_clusterID)
    (hroom : q.m_nInterClustersOutgoingEvents < q.m_nMaxInterClustersOutgoingEvents) :
    addAnEvent cfg map q idx clusterID = .ok { q with
      m_interClustersOutgoingEvents :=
        q.m_interClustersOutgoingEvents.set q.m_nInterClustersOutgoingEvents
          (map.getOutgoingSynapseIndex clusterID idx)
      m_nInterClustersOutgoingEvents := q.m_nInterClustersOutgoingEvents + 1 } := by
  unfold addAnEvent
  rw [if_pos hc, if_pos hgpu, if_pos hroom]

theorem addAnEvent_foreign_full (cfg : BuildConfig) (map : SynapseIndexMap) (q : EventQueue)
    (idx clusterID : Nat) (hgpu : cfg.USE_GPU = true) (hc : clusterID ≠ q.m_clusterID)
    (hfull : ¬ q.m_nInterClustersOutgoingEvents < q.m_nMaxInterClustersOutgoingEvents) :
    addAnEvent cfg map q idx clusterID = .fail ⟨QueueError.CapacityExceededError, q⟩ := by
  unfold addAnEvent
  rw [if_pos hc, if_pos hgpu, if_neg hfull]

theorem addEvents_foreign (cfg : BuildConfig) (map : SynapseIndexMap)
    (hgpu : cfg.USE_GPU = true) (evs : List (Nat × Nat)) : ∀ (q : EventQueue),
    (∀ e ∈ evs, e.2 ≠ q.m_clusterID) →
    q.m_nInterClustersOutgoingEvents + evs.length ≤ q.m_nMaxInterClustersOutgoingEvents →
    addEvents cfg map q evs = .ok { q with
      m_interClustersOutgoingEvents :=
        writeAt q.m_interClustersOutgoingEvents q.m_nInterClustersOutgoingEvents
          (evs.map map.record)
      m_nInterClustersOutgoingEvents := q.m_nInterClustersOutgoingEvents + evs.length } := by
  induction evs with
  | nil =>
    intro q _ _
    rfl
  | cons e rest ih =>
    intro q hf hroom
    rw [List.length_cons] at hroom
    rw [addEvents, addAnEvent_foreign_room cfg map q e.1 e.2 hgpu
      (hf e (List.mem_cons_self _ _)) (by omega)]
    simp only [Outcome.andThen]
    refine Eq.trans (ih _ ?_ ?_) ?_
    · exact fun e1 h1 => hf e1 (List.mem_cons_of_mem _ h1)
    · simp only []
      omega
    · simp only [List.map_cons, writeAt, List.length_cons, SynapseIndexMap.record]
      congr 2
      omega

/-- C6: in the `USE_GPU` build, from an empty outgoing buffer of capacity `N`, any sequence of
at most `N` calls of `addAnEvent` to foreign clusters succeeds and leaves a count equal to
the number of calls, so each call adds one; after fewer than `N` calls one more call
succeeds and adds one, and after `N` calls one more call fails with
`CapacityExceededError` and leaves the object as it was. -/
theorem outgoing_capacity (cfg : BuildConfig) (map : SynapseIndexMap) (q : EventQueue)
    (hgpu : cfg.USE_GPU = true) (hempty : q.m_nInterClustersOutgoingEvents = 0)
    (evs : List (Nat × Nat)) (hforeign : ∀ e ∈ evs, e.2 ≠ q.m_clusterID)
    (hlen : evs.length ≤ q.m_nMaxInterClustersOutgoingEvents) :
    ∃ qk, addEvents cfg map q evs = .ok qk ∧
      qk.m_nInterClustersOutgoingEvents = evs.length ∧
      (∀ idx clusterID, clusterID ≠ q.m_clusterID →
        evs.length < q.m_nMaxInterClustersOutgoingEvents →
        ∃ qn, addAnEvent cfg map qk idx clusterID = .ok qn ∧
          qn.m_nInterClustersOutgoingEvents = evs.length + 1) ∧
      (∀ idx clusterID, clusterID ≠ q.m_clusterID →
        evs.length = q.m_nMaxInterClustersOutgoingEvents →
        addAnEvent cfg map qk idx clusterID =
          .fail ⟨QueueError.CapacityExceededError, qk⟩) := by
  refine ⟨_, addEvents_foreign cfg map hgpu evs q hforeign (by omega), ?_, ?_, ?_⟩
  · simp only [hempty, Nat.zero_add]
  · intro idx clusterID hc hlt
    refine ⟨_, addAnEvent_foreign_room cfg map _ idx clusterID hgpu ?_ ?_, ?_⟩
    · exact hc
    · simp only [hempty, Nat.zero_add]
      exact hlt
    · simp only [hempty, Nat.zero_add]
  · intro idx clusterID hc heq
    refine addAnEvent_foreign_full cfg map _ idx clusterID hgpu ?_ ?_
    · exact hc
    · simp only [hempty, Nat.zero_add]
      omega

/-- C6, concrete: two foreign events fill the buffer of capacity 2; a third one fails. -/
theorem outgoing_capacity_witness :
    ∃ qk, addEvents cfgGpu32 shiftMap deviceQueue2 [(3, 1), (0, 2)] = .ok qk ∧
      qk.m_nInterClustersOutgoingEvents = [(3, 1), (0, 2)].length ∧
      (∀ idx clusterID, clusterID ≠ deviceQueue2.m_clusterID →
        [(3, 1), (0, 2)].length < deviceQueue2.m_nMaxInterClustersOutgoingEvents →
        ∃ qn, addAnEvent cfgGpu32 shiftMap qk idx clusterID = .ok qn ∧
          qn.m_nInterClustersOutgoingEvents = [(3, 1), (0, 2)].length + 1) ∧
      (∀ idx clusterID, clusterID ≠ deviceQueue2.m_clusterID →
        [(3, 1), (0, 2)].length = deviceQueue2.m_nMaxInterClustersOutgoingEvents →
        addAnEvent cfgGpu32 shiftMap qk idx clusterID =
          .fail ⟨QueueError.CapacityExceededError, qk⟩) :=
  outgoing_capacity cfgGpu32 shiftMap deviceQueue2 (by decide) (by decide) [(3, 1), (0, 2)]
    (by decide) (by decide)

theorem outgoingEventStep_ok (map : SynapseIndexMap) (q : EventQueue) (i : Nat)
    (h : InterClustersEventHandler) (e : Nat × Nat) (hh : q.m_eventHandler = some h)
    (hrec : q.m_interClustersOutgoingEvents.getD i 0 = map.record e)
    (hfaith : map.Faithful e.2 e.1) (hforeign : e.2 ≠ q.m_clusterID) :
    outgoingEventStep map q i =
      .ok { q with m_eventHandler := some ⟨h.received ++ [e]⟩ } := by
  unfold outgoingEventStep
  unfold SynapseIndexMap.Faithful at hfaith
  unfold SynapseIndexMap.record at hrec
  simp only [hrec, hfaith.1, hfaith.2, hh]
  rw [if_pos hforeign]
  rfl

theorem forLoop_outgoing (map : SynapseIndexMap) (evs : List (Nat × Nat)) :
    ∀ (i : Nat) (q : EventQueue) (h : InterClustersEventHandler),
    q.m_eventHandler = some h →
    (∀ k, k < evs.length →
      q.m_interClustersOutgoingEvents.getD (i + k) 0 = (evs.map map.record).getD k 0) →
    (∀ e ∈ evs, map.Faithful e.2 e.1 ∧ e.2 ≠ q.m_clusterID) →
    forLoop (outgoingEventStep map) i evs.length q =
      .ok { q with m_eventHandler := some ⟨h.received ++ evs⟩ } := by
  induction evs with
  | nil =>
    intro i q h hh _ _
    rw [List.append_nil, ← hh]
    rfl
  | cons e rest ih =>
    intro i q h hh hbuf hev
    have h0 := hbuf 0 (by simp)
    rw [Nat.add_zero] at h0
    have he := hev e (List.mem_cons_self _ _)
    rw [List.length_cons, forLoop,
      outgoingEventStep_ok map q i h e hh (by simpa using h0) he.1 he.2]
    simp only [Outcome.andThen]
    refine Eq.trans (ih (i + 1) _ ⟨h.received ++ [e]⟩ rfl ?_ ?_) ?_
    · intro k hk
      have := hbuf (k + 1) (by simp; omega)
      rw [show i + (k + 1) = i + 1 + k by omega] at this
      simpa using this
    · exact fun e1 h1 => hev e1 (List.mem_cons_of_mem _ h1)
    · simp

/-- C7: after the successful foreign calls `addAnEvent(idx_k, c_k)` of the list `evs` on the
device object, `processInterClustersOutgoingEvents` on the host object succeeds, the
registered handler has received exactly the calls `addAnEvent(idx_k, c_k)` of `evs`, in
enqueue order, after those it had received before, and the outgoing count of the host
object is 0. -/
theorem flush_outgoing (cfg : BuildConfig) (map : SynapseIndexMap) (hgpu : cfg.USE_GPU = true)
    (device host : EventQueue) (h : InterClustersEventHandler) (evs : List (Nat × Nat))
    (hempty : device.m_nInterClustersOutgoingEvents = 0)
    (halloc : device.m_interClustersOutgoingEvents.length
      = device.m_nMaxInterClustersOutgoingEvents)
    (hlen : evs.length ≤ device.m_nMaxInterClustersOutgoingEvents)
    (hforeign : ∀ e ∈ evs, e.2 ≠ device.m_clusterID)
    (hfaith : ∀ e ∈ evs, map.Faithful e.2 e.1)
    (hid : host.m_clusterID = device.m_clusterID) (hh : host.m_eventHandler = some h) :
    ∃ d, addEvents cfg map device evs = .ok d ∧
      ∃ host1, processInterClustersOutgoingEvents map host d = .ok host1 ∧
        host1.m_eventHandler = some ⟨h.received ++ evs⟩ ∧
        host1.m_nInterClustersOutgoingEvents = 0 := by
  refine ⟨_, addEvents_foreign cfg map hgpu evs device hforeign (by omega), ?_⟩
  unfold processInterClustersOutgoingEvents
  simp only [hempty, Nat.zero_add]
  rw [forLoop_outgoing map evs 0 _ h ?_ ?_ ?_]
  · simp only [Outcome.andThen]
    exact ⟨_, rfl, rfl, rfl⟩
  · exact hh
  · intro k hk
    simp only [memcpy, Nat.zero_add]
    have hk2 : k < (List.take evs.length (writeAt device.m_interClustersOutgoingEvents 0
        (evs.map map.record))).length := by
      rw [List.length_take]
      have := length_writeAt (evs.map map.record) device.m_interClustersOutgoingEvents 0
      omega
    rw [List.getD_eq_getElem?_getD, List.getElem?_append_left hk2, List.getElem?_take_of_lt hk,
      ← List.getD_eq_getElem?_getD, getD_writeAt, if_pos (by simp; omega), Nat.sub_zero]
  · intro e he
    refine ⟨hfaith e he, ?_⟩
    simp only [hid]
    exact hforeign e he

/-- C7, concrete: two foreign events staged on the device and flushed by the host. -/
theorem flush_outgoing_witness :
    ∃ d, addEvents cfgGpu32 shiftMap deviceQueue2 [(3, 1), (0, 2)] = .ok d ∧
      ∃ host1, processInterClustersOutgoingEvents shiftMap hostQueue2 d = .ok host1 ∧
        host1.m_eventHandler =
          some ⟨({ received := [] } : InterClustersEventHandler).received ++ [(3, 1), (0, 2)]⟩ ∧
        host1.m_nInterClustersOutgoingEvents = 0 :=
  flush_outgoing cfgGpu32 shiftMap (by decide) deviceQueue2 hostQueue2 { received := [] }
    [(3, 1), (0, 2)] (by decide) (by decide) (by decide) (by decide) (by decide) (by decide)
    (by decide)

/-! ## The epoch scheduler -/

theorem toU64_cast (x : Int) (h0 : 0 ≤ x) (h1 : x < 2 ^ 64) : ((toU64 x : Nat) : Int) = x := by
  unfold toU64
  rw [Int.emod_eq_of_lt h0 h1, Int.toNat_of_nonneg h0]

theorem toI32_small (x : Int) (h0 : 0 ≤ x) (h1 : x < 2 ^ 31) : toI32 x = x := by
  unfold toI32
  have : x % 2 ^ 32 = x := Int.emod_eq_of_lt h0 (by omega)
  rw [this, if_pos h1]

theorem advanceLoop_done (m : Int) (endStep fuel g : Nat) (calls : List (Nat × Int))
    (h : ¬ g < endStep) : advanceLoop m endStep fuel g calls = some (g, calls) := by
  cases fuel <;> simp [advanceLoop, h]

theorem advanceLoop_step (m : Int) (endStep fuel g : Nat) (calls : List (Nat × Int))
    (hm : 1 ≤ m) (hend : endStep < 2 ^ 64) (hg : g < endStep) (hr : endStep - g < 2 ^ 31) :
    ∃ s : Nat, (s : Int) = min (((endStep : Int)) - (g : Int)) m ∧ 1 ≤ s ∧ g + s ≤ endStep ∧
      advanceLoop m endStep (fuel + 1) g calls =
        advanceLoop m endStep fuel (g + s) (calls ++ [(g, (s : Int))]) := by
  have hd0 : (0 : Int) ≤ (endStep : Int) - (g : Int) := by omega
  have hu : ((toU64 ((endStep : Int) - (g : Int)) : Nat) : Int) = (endStep : Int) - (g : Int) :=
    toU64_cast _ hd0 (by omega)
  have hi : toI32 (toU64 ((endStep : Int) - (g : Int))) = (endStep : Int) - (g : Int) := by
    rw [hu]
    exact toI32_small _ hd0 (by omega)
  have hmin : (if (endStep : Int) - (g : Int) < m then (endStep : Int) - (g : Int) else m)
      = min ((endStep : Int) - (g : Int)) m := by
    by_cases hc : (endStep : Int) - (g : Int) < m
    · rw [if_pos hc, min_eq_left (le_of_lt hc)]
    · rw [if_neg hc, min_eq_right (by omega)]
  have hpos : 1 ≤ min ((endStep : Int) - (g : Int)) m := le_min (by omega) hm
  have hle : min ((endStep : Int) - (g : Int)) m ≤ (endStep : Int) - (g : Int) := min_le_left _ _
  refine ⟨(min ((endStep : Int) - (g : Int)) m).toNat, Int.toNat_of_nonneg (by omega), ?_, ?_, ?_⟩
  · omega
  · omega
  · rw [advanceLoop, if_pos hg]
    simp only [hi, hmin]
    have hs : (((min ((endStep : Int) - (g : Int)) m).toNat : Nat) : Int)
        = min ((endStep : Int) - (g : Int)) m := Int.toNat_of_nonneg (by omega)
    have hg1 : toU64 ((g : Int) + min ((endStep : Int) - (g : Int)) m)
        = g + (min ((endStep : Int) - (g : Int)) m).toNat := by
      have := toU64_cast ((g : Int) + min ((endStep : Int) - (g : Int)) m) (by omega) (by omega)
      omega
    rw [hg1, hs]

theorem advanceLoop_total (m : Int) (endStep : Nat) (hm : 1 ≤ m) (hend : endStep < 2 ^ 64) :
    ∀ (r g : Nat), g ≤ endStep → endStep - g = r → r < 2 ^ 31 →
    ∃ new : List (Nat × Int),
      (∀ (calls : List (Nat × Int)) (fuel : Nat), r ≤ fuel →
        advanceLoop m endStep fuel g calls = some (endStep, calls ++ new)) ∧
      (new.map Prod.snd).sum = (r : Int) ∧
      ∀ c ∈ new, g ≤ c.1 ∧ c.1 < endStep ∧ c.2 = min ((endStep : Int) - (c.1 : Int)) m := by
  intro r
  induction r using Nat.strong_induction_on with
  | _ r ih =>
    intro g hg hr hsmall
    by_cases hlt : g < endStep
    · obtain ⟨s, hs, hs1, hs2, _⟩ := advanceLoop_step m endStep 0 g [] hm hend hlt (by omega)
      obtain ⟨new, hrun, hsum, hall⟩ := ih (r - s) (by omega) (g + s) hs2 (by omega) (by omega)
      refine ⟨(g, (s : Int)) :: new, ?_, ?_, ?_⟩
      · intro calls fuel hfuel
        obtain ⟨fuel1, rfl⟩ : ∃ fuel1, fuel = fuel1 + 1 := ⟨fuel - 1, by omega⟩
        obtain ⟨s1, hs3, _, _, hstep⟩ :=
          advanceLoop_step m endStep fuel1 g calls hm hend hlt (by omega)
        have hss : s1 = s := by omega
        subst hss
        rw [hstep, hrun _ fuel1 (by omega)]
        simp
      · rw [List.map_cons, List.sum_cons, hsum]
        simp only []
        omega
      · intro c hc
        rcases List.mem_cons.mp hc with rfl | hc
        · exact ⟨le_refl _, hlt, hs⟩
        · obtain ⟨h1, h2, h3⟩ := hall c hc
          exact ⟨by omega, h2, h3⟩
    · refine ⟨[], ?_, ?_, ?_⟩
      · intro calls fuel _
        have hge : g = endStep := by omega
        rw [advanceLoop_done m endStep fuel g calls hlt, hge]
        simp
      · simp
        omega
      · intro c hc
        cases hc

/-- C8 as stated fails.  With `minSynapticTransDelay = 0` the loop never ends, whatever the
number of rounds.  With 2^31 steps in the epoch the first step size is `-2^31`, not
`min(2^31, 3) = 3`, and the loop ends away from `endStep`.  With `g_simulationStep` at
`2^64 - 1` the sum `endStep` wraps around and no step is issued at all. -/
theorem advanceUntilGrowth_unguarded :
    (¬ ∃ fuel, advanceUntilGrowth fuel 0 10 0 ≠ none) ∧
      advanceUntilGrowth 5 0 (2 ^ 31) 3 = some (2 ^ 64 - 2 ^ 31, [(0, -2 ^ 31)]) ∧
      advanceUntilGrowth 5 (2 ^ 64 - 1) 2 3 = some (2 ^ 64 - 1, []) := by
  refine ⟨?_, by decide, by decide⟩
  rintro ⟨fuel, hfuel⟩
  apply hfuel
  have key : ∀ (fuel : Nat) (calls : List (Nat × Int)), advanceLoop 0 10 fuel 0 calls = none := by
    intro fuel
    induction fuel with
    | zero => intro calls; rfl
    | succ n ih =>
      intro calls
      rw [advanceLoop, if_pos (by decide)]
      have h1 : toI32 (toU64 (((10 : Nat) : Int) - ((0 : Nat) : Int))) = 10 := by decide
      have h2 : toU64 (((0 : Nat) : Int) + 0) = 0 := by decide
      simp only [h1, show ¬ ((10 : Int) < 0) by decide, if_false, h2]
      exact ih _
  exact key fuel []

/-- C8, amended: when the step count `R` of the epoch is below 2^31, `minSynapticTransDelay`
is at least 1 and `g_simulationStep + R` fits 64 bits, the loop of `advanceUntilGrowth` ends
within `R` rounds with `g_simulationStep = endStep`; every step size passed to
`model->advance` equals `min(endStep - g_simulationStep, minSynapticTransDelay)` at its
round, and the sizes sum to `R`. -/
theorem advanceUntilGrowth_steps (g R : Nat) (m : Int) (hm : 1 ≤ m) (hR : R < 2 ^ 31)
    (hg : g + R < 2 ^ 64) :
    ∃ calls : List (Nat × Int),
      (∀ fuel, R ≤ fuel → advanceUntilGrowth fuel g R m = some (g + R, calls)) ∧
      (calls.map Prod.snd).sum = (R : Int) ∧
      ∀ c ∈ calls, c.1 < g + R ∧ c.2 = min (((g + R : Nat) : Int) - (c.1 : Int)) m := by
  have hend : toU64 ((g : Int) + (R : Int)) = g + R := by
    have := toU64_cast ((g : Int) + (R : Int)) (by omega) (by omega)
    omega
  obtain ⟨new, hrun, hsum, hall⟩ :=
    advanceLoop_total m (g + R) hm hg R g (by omega) (by omega) hR
  refine ⟨new, ?_, hsum, fun c hc => ⟨(hall c hc).2.1, (hall c hc).2.2⟩⟩
  intro fuel hfuel
  unfold advanceUntilGrowth
  simp only [hend]
  rw [hrun [] fuel hfuel]
  simp

/-- C8, amended, concrete: 10 steps with a minimum delay of 3 are issued as 3, 3, 3, 1. -/
theorem advanceUntilGrowth_steps_witness :
    (∃ calls : List (Nat × Int),
      (∀ fuel, 10 ≤ fuel → advanceUntilGrowth fuel 0 10 3 = some (0 + 10, calls)) ∧
      (calls.map Prod.snd).sum = ((10 : Nat) : Int) ∧
      ∀ c ∈ calls, c.1 < 0 + 10 ∧ c.2 = min (((0 + 10 : Nat) : Int) - (c.1 : Int)) 3) ∧
    advanceUntilGrowth 10 0 10 3 = some (10, [(0, 3), (3, 3), (6, 3), (9, 1)]) :=
  ⟨advanceUntilGrowth_steps 0 10 3 (by decide) (by decide) (by decide), by decide⟩

/-! ## Single operations on the ring -/

theorem testBit_lt_of_fit (w k n : Nat) (hw : w < 2 ^ n) (hb : w.testBit k = true) : k < n := by
  by_contra hk
  have h1 : 2 ^ n ≤ 2 ^ k := Nat.pow_le_pow_right (by decide) (by omega)
  have h2 := Nat.testBit_lt_two_pow (lt_of_lt_of_le hw h1)
  rw [hb] at h2
  cases h2

theorem getD_fit (cfg : BuildConfig) (q : EventQueue) (hfit : q.WordsFit cfg) (i : Nat) :
    q.m_queueEvent.getD i 0 < 2 ^ cfg.WORD_BITS := by
  by_cases h : i < q.m_queueEvent.length
  · rw [List.getD_eq_getElem _ _ h]
    exact hfit _ (List.getElem_mem h)
  · rw [List.getD_eq_default _ _ (by omega)]
    exact Nat.two_pow_pos _

theorem set_getD_self (l : List Nat) (i : Nat) : l.set i (l.getD i 0) = l := by
  by_cases h : i < l.length
  · rw [List.getD_eq_getElem _ _ h]
    apply List.ext_getElem
    · simp
    · intro j h1 h2
      by_cases hj : i = j
      · subst hj
        simp
      · simp [List.getElem_set, hj]
  · exact List.set_eq_of_length_le (by omega)

theorem resetEvent_of_clear (cfg : BuildConfig) (w k : Nat) (hw : w < 2 ^ cfg.WORD_BITS)
    (hk : w.testBit k = false) : resetEvent cfg w k = w := by
  apply Nat.eq_of_testBit_eq
  intro j
  rw [testBit_resetEvent]
  cases hj : w.testBit j
  · rfl
  · have h1 : j < cfg.WORD_BITS := testBit_lt_of_fit w j _ hw hj
    have h2 : k ≠ j := by
      intro h
      subst h
      rw [hk] at hj
      cases hj
    simp [h1, h2]

/-- C9: `checkAnEvent(idx)` on a slot whose bit at the ring pointer is clear returns false
and leaves the whole object as it was; on any object, a `checkAnEvent(idx)` issued right
after another `checkAnEvent(idx)` returns false; `clearAnEvent(idx)` applied twice gives
the same object as applied once. -/
theorem checkAnEvent_idempotent (cfg : BuildConfig) (q : EventQueue) (idx : Nat) :
    (q.WordsFit cfg → q.bit idx q.m_idxQueue = false → checkAnEvent cfg q idx = (false, q)) ∧
      (checkAnEvent cfg (checkAnEvent cfg q idx).2 idx).1 = false ∧
      clearAnEvent (clearAnEvent q idx) idx = clearAnEvent q idx := by
  refine ⟨?_, ?_, ?_⟩
  · intro hfit hclear
    unfold EventQueue.bit at hclear
    unfold checkAnEvent
    simp only [testEvent_eq_testBit, hclear,
      resetEvent_of_clear cfg _ _ (getD_fit cfg q hfit idx) hclear, set_getD_self]
  · simp only [checkAnEvent, testEvent_eq_testBit]
    by_cases h : idx < q.m_queueEvent.length
    · rw [getD_set_self _ _ _ h, testBit_resetEvent]
      simp
    · rw [List.set_eq_of_length_le (by omega), List.getD_eq_default _ _ (by omega)]
      exact Nat.zero_testBit _
  · simp only [clearAnEvent, List.set_set]

/-- C9, concrete: slot 3 of an empty queue, and slot 3 of a queue whose bit 6 is pending at
ring pointer 6. -/
theorem checkAnEvent_idempotent_witness :
    checkAnEvent cfgHost8 emptyQueue4 3 = (false, emptyQueue4) ∧
      (checkAnEvent cfgHost8 busyQueue4 3).1 = true ∧
      (checkAnEvent cfgHost8 (checkAnEvent cfgHost8 busyQueue4 3).2 3).1 = false :=
  ⟨(checkAnEvent_idempotent cfgHost8 emptyQueue4 3).1 (by decide) (by decide), by decide,
    (checkAnEvent_idempotent cfgHost8 busyQueue4 3).2.1⟩

/-- C10: on a clear target bit, `addAnEvent(idx, delay)` succeeds and sets bit
`(p + delay) mod L` of word `idx`; every other bit of that word, every other word, the
ring pointer and all other members are unchanged. -/
theorem addAnEventDelay_sets_exactly (cfg : BuildConfig) (hcfg : cfg.Valid) (q : EventQueue)
    (idx delay : Nat) (halloc : q.Allocated) (hfit : q.WordsFit cfg)
    (hidx : idx < q.m_nMaxEvent)
    (hp : q.m_idxQueue < cfg.LENGTH_OF_DELAYQUEUE) (hd : delay < cfg.LENGTH_OF_DELAYQUEUE)
    (hclear : q.bit idx ((q.m_idxQueue + delay) % cfg.LENGTH_OF_DELAYQUEUE) = false) :
    ∃ q1, addAnEventDelay cfg q idx (delay : Int) = .ok q1 ∧
      q1.bit idx ((q.m_idxQueue + delay) % cfg.LENGTH_OF_DELAYQUEUE) = true ∧
      (∀ k, k ≠ (q.m_idxQueue + delay) % cfg.LENGTH_OF_DELAYQUEUE →
        q1.bit idx k = q.bit idx k) ∧
      (∀ i, i ≠ idx → q1.m_queueEvent.getD i 0 = q.m_queueEvent.getD i 0) ∧
      q1.m_queueEvent.length = q.m_queueEvent.length ∧
      q1.m_idxQueue = q.m_idxQueue ∧
      q1 = { q with m_queueEvent := q1.m_queueEvent } := by
  have hL32 := valid_lt cfg hcfg
  have hW : cfg.LENGTH_OF_DELAYQUEUE ≤ cfg.WORD_BITS := hcfg.1
  have hlen : idx < q.m_queueEvent.length := by
    unfold EventQueue.Allocated at halloc
    omega
  have ht : (q.m_idxQueue + delay) % cfg.LENGTH_OF_DELAYQUEUE < cfg.LENGTH_OF_DELAYQUEUE :=
    Nat.mod_lt _ (by omega)
  obtain ⟨q1, hq1⟩ : ∃ q1 : EventQueue, q1 = { q with m_queueEvent := (q.m_queueEvent.set idx
      (setEvent cfg (q.m_queueEvent.getD idx 0)
        ((q.m_idxQueue + delay) % cfg.LENGTH_OF_DELAYQUEUE))) } := ⟨_, rfl⟩
  have hw : q1.m_queueEvent = q.m_queueEvent.set idx (setEvent cfg (q.m_queueEvent.getD idx 0)
      ((q.m_idxQueue + delay) % cfg.LENGTH_OF_DELAYQUEUE)) := by rw [hq1]
  refine ⟨q1, ?_, ?_, ?_, ?_, ?_, ?_, ?_⟩
  · unfold addAnEventDelay
    simp only [delayedIndex_eq cfg (by omega) _ _ hp hd, testEvent_eq_testBit]
    unfold EventQueue.bit at hclear
    rw [hclear, hq1]
    rfl
  · unfold EventQueue.bit
    rw [hw, getD_set_self _ _ _ hlen, testBit_setEvent]
    simp
    omega
  · intro k hk
    unfold EventQueue.bit
    rw [hw, getD_set_self _ _ _ hlen, testBit_setEvent]
    cases hb : (q.m_queueEvent.getD idx 0).testBit k
    · simp [Ne.symm hk]
    · have := testBit_lt_of_fit _ k _ (getD_fit cfg q hfit idx) hb
      simp [this]
  · intro i hi
    rw [hw, getD_set_ne _ _ _ _ (Ne.symm hi)]
  · rw [hw, List.length_set]
  · rw [hq1]
  · rw [hq1]

/-- C10, concrete: delay 5 on slot 1 of the queue with pointer 6 and horizon 8 sets bit 3. -/
theorem addAnEventDelay_sets_exactly_witness :
    ∃ q1, addAnEventDelay cfgHost8 busyQueue4 1 ((5 : Nat) : Int) = .ok q1 ∧
      q1.bit 1 ((busyQueue4.m_idxQueue + 5) % cfgHost8.LENGTH_OF_DELAYQUEUE) = true ∧
      (∀ k, k ≠ (busyQueue4.m_idxQueue + 5) % cfgHost8.LENGTH_OF_DELAYQUEUE →
        q1.bit 1 k = busyQueue4.bit 1 k) ∧
      (∀ i, i ≠ 1 → q1.m_queueEvent.getD i 0 = busyQueue4.m_queueEvent.getD i 0) ∧
      q1.m_queueEvent.length = busyQueue4.m_queueEvent.length ∧
      q1.m_idxQueue = busyQueue4.m_idxQueue ∧
      q1 = { busyQueue4 with m_queueEvent := q1.m_queueEvent } :=
  addAnEventDelay_sets_exactly cfgHost8 (by decide) busyQueue4 1 5 (by decide) (by decide)
    (by decide) (by decide) (by decide) (by decide)

/-! ## Test, set and reset of one bit of the array -/

theorem setEvent_lt (cfg : BuildConfig) (w k : Nat) : setEvent cfg w k < 2 ^ cfg.WORD_BITS :=
  Nat.mod_lt _ (Nat.two_pow_pos _)

theorem bit_set_setEvent (cfg : BuildConfig) (ws : List Nat) (i p j k : Nat)
    (hi : i < ws.length) (hw : ws.getD i 0 < 2 ^ cfg.WORD_BITS) (hp : p < cfg.WORD_BITS) :
    ((ws.set i (setEvent cfg (ws.getD i 0) p)).getD j 0).testBit k =
      ((ws.getD j 0).testBit k || (decide (j = i) && decide (k = p))) := by
  by_cases hj : j = i
  · subst hj
    rw [getD_set_self _ _ _ hi, testBit_setEvent]
    cases hb : (ws.getD j 0).testBit k
    · by_cases hk : k = p
      · subst hk
        simp [hp]
      · simp [hk, Ne.symm hk]
    · have := testBit_lt_of_fit _ k _ hw hb
      simp [this]
  · rw [getD_set_ne _ _ _ _ (Ne.symm hj)]
    simp [hj]

theorem bit_set_resetEvent (cfg : BuildConfig) (ws : List Nat) (i t j k : Nat)
    (hw : ws.getD i 0 < 2 ^ cfg.WORD_BITS) :
    ((ws.set i (resetEvent cfg (ws.getD i 0) t)).getD j 0).testBit k =
      ((ws.getD j 0).testBit k && !(decide (j = i) && decide (k = t))) := by
  by_cases hj : j = i
  · subst hj
    by_cases hi : j < ws.length
    · rw [getD_set_self _ _ _ hi, testBit_resetEvent]
      cases hb : (ws.getD j 0).testBit k
      · simp
      · have := testBit_lt_of_fit _ k _ hw hb
        by_cases hk : k = t
        · subst hk
          simp
        · simp [this, hk, Ne.symm hk]
    · rw [List.set_eq_of_length_le (by omega), List.getD_eq_default _ _ (by omega)]
      simp
  · rw [getD_set_ne _ _ _ _ (Ne.symm hj)]
    simp [hj]

theorem addAnEvent_own (cfg : BuildConfig) (map : SynapseIndexMap) (q : EventQueue)
    (idx : Nat) :
    addAnEvent cfg map q idx q.m_clusterID =
      if (q.m_queueEvent.getD idx 0).testBit q.m_idxQueue then
        .fail ⟨QueueError.DoubleScheduleError, q⟩
      else .ok { q with m_queueEvent :=
        (q.m_queueEvent.set idx (setEvent cfg (q.m_queueEvent.getD idx 0) q.m_idxQueue)) } := by
  unfold addAnEvent
  simp only [ne_eq, not_true_eq_false, if_false, testEvent_eq_testBit]

theorem addAnEventDelay_eq (cfg : BuildConfig) (q : EventQueue) (idx : Nat) (delay : Int) :
    addAnEventDelay cfg q idx delay =
      if (q.m_queueEvent.getD idx 0).testBit (delayedIndex cfg q.m_idxQueue delay) then
        .fail ⟨QueueError.DoubleScheduleError, q⟩
      else .ok { q with m_queueEvent := (q.m_queueEvent.set idx
        (setEvent cfg (q.m_queueEvent.getD idx 0) (delayedIndex cfg q.m_idxQueue delay))) } := by
  unfold addAnEventDelay
  simp only [testEvent_eq_testBit]

/-- C11: when the target bit of word `idx` is already set, `addAnEvent(idx, ownClusterID)`
and `addAnEvent(idx, delay)` stop with `DoubleScheduleError` and leave the object as it
was; the target bit of the delayed call is bit `(p + delay) mod L` when pointer and delay
are below the horizon. -/
theorem double_schedule_detected (cfg : BuildConfig) (map : SynapseIndexMap) (q : EventQueue)
    (idx : Nat) :
    (q.bit idx q.m_idxQueue = true →
      addAnEvent cfg map q idx q.m_clusterID =
        .fail ⟨QueueError.DoubleScheduleError, q⟩) ∧
    (∀ delay : Int, q.bit idx (delayedIndex cfg q.m_idxQueue delay) = true →
      addAnEventDelay cfg q idx delay = .fail ⟨QueueError.DoubleScheduleError, q⟩) ∧
    (∀ delay : Nat, cfg.Valid → q.m_idxQueue < cfg.LENGTH_OF_DELAYQUEUE →
      delay < cfg.LENGTH_OF_DELAYQUEUE →
      q.bit idx ((q.m_idxQueue + delay) % cfg.LENGTH_OF_DELAYQUEUE) = true →
      addAnEventDelay cfg q idx (delay : Int) =
        .fail ⟨QueueError.DoubleScheduleError, q⟩) := by
  refine ⟨?_, ?_, ?_⟩
  · intro h
    unfold EventQueue.bit at h
    rw [addAnEvent_own, if_pos h]
  · intro delay h
    unfold EventQueue.bit at h
    rw [addAnEventDelay_eq, if_pos h]
  · intro delay hcfg hp hd h
    unfold EventQueue.bit at h
    have hL := valid_lt cfg hcfg
    rw [addAnEventDelay_eq, delayedIndex_eq cfg (by omega) _ _ hp hd, if_pos h]

/-- C11, concrete: word 3 of the example queue has bit 6 set and the pointer is 6; an
immediate event on slot 3 and an event of delay 2 on slot 1 (target bit 0) both fail. -/
theorem double_schedule_detected_witness :
    addAnEvent cfgHost8 shiftMap busyQueue4 3 busyQueue4.m_clusterID =
        .fail ⟨QueueError.DoubleScheduleError, busyQueue4⟩ ∧
      addAnEventDelay cfgHost8 busyQueue4 1 ((2 : Nat) : Int) =
        .fail ⟨QueueError.DoubleScheduleError, busyQueue4⟩ :=
  ⟨(double_schedule_detected cfgHost8 shiftMap busyQueue4 3).1 (by decide),
    (double_schedule_detected cfgHost8 shiftMap busyQueue4 1).2.2 2 (by decide) (by decide)
      (by decide) (by decide)⟩

/-- C12: on a clear bit at the ring pointer `p`, `addAnEvent(idx, clusterID)` with the own
cluster ID succeeds and sets bit `p` of word `idx`; every other bit of that word, every
other word, the ring pointer, the router buffers and the handler are unchanged, so the
handler has received no call. -/
theorem addAnEvent_own_sets_exactly (cfg : BuildConfig) (map : SynapseIndexMap)
    (hcfg : cfg.Valid) (q : EventQueue) (idx : Nat) (halloc : q.Allocated)
    (hfit : q.WordsFit cfg) (hidx : idx < q.m_nMaxEvent)
    (hp : q.m_idxQueue < cfg.LENGTH_OF_DELAYQUEUE)
    (hclear : q.bit idx q.m_idxQueue = false) :
    ∃ q1, addAnEvent cfg map q idx q.m_clusterID = .ok q1 ∧
      q1.bit idx q.m_idxQueue = true ∧
      (∀ k, k ≠ q.m_idxQueue → q1.bit idx k = q.bit idx k) ∧
      (∀ i, i ≠ idx → q1.m_queueEvent.getD i 0 = q.m_queueEvent.getD i 0) ∧
      q1.m_queueEvent.length = q.m_queueEvent.length ∧
      q1.m_idxQueue = q.m_idxQueue ∧
      q1.m_eventHandler = q.m_eventHandler ∧
      q1 = { q with m_queueEvent := q1.m_queueEvent } := by
  have hW : q.m_idxQueue < cfg.WORD_BITS := lt_of_lt_of_le hp hcfg.1
  have hlen : idx < q.m_queueEvent.length := by
    unfold EventQueue.Allocated at halloc
    omega
  have hw := getD_fit cfg q hfit idx
  unfold EventQueue.bit at hclear
  obtain ⟨q1, hq1⟩ : ∃ q1 : EventQueue, q1 = { q with m_queueEvent :=
      (q.m_queueEvent.set idx (setEvent cfg (q.m_queueEvent.getD idx 0) q.m_idxQueue)) } :=
    ⟨_, rfl⟩
  have hws : q1.m_queueEvent =
      q.m_queueEvent.set idx (setEvent cfg (q.m_queueEvent.getD idx 0) q.m_idxQueue) := by
    rw [hq1]
  refine ⟨q1, ?_, ?_, ?_, ?_, ?_, ?_, ?_, ?_⟩
  · rw [addAnEvent_own, if_neg (by rw [hclear]; decide), hq1]
  · unfold EventQueue.bit
    rw [hws, bit_set_setEvent cfg _ _ _ _ _ hlen hw hW]
    simp
  · intro k hk
    unfold EventQueue.bit
    rw [hws, bit_set_setEvent cfg _ _ _ _ _ hlen hw hW]
    simp [hk]
  · intro i hi
    rw [hws, getD_set_ne _ _ _ _ (Ne.symm hi)]
  · rw [hws, List.length_set]
  · rw [hq1]
  · rw [hq1]
  · rw [hq1]

/-- C12, concrete: an immediate own-cluster event on slot 1 of the queue with pointer 6. -/
theorem addAnEvent_own_sets_exactly_witness :
    ∃ q1, addAnEvent cfgHost8 shiftMap busyQueue4 1 busyQueue4.m_clusterID = .ok q1 ∧
      q1.bit 1 busyQueue4.m_idxQueue = true ∧
      (∀ k, k ≠ busyQueue4.m_idxQueue → q1.bit 1 k = busyQueue4.bit 1 k) ∧
      (∀ i, i ≠ 1 → q1.m_queueEvent.getD i 0 = busyQueue4.m_queueEvent.getD i 0) ∧
      q1.m_queueEvent.length = busyQueue4.m_queueEvent.length ∧
      q1.m_idxQueue = busyQueue4.m_idxQueue ∧
      q1.m_eventHandler = busyQueue4.m_eventHandler ∧
      q1 = { busyQueue4 with m_queueEvent := q1.m_queueEvent } :=
  addAnEvent_own_sets_exactly cfgHost8 shiftMap (by decide) busyQueue4 1 (by decide)
    (by decide) (by decide) (by decide) (by decide)

/-- C13: `checkAnEvent(idx)` returns true exactly when bit `p` of word `idx` was set; after
the call that bit is clear, and every other bit of word `idx`, every other word, the ring
pointer and all other members are unchanged. -/
theorem checkAnEvent_spec (cfg : BuildConfig) (q : EventQueue) (idx : Nat)
    (hfit : q.WordsFit cfg) :
    (checkAnEvent cfg q idx).1 = q.bit idx q.m_idxQueue ∧
      (checkAnEvent cfg q idx).2.bit idx q.m_idxQueue = false ∧
      (∀ k, k ≠ q.m_idxQueue → (checkAnEvent cfg q idx).2.bit idx k = q.bit idx k) ∧
      (∀ i, i ≠ idx →
        (checkAnEvent cfg q idx).2.m_queueEvent.getD i 0 = q.m_queueEvent.getD i 0) ∧
      (checkAnEvent cfg q idx).2.m_queueEvent.length = q.m_queueEvent.length ∧
      (checkAnEvent cfg q idx).2.m_idxQueue = q.m_idxQueue ∧
      (checkAnEvent cfg q idx).2 =
        { q with m_queueEvent := (checkAnEvent cfg q idx).2.m_queueEvent } := by
  have hw := getD_fit cfg q hfit idx
  refine ⟨?_, ?_, ?_, ?_, ?_, rfl, rfl⟩
  · simp only [checkAnEvent, testEvent_eq_testBit, EventQueue.bit]
  · simp only [checkAnEvent, EventQueue.bit]
    rw [bit_set_resetEvent cfg _ _ _ _ _ hw]
    simp
  · intro k hk
    simp only [checkAnEvent, EventQueue.bit]
    rw [bit_set_resetEvent cfg _ _ _ _ _ hw]
    simp [hk]
  · intro i hi
    simp only [checkAnEvent]
    rw [getD_set_ne _ _ _ _ (Ne.symm hi)]
  · simp only [checkAnEvent, List.length_set]

/-- C13, concrete: slot 3 of the queue with pointer 6, whose word 64 has bit 6 set. -/
theorem checkAnEvent_spec_witness :
    ((checkAnEvent cfgHost8 busyQueue4 3).1 = busyQueue4.bit 3 busyQueue4.m_idxQueue ∧
      (checkAnEvent cfgHost8 busyQueue4 3).2.bit 3 busyQueue4.m_idxQueue = false ∧
      (∀ k, k ≠ busyQueue4.m_idxQueue →
        (checkAnEvent cfgHost8 busyQueue4 3).2.bit 3 k = busyQueue4.bit 3 k) ∧
      (∀ i, i ≠ 3 → (checkAnEvent cfgHost8 busyQueue4 3).2.m_queueEvent.getD i 0
        = busyQueue4.m_queueEvent.getD i 0) ∧
      (checkAnEvent cfgHost8 busyQueue4 3).2.m_queueEvent.length
        = busyQueue4.m_queueEvent.length ∧
      (checkAnEvent cfgHost8 busyQueue4 3).2.m_idxQueue = busyQueue4.m_idxQueue ∧
      (checkAnEvent cfgHost8 busyQueue4 3).2 =
        { busyQueue4 with m_queueEvent := (checkAnEvent cfgHost8 busyQueue4 3).2.m_queueEvent }) ∧
    (checkAnEvent cfgHost8 busyQueue4 3).1 = true :=
  ⟨checkAnEvent_spec cfgHost8 busyQueue4 3 (by decide), by decide⟩
theorem toI32_range (x : Int) (h0 : -(2 ^ 31) ≤ x) (h1 : x < 2 ^ 31) : toI32 x = x := by
  unfold toI32
  by_cases hx : 0 ≤ x
  · have : x % 2 ^ 32 = x := Int.emod_eq_of_lt hx (by omega)
    rw [this, if_pos h1]
  · have h2 : x % 2 ^ 32 = x + 2 ^ 32 := by
      have h3 : (x + 2 ^ 32) % 2 ^ 32 = x + 2 ^ 32 :=
        Int.emod_eq_of_lt (by omega) (by omega)
      rw [← h3, Int.add_emod_self]
    rw [h2, if_neg (by omega)]
    omega

theorem pastIndex_eq (cfg : BuildConfig) (hL : cfg.LENGTH_OF_DELAYQUEUE ≤ 2 ^ 30)
    (p delay : Nat) (hp : p < cfg.LENGTH_OF_DELAYQUEUE) (hd : delay < cfg.LENGTH_OF_DELAYQUEUE) :
    pastIndex cfg p (delay : Int) =
      ((p : Int) - (delay : Int)) % (cfg.LENGTH_OF_DELAYQUEUE : Int) := by
  unfold pastIndex
  have h1 : toI32 ((p : Int) - (delay : Int)) = (p : Int) - (delay : Int) :=
    toI32_range _ (by omega) (by omega)
  simp only [h1]
  by_cases hneg : (p : Int) - (delay : Int) < 0
  · rw [if_pos hneg, toI32_range _ (by omega) (by omega)]
    have h3 : ((p : Int) - (delay : Int) + (cfg.LENGTH_OF_DELAYQUEUE : Int))
        % (cfg.LENGTH_OF_DELAYQUEUE : Int)
        = (p : Int) - (delay : Int) + (cfg.LENGTH_OF_DELAYQUEUE : Int) :=
      Int.emod_eq_of_lt (by omega) (by omega)
    rw [← h3, Int.add_emod_self]
  · rw [if_neg hneg, Int.emod_eq_of_lt (by omega) (by omega)]

theorem pastIndex_after_advance (cfg : BuildConfig) (hcfg : cfg.Valid) (q0 : EventQueue)
    (delay : Nat) (hp : q0.m_idxQueue < cfg.LENGTH_OF_DELAYQUEUE)
    (hd : delay < cfg.LENGTH_OF_DELAYQUEUE) :
    pastIndex cfg ((advanceEventQueue cfg)^[delay] q0).m_idxQueue (delay : Int) =
      (q0.m_idxQueue : Int) := by
  have hL := valid_lt cfg hcfg
  rw [advanceEventQueue_iterate cfg (by omega) q0 hp]
  simp only []
  have hlt : (q0.m_idxQueue + delay) % cfg.LENGTH_OF_DELAYQUEUE < cfg.LENGTH_OF_DELAYQUEUE :=
    Nat.mod_lt _ (by omega)
  rw [pastIndex_eq cfg (by omega) _ _ hlt hd]
  by_cases hwrap : q0.m_idxQueue + delay < cfg.LENGTH_OF_DELAYQUEUE
  · rw [Nat.mod_eq_of_lt hwrap]
    have : ((q0.m_idxQueue + delay : Nat) : Int) - (delay : Int) = (q0.m_idxQueue : Int) := by
      omega
    rw [this, Int.emod_eq_of_lt (by omega) (by omega)]
  · have h1 : (q0.m_idxQueue + delay) % cfg.LENGTH_OF_DELAYQUEUE
        = q0.m_idxQueue + delay - cfg.LENGTH_OF_DELAYQUEUE := by
      rw [Nat.mod_eq_sub_mod (by omega), Nat.mod_eq_of_lt (by omega)]
    rw [h1]
    have h2 : ((q0.m_idxQueue + delay - cfg.LENGTH_OF_DELAYQUEUE : Nat) : Int) - (delay : Int)
        = (q0.m_idxQueue : Int) - (cfg.LENGTH_OF_DELAYQUEUE : Int) := by omega
    have h3 : ((q0.m_idxQueue : Int) - (cfg.LENGTH_OF_DELAYQUEUE : Int))
        % (cfg.LENGTH_OF_DELAYQUEUE : Int) = (q0.m_idxQueue : Int) := by
      have h4 := @Int.add_emod_self ((q0.m_idxQueue : Int) - (cfg.LENGTH_OF_DELAYQUEUE : Int))
        (cfg.LENGTH_OF_DELAYQUEUE : Int)
      rw [Int.sub_add_cancel] at h4
      rw [← h4]
      exact Int.emod_eq_of_lt (by omega) (by omega)
    rw [h2, h3]

/-- C14: with pointer `p` and `delay` below the horizon `L`, `checkAnEvent(idx, delay)` looks
at bit `(p - delay) mod L` of word `idx`: it returns true exactly when that bit was set,
clears that bit and changes nothing else.  That bit index is the value the ring pointer
had `delay` calls of `advanceEventQueue` earlier. -/
theorem checkAnEventDelay_spec (cfg : BuildConfig) (hcfg : cfg.Valid) (q : EventQueue)
    (idx delay : Nat) (hfit : q.WordsFit cfg)
    (hp : q.m_idxQueue < cfg.LENGTH_OF_DELAYQUEUE) (hd : delay < cfg.LENGTH_OF_DELAYQUEUE) :
    ∃ t : Nat, (t : Int) = ((q.m_idxQueue : Int) - (delay : Int))
        % (cfg.LENGTH_OF_DELAYQUEUE : Int) ∧
      t < cfg.LENGTH_OF_DELAYQUEUE ∧
      (checkAnEventDelay cfg q idx (delay : Int)).1 = q.bit idx t ∧
      (checkAnEventDelay cfg q idx (delay : Int)).2.bit idx t = false ∧
      (∀ k, k ≠ t → (checkAnEventDelay cfg q idx (delay : Int)).2.bit idx k = q.bit idx k) ∧
      (∀ i, i ≠ idx → (checkAnEventDelay cfg q idx (delay : Int)).2.m_queueEvent.getD i 0
        = q.m_queueEvent.getD i 0) ∧
      (checkAnEventDelay cfg q idx (delay : Int)).2 =
        { q with m_queueEvent := (checkAnEventDelay cfg q idx (delay : Int)).2.m_queueEvent } ∧
      (∀ q0 : EventQueue, q0.m_idxQueue < cfg.LENGTH_OF_DELAYQUEUE →
        ((advanceEventQueue cfg)^[delay] q0).m_idxQueue = q.m_idxQueue →
        q0.m_idxQueue = t) := by
  have hL := valid_lt cfg hcfg
  have hw := getD_fit cfg q hfit idx
  have hpast := pastIndex_eq cfg (by omega) _ _ hp hd
  have hnn : 0 ≤ ((q.m_idxQueue : Int) - (delay : Int)) % (cfg.LENGTH_OF_DELAYQUEUE : Int) :=
    Int.emod_nonneg _ (by omega)
  have hlt : ((q.m_idxQueue : Int) - (delay : Int)) % (cfg.LENGTH_OF_DELAYQUEUE : Int)
      < (cfg.LENGTH_OF_DELAYQUEUE : Int) := Int.emod_lt_of_pos _ (by omega)
  refine ⟨(pastIndex cfg q.m_idxQueue (delay : Int)).toNat, ?_, ?_, ?_, ?_, ?_, ?_, rfl, ?_⟩
  · rw [Int.toNat_of_nonneg (by rw [hpast]; exact hnn), hpast]
  · rw [hpast]
    omega
  · simp only [checkAnEventDelay, testEvent_eq_testBit, EventQueue.bit]
  · simp only [checkAnEventDelay, EventQueue.bit]
    rw [bit_set_resetEvent cfg _ _ _ _ _ hw]
    simp
  · intro k hk
    simp only [checkAnEventDelay, EventQueue.bit]
    rw [bit_set_resetEvent cfg _ _ _ _ _ hw]
    simp [hk]
  · intro i hi
    simp only [checkAnEventDelay]
    rw [getD_set_ne _ _ _ _ (Ne.symm hi)]
  · intro q0 hp0 hadv
    have h1 := pastIndex_after_advance cfg hcfg q0 delay hp0 hd
    rw [hadv] at h1
    rw [h1]
    simp

/-- C14, concrete: pointer 6, delay 7, horizon 8: the bit looked at is bit 7. -/
theorem checkAnEventDelay_spec_witness :
    ∃ t : Nat, (t : Int) = ((busyQueue4.m_idxQueue : Int) - ((7 : Nat) : Int))
        % (cfgHost8.LENGTH_OF_DELAYQUEUE : Int) ∧
      t < cfgHost8.LENGTH_OF_DELAYQUEUE ∧
      (checkAnEventDelay cfgHost8 busyQueue4 1 ((7 : Nat) : Int)).1 = busyQueue4.bit 1 t ∧
      (checkAnEventDelay cfgHost8 busyQueue4 1 ((7 : Nat) : Int)).2.bit 1 t = false ∧
      (∀ k, k ≠ t → (checkAnEventDelay cfgHost8 busyQueue4 1 ((7 : Nat) : Int)).2.bit 1 k
        = busyQueue4.bit 1 k) ∧
      (∀ i, i ≠ 1 →
        (checkAnEventDelay cfgHost8 busyQueue4 1 ((7 : Nat) : Int)).2.m_queueEvent.getD i 0
          = busyQueue4.m_queueEvent.getD i 0) ∧
      (checkAnEventDelay cfgHost8 busyQueue4 1 ((7 : Nat) : Int)).2 =
        { busyQueue4 with m_queueEvent :=
          (checkAnEventDelay cfgHost8 busyQueue4 1 ((7 : Nat) : Int)).2.m_queueEvent } ∧
      (∀ q0 : EventQueue, q0.m_idxQueue < cfgHost8.LENGTH_OF_DELAYQUEUE →
        ((advanceEventQueue cfgHost8)^[7] q0).m_idxQueue = busyQueue4.m_idxQueue →
        q0.m_idxQueue = t) :=
  checkAnEventDelay_spec cfgHost8 (by decide) busyQueue4 1 7 (by decide) (by decide) (by decide)

/-- C15: `clearAnEvent(idx)` on a slot below the capacity makes word `idx` zero whatever it
held, and leaves every other word, the ring pointer, the router buffers and all other
members unchanged; afterwards `checkAnEvent(idx, d)` returns false for every delay `d`, and
so does `checkAnEvent(idx)`. -/
theorem clearAnEvent_spec (cfg : BuildConfig) (q : EventQueue) (idx : Nat)
    (halloc : q.Allocated) (hidx : idx < q.m_nMaxEvent) :
    (clearAnEvent q idx).m_queueEvent.getD idx 0 = 0 ∧
      (clearAnEvent q idx).m_queueEvent.length = q.m_queueEvent.length ∧
      (∀ i, i ≠ idx →
        (clearAnEvent q idx).m_queueEvent.getD i 0 = q.m_queueEvent.getD i 0) ∧
      clearAnEvent q idx = { q with m_queueEvent := (clearAnEvent q idx).m_queueEvent } ∧
      (∀ d : Int, (checkAnEventDelay cfg (clearAnEvent q idx) idx d).1 = false) ∧
      (checkAnEvent cfg (clearAnEvent q idx) idx).1 = false := by
  have hlen : idx < q.m_queueEvent.length := by
    unfold EventQueue.Allocated at halloc
    omega
  have h0 : (clearAnEvent q idx).m_queueEvent.getD idx 0 = 0 := by
    simp only [clearAnEvent]
    exact getD_set_self _ _ _ hlen
  refine ⟨h0, ?_, ?_, rfl, ?_, ?_⟩
  · simp only [clearAnEvent, List.length_set]
  · intro i hi
    simp only [clearAnEvent]
    rw [getD_set_ne _ _ _ _ (Ne.symm hi)]
  · intro d
    simp only [checkAnEventDelay, testEvent_eq_testBit]
    rw [h0]
    exact Nat.zero_testBit _
  · simp only [checkAnEvent, testEvent_eq_testBit]
    rw [h0]
    exact Nat.zero_testBit _

/-- C15, concrete: clearing slot 3 of the queue whose word 3 is 64. -/
theorem clearAnEvent_spec_witness :
    (clearAnEvent busyQueue4 3).m_queueEvent.getD 3 0 = 0 ∧
      (clearAnEvent busyQueue4 3).m_queueEvent.length = busyQueue4.m_queueEvent.length ∧
      (∀ i, i ≠ 3 →
        (clearAnEvent busyQueue4 3).m_queueEvent.getD i 0 = busyQueue4.m_queueEvent.getD i 0) ∧
      clearAnEvent busyQueue4 3 =
        { busyQueue4 with m_queueEvent := (clearAnEvent busyQueue4 3).m_queueEvent } ∧
      (∀ d : Int, (checkAnEventDelay cfgHost8 (clearAnEvent busyQueue4 3) 3 d).1 = false) ∧
      (checkAnEvent cfgHost8 (clearAnEvent busyQueue4 3) 3).1 = false :=
  clearAnEvent_spec cfgHost8 busyQueue4 3 (by decide) (by decide)
/-! ## The ring pointer, construction and the checkpoint layout -/

theorem addAnEvent_state_idxQueue (cfg : BuildConfig) (map : SynapseIndexMap) (q : EventQueue)
    (idx clusterID : Nat) :
    (addAnEvent cfg map q idx clusterID).state.m_idxQueue = q.m_idxQueue := by
  unfold addAnEvent
  cases h : q.m_eventHandler <;> simp only [] <;> split_ifs <;> rfl

theorem advanceEventQueue_lt (cfg : BuildConfig) (hL : 0 < cfg.LENGTH_OF_DELAYQUEUE)
    (q : EventQueue) : (advanceEventQueue cfg q).m_idxQueue < cfg.LENGTH_OF_DELAYQUEUE := by
  unfold advanceEventQueue
  simp only []
  split_ifs with h
  · exact hL
  · simp only []
    omega

/-- C16: the ring pointer is below the horizon after construction; both `addAnEvent`, both
`checkAnEvent` and `clearAnEvent` leave it unchanged, whether they return or stop; and
`advanceEventQueue` leaves it below the horizon and maps a pointer `p` below the horizon
to `(p + 1) mod L`. -/
theorem ring_pointer_invariant (cfg : BuildConfig) (map : SynapseIndexMap) (hcfg : cfg.Valid)
    (hL : 0 < cfg.LENGTH_OF_DELAYQUEUE) :
    EventQueue.new.m_idxQueue < cfg.LENGTH_OF_DELAYQUEUE ∧
    (∀ (fresh : Nat → Nat) (clusterID nMaxEvent nOut nIn : Nat),
      (initEventQueue cfg fresh EventQueue.new clusterID nMaxEvent nOut nIn).m_idxQueue
        < cfg.LENGTH_OF_DELAYQUEUE) ∧
    ∀ (q : EventQueue) (idx clusterID : Nat) (delay : Int),
      (addAnEvent cfg map q idx clusterID).state.m_idxQueue = q.m_idxQueue ∧
      (addAnEventDelay cfg q idx delay).state.m_idxQueue = q.m_idxQueue ∧
      (checkAnEvent cfg q idx).2.m_idxQueue = q.m_idxQueue ∧
      (checkAnEventDelay cfg q idx delay).2.m_idxQueue = q.m_idxQueue ∧
      (clearAnEvent q idx).m_idxQueue = q.m_idxQueue ∧
      (advanceEventQueue cfg q).m_idxQueue < cfg.LENGTH_OF_DELAYQUEUE ∧
      (q.m_idxQueue < cfg.LENGTH_OF_DELAYQUEUE →
        (advanceEventQueue cfg q).m_idxQueue
          = (q.m_idxQueue + 1) % cfg.LENGTH_OF_DELAYQUEUE) := by
  have hL32 := valid_lt cfg hcfg
  refine ⟨hL, ?_, ?_⟩
  · intro fresh clusterID nMaxEvent nOut nIn
    unfold initEventQueue
    simp only []
    split_ifs <;> exact hL
  · intro q idx clusterID delay
    refine ⟨addAnEvent_state_idxQueue cfg map q idx clusterID, ?_, rfl, rfl, rfl,
      advanceEventQueue_lt cfg hL q, ?_⟩
    · rw [addAnEventDelay_eq]
      split_ifs <;> rfl
    · intro hp
      rw [advanceEventQueue_eq cfg (by omega) q hp]

/-- C16, concrete: the build with a horizon of 8. -/
theorem ring_pointer_invariant_witness :
    EventQueue.new.m_idxQueue < cfgHost8.LENGTH_OF_DELAYQUEUE ∧
    (∀ (fresh : Nat → Nat) (clusterID nMaxEvent nOut nIn : Nat),
      (initEventQueue cfgHost8 fresh EventQueue.new clusterID nMaxEvent nOut nIn).m_idxQueue
        < cfgHost8.LENGTH_OF_DELAYQUEUE) ∧
    ∀ (q : EventQueue) (idx clusterID : Nat) (delay : Int),
      (addAnEvent cfgHost8 shiftMap q idx clusterID).state.m_idxQueue = q.m_idxQueue ∧
      (addAnEventDelay cfgHost8 q idx delay).state.m_idxQueue = q.m_idxQueue ∧
      (checkAnEvent cfgHost8 q idx).2.m_idxQueue = q.m_idxQueue ∧
      (checkAnEventDelay cfgHost8 q idx delay).2.m_idxQueue = q.m_idxQueue ∧
      (clearAnEvent q idx).m_idxQueue = q.m_idxQueue ∧
      (advanceEventQueue cfgHost8 q).m_idxQueue < cfgHost8.LENGTH_OF_DELAYQUEUE ∧
      (q.m_idxQueue < cfgHost8.LENGTH_OF_DELAYQUEUE →
        (advanceEventQueue cfgHost8 q).m_idxQueue
          = (q.m_idxQueue + 1) % cfgHost8.LENGTH_OF_DELAYQUEUE) :=
  ring_pointer_invariant cfgHost8 shiftMap (by decide) (by decide)

/-- C17 at a concrete allocation: `initEventQueue(0, 2)` on a new object, when the array
returned by `new BGQUEUE_ELEMENT[2]` holds 1 in each word.  The queue has 2 words and ring
pointer 0, but the words are not zero: `checkAnEvent(0)` and `checkAnEvent(0, 0)` return
true.  The same holds in the `USE_GPU` build. -/
theorem initEventQueue_words_not_zeroed :
    dirtyQueue2.m_queueEvent = [1, 1] ∧ dirtyQueue2.m_nMaxEvent = 2 ∧
      dirtyQueue2.m_idxQueue = 0 ∧
      (checkAnEvent cfgHost8 dirtyQueue2 0).1 = true ∧
      (checkAnEventDelay cfgHost8 dirtyQueue2 0 0).1 = true ∧
      (initEventQueue cfgGpu32 (fun _ => 1) EventQueue.new 0 2 0 0).m_queueEvent = [1, 1] := by
  decide

/-- C18: the stream written by `serialize` is the ring pointer, then `m_nMaxEvent`, then the
words of index `0` to `m_nMaxEvent - 1` in this order, `m_nMaxEvent + 2` fields in all; two
queues with the same pointer, capacity and words give the same stream whatever their other
members; for an allocated queue the stream is pointer, capacity, then the array itself. -/
theorem serialize_layout (q : EventQueue) :
    (serialize q).length = q.m_nMaxEvent + 2 ∧
      (serialize q).getD 0 0 = q.m_idxQueue ∧
      (serialize q).getD 1 0 = q.m_nMaxEvent ∧
      (∀ i, i < q.m_nMaxEvent → (serialize q).getD (i + 2) 0 = q.m_queueEvent.getD i 0) ∧
      (∀ q2 : EventQueue, q2.m_idxQueue = q.m_idxQueue → q2.m_nMaxEvent = q.m_nMaxEvent →
        q2.m_queueEvent = q.m_queueEvent → serialize q2 = serialize q) ∧
      (q.Allocated → serialize q = q.m_idxQueue :: q.m_nMaxEvent :: q.m_queueEvent) := by
  refine ⟨?_, rfl, rfl, ?_, ?_, ?_⟩
  · simp [serialize]
  · intro i hi
    simp [serialize, List.getD_eq_getElem?_getD, hi]
  · intro q2 h1 h2 h3
    simp only [serialize, h1, h2, h3]
  · intro halloc
    unfold EventQueue.Allocated at halloc
    simp only [serialize, List.cons_append, List.nil_append]
    rw [← halloc, serialize_words]

/-- C18, concrete: the stream of the example queue, and of the same queue with a handler
and staged events. -/
theorem serialize_layout_witness :
    serialize busyQueue4 = [6, 4, 0, 5, 0, 64] ∧
      serialize { busyQueue4 with
        m_clusterID := 9
        m_eventHandler := some { received := [(1, 2)] }
        m_nInterClustersIncomingEvents := 1
        m_interClustersIncomingEvents := [3] } = serialize busyQueue4 :=
  ⟨(serialize_layout busyQueue4).2.2.2.2.2 (by decide),
    (serialize_layout busyQueue4).2.2.2.2.1 _ rfl rfl rfl⟩

/-- C19: with `k` records in an incoming buffer of capacity `M`: when `k < M`,
`addAnInterClustersIncomingEvent(idx)` succeeds, stores `idx` at position `k`, makes the
count `k + 1` and changes no other record, no ring word and no other member; when `k = M`
it stops with `CapacityExceededError` and leaves the object as it was. -/
theorem incoming_accept (q : EventQueue) (idx : Nat)
    (halloc : q.m_interClustersIncomingEvents.length = q.m_nMaxInterClustersIncomingEvents) :
    (q.m_nInterClustersIncomingEvents < q.m_nMaxInterClustersIncomingEvents →
      ∃ q1, addAnInterClustersIncomingEvent q idx = .ok q1 ∧
        q1.m_interClustersIncomingEvents.getD q.m_nInterClustersIncomingEvents 0 = idx ∧
        q1.m_nInterClustersIncomingEvents = q.m_nInterClustersIncomingEvents + 1 ∧
        (∀ j, j ≠ q.m_nInterClustersIncomingEvents →
          q1.m_interClustersIncomingEvents.getD j 0
            = q.m_interClustersIncomingEvents.getD j 0) ∧
        q1.m_interClustersIncomingEvents.length = q.m_interClustersIncomingEvents.length ∧
        q1.m_queueEvent = q.m_queueEvent ∧
        q1 = { q with
          m_interClustersIncomingEvents := q1.m_interClustersIncomingEvents
          m_nInterClustersIncomingEvents := q1.m_nInterClustersIncomingEvents }) ∧
    (q.m_nInterClustersIncomingEvents = q.m_nMaxInterClustersIncomingEvents →
      addAnInterClustersIncomingEvent q idx =
        .fail ⟨QueueError.CapacityExceededError, q⟩) := by
  refine ⟨?_, ?_⟩
  · intro hroom
    obtain ⟨q1, hq1⟩ : ∃ q1 : EventQueue, q1 = { q with
        m_interClustersIncomingEvents :=
          q.m_interClustersIncomingEvents.set q.m_nInterClustersIncomingEvents idx
        m_nInterClustersIncomingEvents := q.m_nInterClustersIncomingEvents + 1 } := ⟨_, rfl⟩
    have hb : q1.m_interClustersIncomingEvents =
        q.m_interClustersIncomingEvents.set q.m_nInterClustersIncomingEvents idx := by rw [hq1]
    refine ⟨q1, ?_, ?_, ?_, ?_, ?_, ?_, ?_⟩
    · unfold addAnInterClustersIncomingEvent
      rw [if_pos hroom, hq1]
    · rw [hb, getD_set_self _ _ _ (by omega)]
    · rw [hq1]
    · intro j hj
      rw [hb, getD_set_ne _ _ _ _ (Ne.symm hj)]
    · rw [hb, List.length_set]
    · rw [hq1]
    · rw [hq1]
  · intro hfull
    unfold addAnInterClustersIncomingEvent
    rw [if_neg (by omega)]

/-- C19, concrete: the buffer of capacity 3 holding 2 records accepts one more record, and
refuses a further one. -/
theorem incoming_accept_witness :
    (∃ q1, addAnInterClustersIncomingEvent incomingQueue 3 = .ok q1 ∧
        q1.m_interClustersIncomingEvents = [2, 0, 3] ∧
        q1.m_nInterClustersIncomingEvents = 3 ∧
        addAnInterClustersIncomingEvent q1 1 =
          .fail ⟨QueueError.CapacityExceededError, q1⟩) :=
  ⟨_, by decide, by decide, by decide,
    (incoming_accept { incomingQueue with
        m_interClustersIncomingEvents := [2, 0, 3]
        m_nInterClustersIncomingEvents := 3 } 1 (by decide)).2 (by decide)⟩
/-! ## Draining the incoming buffer -/

theorem incomingEventStep_eq (cfg : BuildConfig) (map : SynapseIndexMap) (q : EventQueue)
    (i : Nat) :
    incomingEventStep cfg q i =
      addAnEvent cfg map q (q.m_interClustersIncomingEvents.getD i 0) q.m_clusterID := by
  rw [addAnEvent_own]
  unfold incomingEventStep
  simp only [testEvent_eq_testBit]

theorem addAnEvent_own_frame (cfg : BuildConfig) (map : SynapseIndexMap) (q q1 : EventQueue)
    (idx : Nat) (h : addAnEvent cfg map q idx q.m_clusterID = .ok q1) :
    q1.m_clusterID = q.m_clusterID ∧
      q1.m_interClustersIncomingEvents = q.m_interClustersIncomingEvents := by
  rw [addAnEvent_own] at h
  split_ifs at h
  cases h
  exact ⟨rfl, rfl⟩

theorem forLoop_incoming (cfg : BuildConfig) (map : SynapseIndexMap) (n : Nat) :
    ∀ (i : Nat) (q : EventQueue),
    forLoop (incomingEventStep cfg) i n q =
      addEvents cfg map q ((List.range' i n).map
        (fun j => (q.m_interClustersIncomingEvents.getD j 0, q.m_clusterID))) := by
  induction n with
  | zero =>
    intro i q
    rfl
  | succ n ih =>
    intro i q
    rw [forLoop, List.range'_succ, List.map_cons, addEvents, incomingEventStep_eq cfg map]
    cases hstep : addAnEvent cfg map q (q.m_interClustersIncomingEvents.getD i 0) q.m_clusterID
      with
    | fail f => rfl
    | ok q1 =>
      obtain ⟨hc, hb⟩ := addAnEvent_own_frame cfg map q q1 _ hstep
      simp only [Outcome.andThen]
      rw [ih (i + 1) q1, hc, hb]

theorem wordsFit_set (cfg : BuildConfig) (q q1 : EventQueue) (i v : Nat)
    (hfit : q.WordsFit cfg) (hv : v < 2 ^ cfg.WORD_BITS)
    (hq1 : q1.m_queueEvent = q.m_queueEvent.set i v) : q1.WordsFit cfg := by
  intro w hw
  rw [hq1] at hw
  rcases List.mem_or_eq_of_mem_set hw with h | h
  · exact hfit w h
  · rw [h]
    exact hv

theorem addEvents_own (cfg : BuildConfig) (map : SynapseIndexMap) (p c : Nat)
    (hp : p < cfg.WORD_BITS) (staged : List Nat) :
    ∀ q : EventQueue, q.m_clusterID = c → q.m_idxQueue = p → q.WordsFit cfg →
    (∀ i ∈ staged, i < q.m_queueEvent.length) → staged.Nodup →
    (∀ i ∈ staged, q.bit i p = false) →
    ∃ q1, addEvents cfg map q (staged.map fun i => (i, c)) = .ok q1 ∧
      q1 = { q with m_queueEvent := q1.m_queueEvent } ∧
      q1.m_queueEvent.length = q.m_queueEvent.length ∧
      ∀ i k, q1.bit i k = (q.bit i k || (decide (i ∈ staged) && decide (k = p))) := by
  induction staged with
  | nil =>
    intro q _ _ _ _ _ _
    exact ⟨q, rfl, rfl, rfl, by simp⟩
  | cons i rest ih =>
    intro q hc hpq hfit hlen hnd hclear
    subst hc
    subst hpq
    obtain ⟨q2, hq2⟩ : ∃ q2 : EventQueue, q2 = { q with m_queueEvent :=
        (q.m_queueEvent.set i (setEvent cfg (q.m_queueEvent.getD i 0) q.m_idxQueue)) } := ⟨_, rfl⟩
    have hws : q2.m_queueEvent = q.m_queueEvent.set i (setEvent cfg (q.m_queueEvent.getD i 0) q.m_idxQueue) := by
      rw [hq2]
    have hi : i < q.m_queueEvent.length := hlen i (List.mem_cons_self _ _)
    have hbit0 : (q.m_queueEvent.getD i 0).testBit q.m_idxQueue = false :=
      hclear i (List.mem_cons_self _ _)
    have hstep : addAnEvent cfg map q i q.m_clusterID = .ok q2 := by
      rw [addAnEvent_own, if_neg (by rw [hbit0]; decide), hq2]
    have hbits : ∀ j k,
        q2.bit j k = (q.bit j k || (decide (j = i) && decide (k = q.m_idxQueue))) := by
      intro j k
      unfold EventQueue.bit
      rw [hws, bit_set_setEvent cfg _ _ _ _ _ hi (getD_fit cfg q hfit i) hp]
    have hnd2 := List.nodup_cons.mp hnd
    obtain ⟨q1, hrun, hframe, hlen1, hall⟩ := ih q2 (by rw [hq2]) (by rw [hq2])
      (wordsFit_set cfg q q2 i _ hfit (setEvent_lt cfg _ _) hws)
      (by
        intro j hj
        rw [hws, List.length_set]
        exact hlen j (List.mem_cons_of_mem _ hj))
      hnd2.2
      (by
        intro j hj
        rw [hbits, hclear j (List.mem_cons_of_mem _ hj)]
        have hne : j ≠ i := fun h => hnd2.1 (h ▸ hj)
        simp [hne])
    refine ⟨q1, ?_, ?_, ?_, ?_⟩
    · rw [List.map_cons, addEvents, hstep]
      exact hrun
    · rw [hframe, hq2]
    · rw [hlen1, hws, List.length_set]
    · intro j k
      rw [hall, hbits]
      simp only [List.mem_cons, Bool.decide_or]
      cases q.bit j k <;> cases decide (j = i) <;> cases decide (k = q.m_idxQueue) <;>
        cases decide (j ∈ rest) <;> rfl

/-- C20: `processInterClustersIncomingEventsInDevice` gives the same outcome as the
own-cluster `addAnEvent` applied to each staged index in staging order followed by setting
the incoming count to zero.  When the staged indices are inside the array, pairwise
different and their bit at the ring pointer `p` is clear, both succeed: afterwards bit `p`
of every staged word is set, no other bit of the queue has changed, and the incoming
count is 0. -/
theorem drain_incoming_refines (cfg : BuildConfig) (map : SynapseIndexMap) (q : EventQueue) :
    processInterClustersIncomingEventsInDevice cfg q = drainIncomingSpec cfg map q ∧
    (cfg.Valid → q.m_idxQueue < cfg.LENGTH_OF_DELAYQUEUE → q.WordsFit cfg →
      (∀ i ∈ stagedIncoming q, i < q.m_queueEvent.length) → (stagedIncoming q).Nodup →
      (∀ i ∈ stagedIncoming q, q.bit i q.m_idxQueue = false) →
      ∃ q1, processInterClustersIncomingEventsInDevice cfg q = .ok q1 ∧
        (∀ i ∈ stagedIncoming q, q1.bit i q.m_idxQueue = true) ∧
        (∀ i k, ¬ (i ∈ stagedIncoming q ∧ k = q.m_idxQueue) → q1.bit i k = q.bit i k) ∧
        q1.m_nInterClustersIncomingEvents = 0 ∧
        q1.m_idxQueue = q.m_idxQueue ∧
        q1.m_queueEvent.length = q.m_queueEvent.length) := by
  have heq : processInterClustersIncomingEventsInDevice cfg q = drainIncomingSpec cfg map q := by
    unfold processInterClustersIncomingEventsInDevice drainIncomingSpec stagedIncoming
    rw [forLoop_incoming cfg map, List.range_eq_range', List.map_map]
    rfl
  refine ⟨heq, ?_⟩
  intro hcfg hp hfit hlen hnd hclear
  obtain ⟨q1, hrun, hframe, hlen1, hall⟩ := addEvents_own cfg map q.m_idxQueue q.m_clusterID
    (lt_of_lt_of_le hp hcfg.1) (stagedIncoming q) q rfl rfl hfit hlen hnd hclear
  refine ⟨{ q1 with m_nInterClustersIncomingEvents := 0 }, ?_, ?_, ?_, rfl, ?_, hlen1⟩
  · rw [heq]
    unfold drainIncomingSpec
    rw [hrun]
    rfl
  · intro i hi
    have := hall i q.m_idxQueue
    unfold EventQueue.bit at this ⊢
    simp only []
    rw [this]
    simp [hi]
  · intro i k hik
    have := hall i k
    unfold EventQueue.bit at this ⊢
    simp only []
    rw [this]
    by_cases h1 : i ∈ stagedIncoming q
    · have : k ≠ q.m_idxQueue := fun h => hik ⟨h1, h⟩
      simp [this]
    · simp [h1]
  · simp only []
    rw [hframe]

/-- C20, concrete: the indices 2 and 0 staged on a queue with pointer 6: the drain succeeds,
sets bit 6 of the words 0 and 2, leaves word 1 and word 3 alone and empties the buffer. -/
theorem drain_incoming_refines_witness :
    (∃ q1, processInterClustersIncomingEventsInDevice cfgGpu32 incomingQueue = .ok q1 ∧
        (∀ i ∈ stagedIncoming incomingQueue, q1.bit i incomingQueue.m_idxQueue = true) ∧
        (∀ i k, ¬ (i ∈ stagedIncoming incomingQueue ∧ k = incomingQueue.m_idxQueue) →
          q1.bit i k = incomingQueue.bit i k) ∧
        q1.m_nInterClustersIncomingEvents = 0 ∧
        q1.m_idxQueue = incomingQueue.m_idxQueue ∧
        q1.m_queueEvent.length = incomingQueue.m_queueEvent.length) ∧
      (processInterClustersIncomingEventsInDevice cfgGpu32 incomingQueue).state.m_queueEvent
        = [64, 5, 64, 0] ∧
      stagedIncoming incomingQueue = [2, 0] :=
  ⟨(drain_incoming_refines cfgGpu32 shiftMap incomingQueue).2 (by decide) (by decide)
      (by decide) (by decide) (by decide) (by decide), by decide, by decide⟩

/-! ## Host and device copies, foreign events, restored pointers -/

/-- C22 at a concrete pair: the host mirror holds four empty words and pointer 0, the device
queue holds the words 0, 5, 0, 64 and pointer 6.  After `copyEventQueueDeviceToHost` the host
pointer is 6, but the host words are still empty and the device words have been overwritten
with the empty host words: the pending events of the device are lost. -/
theorem copyEventQueueDeviceToHost_direction :
    (copyEventQueueDeviceToHost hostMirror4 busyQueue4).1.m_idxQueue = 6 ∧
      (copyEventQueueDeviceToHost hostMirror4 busyQueue4).1.m_queueEvent = [0, 0, 0, 0] ∧
      (copyEventQueueDeviceToHost hostMirror4 busyQueue4).2.m_queueEvent = [0, 0, 0, 0] ∧
      busyQueue4.m_queueEvent = [0, 5, 0, 64] ∧
      (copyEventQueueDeviceToHost hostMirror4 busyQueue4).2.m_queueEvent
        = (copyEventQueueHostToDevice hostMirror4 busyQueue4).2.m_queueEvent := by
  decide

theorem addAnEvent_foreign_cases (cfg : BuildConfig) (map : SynapseIndexMap) (q : EventQueue)
    (idx clusterID : Nat) (hc : clusterID ≠ q.m_clusterID) :
    (addAnEvent cfg map q idx clusterID =
        .ok { q with
          m_interClustersOutgoingEvents :=
            q.m_interClustersOutgoingEvents.set q.m_nInterClustersOutgoingEvents
              (map.getOutgoingSynapseIndex clusterID idx)
          m_nInterClustersOutgoingEvents := q.m_nInterClustersOutgoingEvents + 1 } ∧
        cfg.USE_GPU = true ∧
        q.m_nInterClustersOutgoingEvents < q.m_nMaxInterClustersOutgoingEvents) ∨
      (addAnEvent cfg map q idx clusterID = .fail ⟨QueueError.CapacityExceededError, q⟩ ∧
        cfg.USE_GPU = true) ∨
      (∃ h, q.m_eventHandler = some h ∧ cfg.USE_GPU = false ∧
        addAnEvent cfg map q idx clusterID =
          .ok { q with m_eventHandler := some (h.addAnEvent idx clusterID) }) ∨
      (addAnEvent cfg map q idx clusterID = .fail ⟨QueueError.NullEventHandler, q⟩ ∧
        cfg.USE_GPU = false) := by
  unfold addAnEvent
  rw [if_pos hc]
  by_cases hgpu : cfg.USE_GPU = true
  · rw [if_pos hgpu]
    by_cases hroom : q.m_nInterClustersOutgoingEvents < q.m_nMaxInterClustersOutgoingEvents
    · rw [if_pos hroom]
      exact Or.inl ⟨rfl, hgpu, hroom⟩
    · rw [if_neg hroom]
      exact Or.inr (Or.inl ⟨rfl, hgpu⟩)
  · rw [if_neg hgpu]
    have hf : cfg.USE_GPU = false := by
      cases h : cfg.USE_GPU
      · rfl
      · exact absurd h hgpu
    cases hh : q.m_eventHandler with
    | none => exact Or.inr (Or.inr (Or.inr ⟨rfl, hf⟩))
    | some h => exact Or.inr (Or.inr (Or.inl ⟨h, rfl, hf, rfl⟩))

/-- C23: `addAnEvent(idx, clusterID)` with a cluster ID other than the own one leaves every
bitmask word and the ring pointer as they were, whether it returns or stops: in the
`USE_GPU` build it appends one record to the outgoing buffer, otherwise it forwards the
event to the handler. -/
theorem addAnEvent_foreign_frame (cfg : BuildConfig) (map : SynapseIndexMap) (q : EventQueue)
    (idx clusterID : Nat) (hc : clusterID ≠ q.m_clusterID) :
    (addAnEvent cfg map q idx clusterID).state.m_queueEvent = q.m_queueEvent ∧
      (addAnEvent cfg map q idx clusterID).state.m_idxQueue = q.m_idxQueue ∧
      (addAnEvent cfg map q idx clusterID).state.m_nMaxEvent = q.m_nMaxEvent ∧
      (cfg.USE_GPU = true →
        q.m_nInterClustersOutgoingEvents < q.m_nMaxInterClustersOutgoingEvents →
        ∃ q1, addAnEvent cfg map q idx clusterID = .ok q1 ∧
          q1.m_nInterClustersOutgoingEvents = q.m_nInterClustersOutgoingEvents + 1 ∧
          q1.m_eventHandler = q.m_eventHandler) ∧
      (cfg.USE_GPU = false → ∀ h, q.m_eventHandler = some h →
        ∃ q1, addAnEvent cfg map q idx clusterID = .ok q1 ∧
          q1.m_eventHandler = some ⟨h.received ++ [(idx, clusterID)]⟩ ∧
          q1.m_interClustersOutgoingEvents = q.m_interClustersOutgoingEvents) := by
  have hcases := addAnEvent_foreign_cases cfg map q idx clusterID hc
  refine ⟨?_, ?_, ?_, ?_, ?_⟩
  · rcases hcases with ⟨h, _, _⟩ | ⟨h, _⟩ | ⟨_, _, _, h⟩ | ⟨h, _⟩ <;> rw [h] <;> rfl
  · rcases hcases with ⟨h, _, _⟩ | ⟨h, _⟩ | ⟨_, _, _, h⟩ | ⟨h, _⟩ <;> rw [h] <;> rfl
  · rcases hcases with ⟨h, _, _⟩ | ⟨h, _⟩ | ⟨_, _, _, h⟩ | ⟨h, _⟩ <;> rw [h] <;> rfl
  · intro hgpu hroom
    exact ⟨_, addAnEvent_foreign_room cfg map q idx clusterID hgpu hc hroom, rfl, rfl⟩
  · intro hgpu h hh
    rcases hcases with ⟨_, h1, _⟩ | ⟨_, h1⟩ | ⟨h2, hh2, _, hrun⟩ | ⟨hrun, _⟩
    · rw [hgpu] at h1
      cases h1
    · rw [hgpu] at h1
      cases h1
    · rw [hh] at hh2
      cases hh2
      exact ⟨_, hrun, rfl, rfl⟩
    · unfold addAnEvent at hrun
      rw [if_pos hc, if_neg (by rw [hgpu]; decide), hh] at hrun
      cases hrun

/-- C23, concrete: an event for cluster 1 on the device queue of cluster 0 (staged) and on
the host queue of cluster 0 in the build without `USE_GPU` (forwarded). -/
theorem addAnEvent_foreign_frame_witness :
    ((addAnEvent cfgGpu32 shiftMap deviceQueue2 3 1).state.m_queueEvent
        = deviceQueue2.m_queueEvent ∧
      (addAnEvent cfgGpu32 shiftMap deviceQueue2 3 1).state.m_idxQueue
        = deviceQueue2.m_idxQueue ∧
      (addAnEvent cfgGpu32 shiftMap deviceQueue2 3 1).state.m_nMaxEvent
        = deviceQueue2.m_nMaxEvent ∧
      (cfgGpu32.USE_GPU = true →
        deviceQueue2.m_nInterClustersOutgoingEvents
          < deviceQueue2.m_nMaxInterClustersOutgoingEvents →
        ∃ q1, addAnEvent cfgGpu32 shiftMap deviceQueue2 3 1 = .ok q1 ∧
          q1.m_nInterClustersOutgoingEvents
            = deviceQueue2.m_nInterClustersOutgoingEvents + 1 ∧
          q1.m_eventHandler = deviceQueue2.m_eventHandler) ∧
      (cfgGpu32.USE_GPU = false → ∀ h, deviceQueue2.m_eventHandler = some h →
        ∃ q1, addAnEvent cfgGpu32 shiftMap deviceQueue2 3 1 = .ok q1 ∧
          q1.m_eventHandler = some ⟨h.received ++ [(3, 1)]⟩ ∧
          q1.m_interClustersOutgoingEvents = deviceQueue2.m_interClustersOutgoingEvents)) ∧
    addAnEvent cfgHost8 shiftMap hostQueue2 3 1 =
      .ok { hostQueue2 with m_eventHandler := some { received := [(3, 1)] } } :=
  ⟨addAnEvent_foreign_frame cfgGpu32 shiftMap deviceQueue2 3 1 (by decide), by decide⟩

/-- C25 as stated fails: a stream whose stored capacity 4 matches the configured capacity
and whose pointer field is 40 is restored without error into a queue with ring pointer 40,
which is not below the horizon 8 (nor below the word width 32). -/
theorem deserialize_pointer_unchecked :
    storedCapacity [40, 4, 0, 0, 0, 0] = emptyQueue4.m_nMaxEvent ∧
      deserialize emptyQueue4 [40, 4, 0, 0, 0, 0] =
        .ok { emptyQueue4 with m_idxQueue := 40 } ∧
      ¬ ((deserialize emptyQueue4 [40, 4, 0, 0, 0, 0]).state.m_idxQueue
        < cfgHost8.LENGTH_OF_DELAYQUEUE) ∧
      ¬ ((deserialize emptyQueue4 [40, 4, 0, 0, 0, 0]).state.m_idxQueue
        < cfgHost8.WORD_BITS) := by
  decide

/-- C25, amended: when the stored capacity matches the configured one, `deserialize`
succeeds and the ring pointer of the result is the pointer field of the stream, unchecked;
so the result has its pointer below the horizon exactly when the stored pointer is, and
this is the case for every stream written by `serialize` from a queue whose pointer is
below the horizon. -/
theorem deserialize_pointer (cfg : BuildConfig) (q : EventQueue) (input : List Nat)
    (hcap : storedCapacity input = q.m_nMaxEvent) :
    ∃ r, deserialize q input = .ok r ∧ r.m_idxQueue = (readField input).1 ∧
      (r.m_idxQueue < cfg.LENGTH_OF_DELAYQUEUE ↔
        (readField input).1 < cfg.LENGTH_OF_DELAYQUEUE) ∧
      (∀ src : EventQueue, input = serialize src →
        src.m_idxQueue < cfg.LENGTH_OF_DELAYQUEUE →
        r.m_idxQueue < cfg.LENGTH_OF_DELAYQUEUE) := by
  unfold storedCapacity at hcap
  obtain ⟨r, hr⟩ : ∃ r : EventQueue, r = { q with
      m_idxQueue := (readField input).1
      m_nMaxEvent := (readField (readField input).2).1
      m_queueEvent := readWords q.m_queueEvent 0 (readField (readField input).2).1
        (readField (readField input).2).2 } := ⟨_, rfl⟩
  have hp : r.m_idxQueue = (readField input).1 := by rw [hr]
  refine ⟨r, ?_, hp, by rw [hp], ?_⟩
  · unfold deserialize
    simp only []
    rw [if_pos hcap.symm, hr]
  · intro src hsrc hlt
    rw [hp, hsrc]
    exact hlt

/-- C25, amended, concrete: the stream of the example queue (pointer 6, horizon 8) restored
into an empty queue of capacity 4. -/
theorem deserialize_pointer_witness :
    ∃ r, deserialize emptyQueue4 (serialize busyQueue4) = .ok r ∧
      r.m_idxQueue = (readField (serialize busyQueue4)).1 ∧
      (r.m_idxQueue < cfgHost8.LENGTH_OF_DELAYQUEUE ↔
        (readField (serialize busyQueue4)).1 < cfgHost8.LENGTH_OF_DELAYQUEUE) ∧
      (∀ src : EventQueue, serialize busyQueue4 = serialize src →
        src.m_idxQueue < cfgHost8.LENGTH_OF_DELAYQUEUE →
        r.m_idxQueue < cfgHost8.LENGTH_OF_DELAYQUEUE) :=
  deserialize_pointer cfgHost8 emptyQueue4 (serialize busyQueue4) (by decide)
/-! ## Visibility of a scheduled event -/

theorem mod_add_cancel (L p d k : Nat) (hd : d < L) :
    (p + d) % L = (p + k) % L ↔ k % L = d := by
  constructor
  · intro h
    have h1 : Nat.ModEq L (p + d) (p + k) := h
    have h2 : Nat.ModEq L d k := Nat.ModEq.add_left_cancel' p h1
    have h3 : d % L = k % L := h2
    rw [← h3, Nat.mod_eq_of_lt hd]
  · intro h
    have h2 : Nat.ModEq L d k := by
      show d % L = k % L
      rw [h, Nat.mod_eq_of_lt hd]
    exact Nat.ModEq.add_left p h2

/-- C27: on a slot whose word is zero, after `addAnEvent(idx, d)` with `d` below the horizon
`L` and `k` calls of `advanceEventQueue`, `checkAnEvent(idx)` returns true if and only if
`k mod L = d`. -/
theorem event_visible_iff (cfg : BuildConfig) (hcfg : cfg.Valid) (q : EventQueue)
    (idx d k : Nat) (halloc : q.Allocated) (hidx : idx < q.m_nMaxEvent)
    (hp : q.m_idxQueue < cfg.LENGTH_OF_DELAYQUEUE) (hd : d < cfg.LENGTH_OF_DELAYQUEUE)
    (hzero : q.m_queueEvent.getD idx 0 = 0) :
    ∃ q1, addAnEventDelay cfg q idx (d : Int) = .ok q1 ∧
      ((checkAnEvent cfg ((advanceEventQueue cfg)^[k] q1) idx).1 = true ↔
        k % cfg.LENGTH_OF_DELAYQUEUE = d) := by
  have hL32 := valid_lt cfg hcfg
  have hW : cfg.LENGTH_OF_DELAYQUEUE ≤ cfg.WORD_BITS := hcfg.1
  have hlen : idx < q.m_queueEvent.length := by
    unfold EventQueue.Allocated at halloc
    omega
  have hk : (q.m_idxQueue + k) % cfg.LENGTH_OF_DELAYQUEUE < cfg.LENGTH_OF_DELAYQUEUE :=
    Nat.mod_lt _ (by omega)
  obtain ⟨q1, hq1⟩ : ∃ q1 : EventQueue, q1 = { q with m_queueEvent := (q.m_queueEvent.set idx
      (setEvent cfg (q.m_queueEvent.getD idx 0)
        ((q.m_idxQueue + d) % cfg.LENGTH_OF_DELAYQUEUE))) } := ⟨_, rfl⟩
  have hi : q1.m_idxQueue = q.m_idxQueue := by rw [hq1]
  have hw : q1.m_queueEvent = q.m_queueEvent.set idx (setEvent cfg (q.m_queueEvent.getD idx 0)
      ((q.m_idxQueue + d) % cfg.LENGTH_OF_DELAYQUEUE)) := by rw [hq1]
  refine ⟨q1, ?_, ?_⟩
  · rw [addAnEventDelay_eq, delayedIndex_eq cfg (by omega) _ _ hp hd, hzero,
      if_neg (by rw [Nat.zero_testBit]; decide), hq1, hzero]
  · rw [advanceEventQueue_iterate cfg (by omega) q1 (by omega), hi]
    simp only [checkAnEvent, hw, getD_set_self _ _ _ hlen, testEvent_eq_testBit,
      testBit_setEvent, hzero, Nat.zero_testBit, Bool.false_or, Bool.and_eq_true,
      decide_eq_true_eq]
    rw [mod_add_cancel _ _ _ _ hd]
    constructor
    · intro h
      exact h.2
    · intro h
      exact ⟨by omega, h⟩

/-- C27, concrete: horizon 8, delay 5 on the empty slot 3; the event shows after 13 advances
(13 mod 8 = 5), and not after 4. -/
theorem event_visible_iff_witness :
    (∃ q1, addAnEventDelay cfgHost8 emptyQueue4 3 ((5 : Nat) : Int) = .ok q1 ∧
      ((checkAnEvent cfgHost8 ((advanceEventQueue cfgHost8)^[13] q1) 3).1 = true ↔
        13 % cfgHost8.LENGTH_OF_DELAYQUEUE = 5)) ∧
    (∃ q1, addAnEventDelay cfgHost8 emptyQueue4 3 ((5 : Nat) : Int) = .ok q1 ∧
      ((checkAnEvent cfgHost8 ((advanceEventQueue cfgHost8)^[4] q1) 3).1 = true ↔
        4 % cfgHost8.LENGTH_OF_DELAYQUEUE = 5)) :=
  ⟨event_visible_iff cfgHost8 (by decide) emptyQueue4 3 5 13 (by decide) (by decide)
      (by decide) (by decide) (by decide),
    event_visible_iff cfgHost8 (by decide) emptyQueue4 3 5 4 (by decide) (by decide)
      (by decide) (by decide) (by decide)⟩
/-! ## The stepping loop in detail -/

theorem ceil_div_step (r m s : Nat) (hm : 1 ≤ m) (hr : 0 < r)
    (hs : (s : Int) = min (r : Int) (m : Int)) :
    (r - s + m - 1) / m + 1 = (r + m - 1) / m := by
  by_cases hle : r ≤ m
  · have hsr : s = r := by
      have : min (r : Int) (m : Int) = r := min_eq_left (by omega)
      omega
    subst hsr
    have h1 : (s - s + m - 1) / m = 0 := Nat.div_eq_of_lt (by omega)
    have h2 : (s + m - 1) / m = 1 := Nat.div_eq_of_lt_le (by omega) (by omega)
    rw [h1, h2]
  · have hsm : s = m := by
      have : min (r : Int) (m : Int) = m := min_eq_right (by omega)
      omega
    subst hsm
    have h1 : r - s + s - 1 = r - 1 := by omega
    have h2 : r + s - 1 = (r - 1) + s := by omega
    rw [h1, h2, Nat.add_div_right _ (by omega)]

theorem advanceLoop_trace (m endStep : Nat) (hm : 1 ≤ m) (hend : endStep < 2 ^ 64) :
    ∀ (r g : Nat), g ≤ endStep → endStep - g = r → r < 2 ^ 31 →
    ∃ new : List (Nat × Int),
      (∀ (calls : List (Nat × Int)) (fuel : Nat), r ≤ fuel →
        advanceLoop (m : Int) endStep fuel g calls = some (endStep, calls ++ new)) ∧
      (∀ c ∈ new, g ≤ c.1 ∧ c.1 < endStep ∧ 1 ≤ c.2 ∧ c.2 ≤ (m : Int) ∧
        c.2 = min ((endStep : Int) - (c.1 : Int)) (m : Int) ∧
        (c.1 : Int) + c.2 ≤ (endStep : Int)) ∧
      new.Pairwise (fun a b => a.1 < b.1) ∧
      new.length = (r + m - 1) / m ∧
      (new.map Prod.snd).sum = (r : Int) := by
  intro r
  induction r using Nat.strong_induction_on with
  | _ r ih =>
    intro g hg hr hsmall
    by_cases hlt : g < endStep
    · obtain ⟨s, hs, hs1, hs2, _⟩ :=
        advanceLoop_step (m : Int) endStep 0 g [] (by omega) hend hlt (by omega)
      obtain ⟨new, hrun, hall, hpw, hlen, hsum⟩ :=
        ih (r - s) (by omega) (g + s) hs2 (by omega) (by omega)
      have hsm : (s : Int) ≤ (m : Int) := by
        rw [hs]
        exact min_le_right _ _
      refine ⟨(g, (s : Int)) :: new, ?_, ?_, ?_, ?_, ?_⟩
      · intro calls fuel hfuel
        obtain ⟨fuel1, rfl⟩ : ∃ fuel1, fuel = fuel1 + 1 := ⟨fuel - 1, by omega⟩
        obtain ⟨s1, hs3, _, _, hstep⟩ :=
          advanceLoop_step (m : Int) endStep fuel1 g calls (by omega) hend hlt (by omega)
        have hss : s1 = s := by omega
        subst hss
        rw [hstep, hrun _ fuel1 (by omega)]
        simp
      · intro c hc
        rcases List.mem_cons.mp hc with rfl | hc
        · exact ⟨le_refl _, hlt, by omega, hsm, hs, by simp only []; omega⟩
        · obtain ⟨h1, h2, h3⟩ := hall c hc
          exact ⟨by omega, h2, h3⟩
      · refine List.Pairwise.cons ?_ hpw
        intro b hb
        have := (hall b hb).1
        simp only []
        omega
      · rw [List.length_cons, hlen]
        have hs4 : (s : Int) = min (r : Int) (m : Int) := by
          rw [hs]
          congr 1
          omega
        exact ceil_div_step r m s hm (by omega) hs4
      · rw [List.map_cons, List.sum_cons, hsum]
        simp only []
        omega
    · have hr0 : r = 0 := by omega
      refine ⟨[], ?_, ?_, List.Pairwise.nil, ?_, ?_⟩
      · intro calls fuel _
        have hge : g = endStep := by omega
        rw [advanceLoop_done (m : Int) endStep fuel g calls hlt, hge]
        simp
      · intro c hc
        cases hc
      · rw [hr0]
        simp only [List.length_nil, Nat.zero_add]
        exact (Nat.div_eq_of_lt (by omega)).symm
      · simp
        omega

theorem advanceUntilGrowth_trace (g R m : Nat) (hm : 1 ≤ m) (hR : R < 2 ^ 31)
    (hg : g + R < 2 ^ 64) :
    ∃ calls : List (Nat × Int),
      (∀ fuel, R ≤ fuel → advanceUntilGrowth fuel g R (m : Int) = some (g + R, calls)) ∧
      (∀ c ∈ calls, g ≤ c.1 ∧ c.1 < g + R ∧ 1 ≤ c.2 ∧ c.2 ≤ (m : Int) ∧
        c.2 = min (((g + R : Nat) : Int) - (c.1 : Int)) (m : Int) ∧
        (c.1 : Int) + c.2 ≤ ((g + R : Nat) : Int)) ∧
      calls.Pairwise (fun a b => a.1 < b.1) ∧
      calls.length = (R + m - 1) / m ∧
      (calls.map Prod.snd).sum = (R : Int) := by
  have hend : toU64 ((g : Int) + (R : Int)) = g + R := by
    have := toU64_cast ((g : Int) + (R : Int)) (by omega) (by omega)
    omega
  obtain ⟨new, hrun, hall, hpw, hlen, hsum⟩ :=
    advanceLoop_trace m (g + R) hm hg R g (by omega) (by omega) hR
  refine ⟨new, ?_, hall, hpw, hlen, hsum⟩
  intro fuel hfuel
  unfold advanceUntilGrowth
  simp only [hend]
  rw [hrun [] fuel hfuel]
  simp

theorem advanceLoop_le (m : Int) (endStep : Nat) : ∀ (fuel g : Nat) (calls : List (Nat × Int))
    (r : Nat × List (Nat × Int)), (∀ c ∈ calls, c.2 ≤ m) →
    advanceLoop m endStep fuel g calls = some r → ∀ c ∈ r.2, c.2 ≤ m := by
  intro fuel
  induction fuel with
  | zero =>
    intro g calls r hcalls hrun
    unfold advanceLoop at hrun
    split_ifs at hrun
    cases hrun
    exact hcalls
  | succ n ih =>
    intro g calls r hcalls hrun
    unfold advanceLoop at hrun
    split_ifs at hrun with h1
    · refine ih _ _ r ?_ hrun
      intro c hc
      rcases List.mem_append.mp hc with hc | hc
      · exact hcalls c hc
      · rw [List.mem_singleton] at hc
        rw [hc]
        simp only []
        split_ifs with h2
        · exact le_of_lt h2
        · exact le_refl _
    · cases hrun
      exact hcalls

theorem epoch_start_fits (k maxSteps R : Nat) (hk : k < maxSteps) (hmax : maxSteps + 1 < 2 ^ 31)
    (hR : R < 2 ^ 31) : k * R + R < 2 ^ 64 := by
  have h1 : (k + 1) * R ≤ 2 ^ 31 * 2 ^ 31 := Nat.mul_le_mul (by omega) (by omega)
  have h2 : (k + 1) * R = k * R + R := by ring
  norm_num at h1
  omega

theorem toU64_lt (x : Int) : toU64 x < 2 ^ 64 := by
  unfold toU64
  omega

theorem endStep_wrapped (g R : Nat) (hR : R < 2 ^ 64) (hg : ¬ g + R < 2 ^ 64) :
    ¬ g < toU64 ((g : Int) + (R : Int)) := by
  unfold toU64
  omega

theorem advanceCalls_done (m : Int) (endStep fuel g : Nat) (calls : List (Nat × Int))
    (h : ¬ g < endStep) : advanceCalls m endStep fuel g calls = calls := by
  cases fuel <;> simp [advanceCalls, h]

theorem advanceCalls_of_advanceLoop (m : Int) (endStep : Nat) :
    ∀ (fuel g : Nat) (calls : List (Nat × Int)) (r : Nat × List (Nat × Int)),
    advanceLoop m endStep fuel g calls = some r → advanceCalls m endStep fuel g calls = r.2 := by
  intro fuel
  induction fuel with
  | zero =>
    intro g calls r hrun
    unfold advanceLoop at hrun
    split_ifs at hrun
    cases hrun
    rfl
  | succ n ih =>
    intro g calls r hrun
    by_cases h1 : g < endStep
    · rw [advanceLoop, if_pos h1] at hrun
      rw [advanceCalls, if_pos h1]
      exact ih _ _ r hrun
    · rw [advanceLoop_done m endStep _ g calls h1] at hrun
      rw [advanceCalls_done m endStep _ g calls h1]
      cases hrun
      rfl

theorem advanceCalls_prefix (m : Int) (endStep : Nat) :
    ∀ (fuel g : Nat) (calls : List (Nat × Int)),
    advanceCalls m endStep fuel g calls <+: advanceCalls m endStep (fuel + 1) g calls := by
  intro fuel
  induction fuel with
  | zero =>
    intro g calls
    by_cases h1 : g < endStep
    · rw [advanceCalls, advanceCalls, if_pos h1]
      exact List.prefix_append _ _
    · rw [advanceCalls_done m endStep _ g calls h1, advanceCalls_done m endStep _ g calls h1]
  | succ n ih =>
    intro g calls
    by_cases h1 : g < endStep
    · rw [advanceCalls, if_pos h1, advanceCalls, if_pos h1]
      exact ih _ _
    · rw [advanceCalls_done m endStep _ g calls h1, advanceCalls_done m endStep _ g calls h1]

theorem advanceCalls_le (m : Int) (endStep : Nat) :
    ∀ (fuel g : Nat) (calls : List (Nat × Int)), (∀ c ∈ calls, c.2 ≤ m) →
    ∀ c ∈ advanceCalls m endStep fuel g calls, c.2 ≤ m := by
  intro fuel
  induction fuel with
  | zero =>
    intro g calls hcalls
    exact hcalls
  | succ n ih =>
    intro g calls hcalls
    by_cases h1 : g < endStep
    · rw [advanceCalls, if_pos h1]
      refine ih _ _ ?_
      intro c hc
      rcases List.mem_append.mp hc with hc | hc
      · exact hcalls c hc
      · rw [List.mem_singleton] at hc
        rw [hc]
        simp only []
        split_ifs with h2
        · exact le_of_lt h2
        · exact le_refl _
    · rw [advanceCalls_done m endStep _ g calls h1]
      exact hcalls

theorem advanceCalls_pos (m : Int) (endStep : Nat) (hm : 1 ≤ m) (hend : endStep < 2 ^ 64) :
    ∀ (fuel g : Nat) (calls : List (Nat × Int)), (g < endStep → endStep - g < 2 ^ 31) →
    (∀ c ∈ calls, 1 ≤ c.2) → ∀ c ∈ advanceCalls m endStep fuel g calls, 1 ≤ c.2 := by
  intro fuel
  induction fuel with
  | zero =>
    intro g calls _ hcalls
    exact hcalls
  | succ n ih =>
    intro g calls hr hcalls
    by_cases h1 : g < endStep
    · have hr1 := hr h1
      have hd0 : (0 : Int) ≤ (endStep : Int) - (g : Int) := by omega
      have hu : ((toU64 ((endStep : Int) - (g : Int)) : Nat) : Int)
          = (endStep : Int) - (g : Int) := toU64_cast _ hd0 (by omega)
      have hi : toI32 (toU64 ((endStep : Int) - (g : Int))) = (endStep : Int) - (g : Int) := by
        rw [hu]
        exact toI32_small _ hd0 (by omega)
      rw [advanceCalls, if_pos h1]
      simp only [hi]
      by_cases h2 : (endStep : Int) - (g : Int) < m
      · simp only [if_pos h2]
        have hn : toU64 ((g : Int) + ((endStep : Int) - (g : Int))) = endStep := by
          have := toU64_cast ((g : Int) + ((endStep : Int) - (g : Int))) (by omega) (by omega)
          omega
        rw [hn]
        refine ih _ _ (by omega) ?_
        intro c hc
        rcases List.mem_append.mp hc with hc | hc
        · exact hcalls c hc
        · rw [List.mem_singleton] at hc
          rw [hc]
          simp only []
          omega
      · simp only [if_neg h2]
        have hn : ((toU64 ((g : Int) + m) : Nat) : Int) = (g : Int) + m :=
          toU64_cast ((g : Int) + m) (by omega) (by omega)
        refine ih _ _ (by omega) ?_
        intro c hc
        rcases List.mem_append.mp hc with hc | hc
        · exact hcalls c hc
        · rw [List.mem_singleton] at hc
          rw [hc]
          exact hm
    · rw [advanceCalls_done m endStep _ g calls h1]
      exact hcalls

theorem advanceUntilGrowth_ends (g R : Nat) (m : Int) (hm : 1 ≤ m) (hR : R < 2 ^ 31) :
    ∃ (g1 : Nat) (calls : List (Nat × Int)),
      (∀ fuel, R ≤ fuel → advanceUntilGrowth fuel g R m = some (g1, calls)) ∧
      ∀ c ∈ calls, 1 ≤ c.2 ∧ c.2 ≤ m := by
  by_cases hg : g + R < 2 ^ 64
  · have hcast : ((m.toNat : Nat) : Int) = m := Int.toNat_of_nonneg (by omega)
    obtain ⟨calls, hrun, hall, _, _, _⟩ :=
      advanceUntilGrowth_trace g R m.toNat (by omega) hR hg
    rw [hcast] at hrun hall
    exact ⟨g + R, calls, hrun, fun c hc => ⟨(hall c hc).2.2.1, (hall c hc).2.2.2.1⟩⟩
  · refine ⟨g, [], ?_, ?_⟩
    · intro fuel _
      unfold advanceUntilGrowth
      exact advanceLoop_done m _ fuel g [] (endStep_wrapped g R (by omega) hg)
    · intro c hc
      cases hc

theorem advanceUntilGrowthCalls_pos (g R : Nat) (m : Int) (hm : 1 ≤ m) (hR : R < 2 ^ 31) :
    ∀ fuel, ∀ c ∈ advanceUntilGrowthCalls fuel g R m, 1 ≤ c.2 := by
  intro fuel
  unfold advanceUntilGrowthCalls
  refine advanceCalls_pos m _ hm (toU64_lt _) fuel g [] ?_ (by intro c hc; cases hc)
  intro hlt
  by_cases hg : g + R < 2 ^ 64
  · have := toU64_cast ((g : Int) + (R : Int)) (by omega) (by omega)
    omega
  · exact absurd hlt (endStep_wrapped g R (by omega) hg)

/-- C26 as stated fails: with `2^31 + 5` steps in the epoch and `minSynapticTransDelay = 7`
the only step passed to `model->advance` is `5 - 2^31`, which is below 1. -/
theorem step_size_negative :
    advanceUntilGrowth 3 0 (2 ^ 31 + 5) 7 = some (2 ^ 64 - 2 ^ 31 + 5, [(0, 5 - 2 ^ 31)]) ∧
      (1 : Int) ≤ 7 ∧ ¬ ((1 : Int) ≤ 5 - 2 ^ 31) := by
  decide

/-- C26, amended: every step size that the loop of `Simulator::advanceUntilGrowth` passes to
`model->advance` is at most `minSynapticTransDelay`, in every round of every run, also of a
run that never ends; the calls so observed are those of the run when it returns.  When
`minSynapticTransDelay` is at least 1 and the step count `R` of the epoch is below 2^31,
every step size is at least 1 as well and the function returns within `R` rounds. -/
theorem step_size_bounds (g R : Nat) (m : Int) :
    (∀ fuel, ∀ c ∈ advanceUntilGrowthCalls fuel g R m, c.2 ≤ m) ∧
    (∀ fuel, advanceUntilGrowthCalls fuel g R m <+: advanceUntilGrowthCalls (fuel + 1) g R m) ∧
    (∀ (fuel g1 : Nat) (calls : List (Nat × Int)),
      advanceUntilGrowth fuel g R m = some (g1, calls) →
        advanceUntilGrowthCalls fuel g R m = calls ∧ ∀ c ∈ calls, c.2 ≤ m) ∧
    (1 ≤ m → R < 2 ^ 31 →
      (∀ fuel, ∀ c ∈ advanceUntilGrowthCalls fuel g R m, 1 ≤ c.2) ∧
      ∃ (g1 : Nat) (calls : List (Nat × Int)),
        (∀ fuel, R ≤ fuel → advanceUntilGrowth fuel g R m = some (g1, calls)) ∧
        ∀ c ∈ calls, 1 ≤ c.2 ∧ c.2 ≤ m) := by
  refine ⟨?_, ?_, ?_, ?_⟩
  · intro fuel
    unfold advanceUntilGrowthCalls
    exact advanceCalls_le m _ fuel g [] (by intro c hc; cases hc)
  · intro fuel
    unfold advanceUntilGrowthCalls
    exact advanceCalls_prefix m _ fuel g []
  · intro fuel g1 calls hrun
    unfold advanceUntilGrowth at hrun
    refine ⟨?_, ?_⟩
    · unfold advanceUntilGrowthCalls
      exact advanceCalls_of_advanceLoop m _ fuel g [] (g1, calls) hrun
    · exact advanceLoop_le m _ fuel g [] (g1, calls) (by intro c hc; cases hc) hrun
  · intro hm hR
    exact ⟨advanceUntilGrowthCalls_pos g R m hm hR, advanceUntilGrowth_ends g R m hm hR⟩

/-- C26, amended, concrete: 10 steps with a minimum delay of 3 are passed as 3, 3, 3, 1;
with a minimum delay of 0 the run never ends and every step passed is 0; from step
`2^64 - 2` the sum `endStep` wraps and no step is passed. -/
theorem step_size_bounds_witness :
    ((∀ fuel, ∀ c ∈ advanceUntilGrowthCalls fuel 0 10 3, 1 ≤ c.2) ∧
      ∃ (g1 : Nat) (calls : List (Nat × Int)),
        (∀ fuel, 10 ≤ fuel → advanceUntilGrowth fuel 0 10 3 = some (g1, calls)) ∧
        ∀ c ∈ calls, 1 ≤ c.2 ∧ c.2 ≤ 3) ∧
    advanceUntilGrowthCalls 10 0 10 3 = [(0, 3), (3, 3), (6, 3), (9, 1)] ∧
    (∀ c ∈ advanceUntilGrowthCalls 3 0 10 0, c.2 ≤ 0) ∧
    advanceUntilGrowthCalls 3 0 10 0 = [(0, 0), (0, 0), (0, 0)] ∧
    advanceUntilGrowth 3 0 10 0 = none ∧
    advanceUntilGrowthCalls 9 (2 ^ 64 - 2) 7 3 = [] :=
  ⟨(step_size_bounds 0 10 3).2.2.2 (by decide) (by decide), by decide,
    (step_size_bounds 0 10 0).1 3, by decide, by decide, by decide⟩

/-- C28: when the step count `R` of the epoch is below 2^31 and `minSynapticTransDelay` is
at least 1, the loop ends, and at every iteration the 64-bit difference
`endStep - g_simulationStep` survives the narrowing to `int`, `iStep` is positive and equals
`min(endStep - g_simulationStep, minSynapticTransDelay)`, and `g_simulationStep` is at most
`endStep` before and after the step.  The condition `g_simulationStep + R < 2^64` (the sum
`endStep` does not wrap) holds at the start of every epoch of a run: `g_simulationStep` is
0 at the start and grows by `R` in each of fewer than 2^31 epochs (`epoch_start_fits`). -/
theorem narrowing_lossless (g R : Nat) (m : Int) (hm : 1 ≤ m) (hR : R < 2 ^ 31)
    (hg : g + R < 2 ^ 64) :
    ∃ calls : List (Nat × Int),
      (∀ fuel, R ≤ fuel → advanceUntilGrowth fuel g R m = some (g + R, calls)) ∧
      ∀ c ∈ calls,
        toI32 (toU64 (((g + R : Nat) : Int) - (c.1 : Int)))
          = ((g + R : Nat) : Int) - (c.1 : Int) ∧
        0 < c.2 ∧
        c.2 = min (((g + R : Nat) : Int) - (c.1 : Int)) m ∧
        c.1 ≤ g + R ∧
        (c.1 : Int) + c.2 ≤ ((g + R : Nat) : Int) ∧
        toU64 ((c.1 : Int) + c.2) ≤ g + R := by
  have hcast : ((m.toNat : Nat) : Int) = m := Int.toNat_of_nonneg (by omega)
  obtain ⟨calls, hrun, hall, _, _, _⟩ := advanceUntilGrowth_trace g R m.toNat (by omega) hR hg
  rw [hcast] at hrun hall
  refine ⟨calls, hrun, ?_⟩
  intro c hc
  obtain ⟨h1, h2, h3, h4, h5, h6⟩ := hall c hc
  have hd0 : (0 : Int) ≤ ((g + R : Nat) : Int) - (c.1 : Int) := by omega
  have hu := toU64_cast (((g + R : Nat) : Int) - (c.1 : Int)) hd0 (by omega)
  have hs := toU64_cast ((c.1 : Int) + c.2) (by omega) (by omega)
  refine ⟨?_, by omega, h5, by omega, h6, by omega⟩
  rw [hu]
  exact toI32_small _ hd0 (by omega)

/-- C28, concrete: 10 steps from step 100 with a minimum delay of 3. -/
theorem narrowing_lossless_witness :
    ∃ calls : List (Nat × Int),
      (∀ fuel, 10 ≤ fuel → advanceUntilGrowth fuel 100 10 3 = some (100 + 10, calls)) ∧
      ∀ c ∈ calls,
        toI32 (toU64 (((100 + 10 : Nat) : Int) - (c.1 : Int)))
          = ((100 + 10 : Nat) : Int) - (c.1 : Int) ∧
        0 < c.2 ∧
        c.2 = min (((100 + 10 : Nat) : Int) - (c.1 : Int)) 3 ∧
        c.1 ≤ 100 + 10 ∧
        (c.1 : Int) + c.2 ≤ ((100 + 10 : Nat) : Int) ∧
        toU64 ((c.1 : Int) + c.2) ≤ 100 + 10 :=
  narrowing_lossless 100 10 3 (by decide) (by decide) (by decide)

/-- C29: when the step count `R` of the epoch is below 2^31 and
`minSynapticTransDelay = m` is at least 1, the loop ends after exactly `ceil(R / m)` calls of
`model->advance`, none when `R = 0`; the quantity `endStep - g_simulationStep` is smaller at
every later call and smaller after each step than before it.  The condition
`g_simulationStep + R < 2^64` (the sum `endStep` does not wrap) holds at the start of every
epoch of a run: `g_simulationStep` is 0 at the start and grows by `R` in each of fewer than
2^31 epochs (`epoch_start_fits`). -/
theorem loop_terminates (g R m : Nat) (hm : 1 ≤ m) (hR : R < 2 ^ 31) (hg : g + R < 2 ^ 64) :
    ∃ calls : List (Nat × Int),
      (∀ fuel, R ≤ fuel → advanceUntilGrowth fuel g R (m : Int) = some (g + R, calls)) ∧
      calls.length = (R + m - 1) / m ∧
      (R = 0 → calls = []) ∧
      calls.Pairwise (fun a b => g + R - b.1 < g + R - a.1) ∧
      ∀ c ∈ calls, ((g + R : Nat) : Int) - ((c.1 : Int) + c.2)
        < ((g + R : Nat) : Int) - (c.1 : Int) := by
  obtain ⟨calls, hrun, hall, hpw, hlen, _⟩ := advanceUntilGrowth_trace g R m hm hR hg
  refine ⟨calls, hrun, hlen, ?_, ?_, ?_⟩
  · intro h0
    have : calls.length = 0 := by
      rw [hlen, h0]
      exact Nat.div_eq_of_lt (by omega)
    exact List.length_eq_zero.mp this
  · refine List.Pairwise.imp_of_mem ?_ hpw
    intro a b _ hb hab
    have := (hall b hb).2.1
    omega
  · intro c hc
    have := (hall c hc).2.2.1
    omega

/-- C29, concrete: 10 steps with a minimum delay of 3 take 4 calls. -/
theorem loop_terminates_witness :
    (∃ calls : List (Nat × Int),
      (∀ fuel, 10 ≤ fuel → advanceUntilGrowth fuel 0 10 ((3 : Nat) : Int) = some (0 + 10, calls)) ∧
      calls.length = (10 + 3 - 1) / 3 ∧
      (10 = 0 → calls = []) ∧
      calls.Pairwise (fun a b => 0 + 10 - b.1 < 0 + 10 - a.1) ∧
      ∀ c ∈ calls, ((0 + 10 : Nat) : Int) - ((c.1 : Int) + c.2)
        < ((0 + 10 : Nat) : Int) - (c.1 : Int)) ∧
    (10 + 3 - 1) / 3 = 4 :=
  ⟨loop_terminates 0 10 3 (by decide) (by decide) (by decide), by decide⟩
/-! ## The epochs of the simulation -/

theorem simulateLoop_done (fuel : Nat) (maxSteps : Int) (R : Nat) (m : Int) (rounds : Nat)
    (cs : Int) (g : Nat) (events : List SimEvent) (h : ¬ cs ≤ maxSteps) :
    simulateLoop fuel maxSteps R m rounds cs g events = some (g, events) := by
  cases rounds <;> simp [simulateLoop, h]

theorem simulateLoop_run (maxSteps R m : Nat) (hmax : maxSteps + 1 < 2 ^ 31) (hm : 1 ≤ m)
    (hR : R < 2 ^ 31) :
    ∀ (n cs g : Nat), cs + n = maxSteps + 1 → g + n * R < 2 ^ 64 →
    ∃ epochs : List (List (Nat × Int)), epochs.length = n ∧
      (∀ calls ∈ epochs, (calls.map Prod.snd).sum = (R : Int)) ∧
      ∀ (fuel rounds : Nat) (events : List SimEvent), R ≤ fuel → n ≤ rounds →
        simulateLoop fuel (maxSteps : Int) R (m : Int) rounds (cs : Int) g events =
          some (g + n * R, events ++ epochsEvents (cs : Int) epochs) := by
  intro n
  induction n with
  | zero =>
    intro cs g hcs _
    refine ⟨[], rfl, ?_, ?_⟩
    · intro calls hc
      cases hc
    · intro fuel rounds events _ _
      rw [simulateLoop_done _ _ _ _ _ _ _ _ (by omega)]
      simp [epochsEvents]
  | succ n ih =>
    intro cs g hcs hg
    have hmul : (n + 1) * R = n * R + R := Nat.succ_mul n R
    obtain ⟨calls, hinner, _, _, _, hsum⟩ :=
      advanceUntilGrowth_trace g R m hm hR (by omega)
    obtain ⟨epochs, hlen, hsums, hrun⟩ := ih (cs + 1) (g + R) (by omega) (by omega)
    refine ⟨calls :: epochs, by rw [List.length_cons, hlen], ?_, ?_⟩
    · intro c hc
      rcases List.mem_cons.mp hc with rfl | hc
      · exact hsum
      · exact hsums c hc
    · intro fuel rounds events hfuel hrounds
      obtain ⟨rounds1, rfl⟩ : ∃ rounds1, rounds = rounds1 + 1 := ⟨rounds - 1, by omega⟩
      have hnext : toI32 ((cs : Int) + 1) = ((cs + 1 : Nat) : Int) := by
        rw [toI32_small _ (by omega) (by omega)]
        omega
      rw [simulateLoop, if_pos (by omega), hinner fuel hfuel]
      simp only []
      have e1 : g + R + n * R = g + (n + 1) * R := by omega
      rw [hnext, hrun fuel rounds1 _ hfuel (by omega), e1]
      simp only [epochsEvents, epochEvents, List.append_assoc, Nat.cast_add, Nat.cast_one,
        List.cons_append, List.nil_append]

theorem currentSteps_advance (calls : List (Nat × Int)) :
    currentSteps (calls.map (fun c => SimEvent.advance c.1 c.2)) = [] := by
  induction calls with
  | nil => rfl
  | cons c rest ih =>
    unfold currentSteps at ih ⊢
    rw [List.map_cons, List.filterMap_cons]
    exact ih

theorem currentSteps_epochsEvents (epochs : List (List (Nat × Int))) : ∀ first : Int,
    currentSteps (epochsEvents first epochs) =
      (List.range epochs.length).map (fun (i : Nat) => first + (i : Int)) := by
  induction epochs with
  | nil =>
    intro first
    rfl
  | cons calls rest ih =>
    intro first
    have h1 : currentSteps (epochsEvents first (calls :: rest)) =
        first :: currentSteps (epochsEvents (first + 1) rest) := by
      have h2 := currentSteps_advance calls
      unfold currentSteps at h2 ⊢
      simp only [epochsEvents, epochEvents, List.filterMap_append, h2]
      rfl
    rw [h1, ih, List.length_cons, List.range_succ_eq_map, List.map_cons, List.map_map]
    congr 1
    · simp
    · apply List.map_congr_left
      intro i _
      simp only [Function.comp, Nat.cast_succ]
      omega

theorem skeleton_advance (calls : List (Nat × Int)) :
    epochSkeleton (calls.map (fun c => SimEvent.advance c.1 c.2)) = [] := by
  induction calls with
  | nil => rfl
  | cons c rest ih =>
    unfold epochSkeleton at ih ⊢
    rw [List.map_cons, List.filter_cons]
    exact ih

theorem skeleton_epochsEvents (epochs : List (List (Nat × Int))) : ∀ first : Int,
    epochSkeleton (epochsEvents first epochs) =
      epochsEvents first (epochs.map (fun _ => [])) := by
  induction epochs with
  | nil =>
    intro first
    rfl
  | cons calls rest ih =>
    intro first
    have h2 := skeleton_advance calls
    have h3 := ih (first + 1)
    unfold epochSkeleton at h2 h3 ⊢
    simp only [epochsEvents, epochEvents, List.filter_append, h2, h3, List.map_cons,
      List.map_nil, List.append_nil]
    rfl
theorem toI32_le (x : Int) : toI32 x ≤ 2 ^ 31 - 1 := by
  unfold toI32
  have h1 : x % 2 ^ 32 < 2 ^ 32 := Int.emod_lt_of_pos _ (by decide)
  split_ifs with h
  · omega
  · omega

theorem advanceLoop_zero_delay : ∀ (fuel : Nat) (calls : List (Nat × Int)),
    advanceLoop 0 1 fuel 0 calls = none := by
  intro fuel
  induction fuel with
  | zero =>
    intro calls
    rfl
  | succ n ih =>
    intro calls
    rw [advanceLoop, if_pos (by decide)]
    have h1 : toI32 (toU64 (((1 : Nat) : Int) - ((0 : Nat) : Int))) = 1 := by decide
    have h2 : toU64 (((0 : Nat) : Int) + 0) = 0 := by decide
    simp only [h1, show ¬ ((1 : Int) < 0) by decide, if_false, h2]
    exact ih _

theorem simulateLoop_counter_wraps (fuel R : Nat) (m : Int) : ∀ (rounds : Nat) (cs : Int)
    (g : Nat) (events : List SimEvent), cs ≤ 2 ^ 31 - 1 →
    simulateLoop fuel (2 ^ 31 - 1) R m rounds cs g events = none := by
  intro rounds
  induction rounds with
  | zero =>
    intro cs g events hcs
    rw [simulateLoop, if_pos hcs]
  | succ n ih =>
    intro cs g events hcs
    rw [simulateLoop, if_pos hcs]
    cases advanceUntilGrowth fuel g R m with
    | none => rfl
    | some r => exact ih _ _ _ (toI32_le _)

/-- C21 as stated fails.  With `maxSteps = 1`, one step in the epoch and
`minSynapticTransDelay = 0` the first epoch never ends its inner stepping, so `simulate`
never reaches `updateConnections`.  With `maxSteps = 2^31 - 1` the test
`currentStep <= maxSteps` holds for every `int`, so `simulate` never ends. -/
theorem simulate_unguarded :
    (¬ ∃ fuel, simulate fuel 0 1 1 0 ≠ none) ∧
      (¬ ∃ fuel, simulate fuel 0 (2 ^ 31 - 1) 0 1 ≠ none) := by
  refine ⟨?_, ?_⟩
  · rintro ⟨fuel, hfuel⟩
    apply hfuel
    have hinner : advanceUntilGrowth fuel 0 1 0 = none := by
      unfold advanceUntilGrowth
      have h1 : toU64 (((0 : Nat) : Int) + ((1 : Nat) : Int)) = 1 := by decide
      simp only [h1]
      exact advanceLoop_zero_delay fuel []
    unfold simulate
    cases fuel with
    | zero => rfl
    | succ n =>
      rw [simulateLoop, if_pos (by decide), hinner]
  · rintro ⟨fuel, hfuel⟩
    apply hfuel
    unfold simulate
    exact simulateLoop_counter_wraps fuel 0 1 fuel 1 0 [] (by decide)

/-- C21, amended: when `maxSteps + 1` fits an `int`, `minSynapticTransDelay` is at least 1,
every epoch has `R < 2^31` steps and `g_simulationStep + maxSteps * R` fits 64 bits,
`simulate` ends after exactly `maxSteps` epochs.  Its events are, for `currentStep` = 1, 2,
..., `maxSteps` in this order: the assignment of `currentStep`, the call of
`advanceUntilGrowth`, the inner steps of the epoch (which sum to `R`), then
`updateConnections`, then `updateHistory`, each once. -/
theorem simulate_epochs (g maxSteps R m : Nat) (hmax : maxSteps + 1 < 2 ^ 31) (hm : 1 ≤ m)
    (hR : R < 2 ^ 31) (hg : g + maxSteps * R < 2 ^ 64) :
    ∃ epochs : List (List (Nat × Int)),
      epochs.length = maxSteps ∧
      (∀ fuel, maxSteps ≤ fuel → R ≤ fuel →
        simulate fuel g (maxSteps : Int) R (m : Int)
          = some (g + maxSteps * R, epochsEvents 1 epochs)) ∧
      (∀ calls ∈ epochs, (calls.map Prod.snd).sum = (R : Int)) ∧
      currentSteps (epochsEvents 1 epochs)
        = (List.range maxSteps).map (fun (i : Nat) => 1 + (i : Int)) ∧
      epochSkeleton (epochsEvents 1 epochs)
        = epochsEvents 1 (List.replicate maxSteps []) := by
  obtain ⟨epochs, hlen, hsums, hrun⟩ :=
    simulateLoop_run maxSteps R m hmax hm hR maxSteps 1 g (by omega) hg
  refine ⟨epochs, hlen, ?_, hsums, ?_, ?_⟩
  · intro fuel h1 h2
    unfold simulate
    have := hrun fuel fuel [] h2 h1
    simpa using this
  · rw [currentSteps_epochsEvents, hlen]
  · rw [skeleton_epochsEvents, ← hlen]
    congr 1
    exact List.map_const' epochs []

/-- C21, amended, concrete: two epochs of 10 steps with a minimum delay of 3. -/
theorem simulate_epochs_witness :
    (∃ epochs : List (List (Nat × Int)),
      epochs.length = 2 ∧
      (∀ fuel, 2 ≤ fuel → 10 ≤ fuel →
        simulate fuel 0 ((2 : Nat) : Int) 10 ((3 : Nat) : Int)
          = some (0 + 2 * 10, epochsEvents 1 epochs)) ∧
      (∀ calls ∈ epochs, (calls.map Prod.snd).sum = ((10 : Nat) : Int)) ∧
      currentSteps (epochsEvents 1 epochs)
        = (List.range 2).map (fun (i : Nat) => 1 + (i : Int)) ∧
      epochSkeleton (epochsEvents 1 epochs) = epochsEvents 1 (List.replicate 2 [])) ∧
    simulate 10 0 2 10 3 = some (20,
      [SimEvent.setCurrentStep 1, SimEvent.callAdvanceUntilGrowth 1,
        SimEvent.advance 0 3, SimEvent.advance 3 3, SimEvent.advance 6 3, SimEvent.advance 9 1,
        SimEvent.updateConnections 1, SimEvent.updateHistory 1,
        SimEvent.setCurrentStep 2, SimEvent.callAdvanceUntilGrowth 2,
        SimEvent.advance 10 3, SimEvent.advance 13 3, SimEvent.advance 16 3,
        SimEvent.advance 19 1,
        SimEvent.updateConnections 2, SimEvent.updateHistory 2]) :=
  ⟨simulate_epochs 0 2 10 3 (by decide) (by decide) (by decide) (by decide), by decide⟩
/-! ## The invariant of the outgoing buffer -/

theorem length_newArray (fresh : Nat → Nat) (n : Nat) : (newArray fresh n).length = n := by
  simp [newArray]

theorem outgoingInv_init (cfg : BuildConfig) (map : SynapseIndexMap) (hgpu : cfg.USE_GPU = true)
    (fresh : Nat → Nat) (clusterID nMaxEvent nOut nIn : Nat) :
    OutgoingInv map (initEventQueue cfg fresh EventQueue.new clusterID nMaxEvent nOut nIn) ∧
      (initEventQueue cfg fresh EventQueue.new clusterID nMaxEvent nOut nIn).m_clusterID
        = clusterID ∧
      (initEventQueue cfg fresh EventQueue.new clusterID nMaxEvent nOut nIn).m_nMaxInterClustersOutgoingEvents
        = nOut := by
  refine ⟨⟨?_, ?_, ?_⟩, ?_, ?_⟩
  · simp [initEventQueue, hgpu, EventQueue.new]
  · by_cases h : nOut = 0
    · simp [initEventQueue, hgpu, h, EventQueue.new]
    · simp [initEventQueue, hgpu, h, length_newArray]
  · intro i hi
    simp [initEventQueue, hgpu, EventQueue.new] at hi
  · simp [initEventQueue, hgpu]
  · simp [initEventQueue, hgpu]

theorem outgoingInv_create (map : SynapseIndexMap) (fresh : Nat → Nat) (q : EventQueue) :
    OutgoingInv map (createEventQueueInDevice fresh q) ∧
      (createEventQueueInDevice fresh q).m_clusterID = q.m_clusterID ∧
      (createEventQueueInDevice fresh q).m_nMaxInterClustersOutgoingEvents
        = q.m_nMaxInterClustersOutgoingEvents := by
  unfold createEventQueueInDevice initEventQueueDevice OutgoingInv
  refine ⟨⟨Nat.zero_le _, ?_, ?_⟩, rfl, rfl⟩
  · simp only []
    by_cases h : q.m_nMaxInterClustersOutgoingEvents = 0
    · simp [h]
    · simp [h, length_newArray]
  · intro i hi
    exact absurd hi (Nat.not_lt_zero _)

theorem outgoingInv_addAnEvent (cfg : BuildConfig) (map : SynapseIndexMap)
    (hgpu : cfg.USE_GPU = true) (q q1 : EventQueue) (idx clusterID : Nat)
    (hinv : OutgoingInv map q)
    (hround : map.getClusterIndex (map.getOutgoingSynapseIndex clusterID idx) = clusterID)
    (hrun : addAnEvent cfg map q idx clusterID = .ok q1) :
    OutgoingInv map q1 ∧ q1.m_clusterID = q.m_clusterID ∧
      q1.m_nMaxInterClustersOutgoingEvents = q.m_nMaxInterClustersOutgoingEvents := by
  obtain ⟨h1, h2, h3⟩ := hinv
  by_cases hc : clusterID = q.m_clusterID
  · subst hc
    rw [addAnEvent_own] at hrun
    split_ifs at hrun
    cases hrun
    exact ⟨⟨h1, h2, h3⟩, rfl, rfl⟩
  · rcases addAnEvent_foreign_cases cfg map q idx clusterID hc with
      ⟨h, _, hroom⟩ | ⟨h, _⟩ | ⟨_, _, hf, _⟩ | ⟨_, hf⟩
    · rw [h] at hrun
      cases hrun
      refine ⟨⟨?_, ?_, ?_⟩, rfl, rfl⟩
      · simp only []
        omega
      · simp only [List.length_set]
        exact h2
      · intro i hi
        simp only [] at hi ⊢
        by_cases hik : i = q.m_nInterClustersOutgoingEvents
        · rw [hik, getD_set_self _ _ _ (by omega), hround]
          exact hc
        · rw [getD_set_ne _ _ _ _ (Ne.symm hik)]
          exact h3 i (by omega)
    · rw [h] at hrun
      cases hrun
    · rw [hgpu] at hf
      cases hf
    · rw [hgpu] at hf
      cases hf

theorem forLoop_outgoing_frame (map : SynapseIndexMap) (n : Nat) :
    ∀ (i : Nat) (q q2 : EventQueue), forLoop (outgoingEventStep map) i n q = .ok q2 →
    q2 = { q with m_eventHandler := q2.m_eventHandler } := by
  induction n with
  | zero =>
    intro i q q2 h
    rw [forLoop] at h
    cases h
    rfl
  | succ n ih =>
    intro i q q2 h
    rw [forLoop] at h
    cases hstep : outgoingEventStep map q i with
    | fail f =>
      rw [hstep] at h
      cases h
    | ok q1 =>
      rw [hstep] at h
      simp only [Outcome.andThen] at h
      have h1 := ih (i + 1) q1 q2 h
      unfold outgoingEventStep at hstep
      simp only [] at hstep
      split_ifs at hstep
      cases hh : q.m_eventHandler with
      | none =>
        rw [hh] at hstep
        cases hstep
      | some hd =>
        rw [hh] at hstep
        cases hstep
        rw [h1]

theorem forLoop_outgoing_safe (map : SynapseIndexMap) (n : Nat) :
    ∀ (i : Nat) (q : EventQueue),
    (∀ k, k < n →
      map.getClusterIndex (q.m_interClustersOutgoingEvents.getD (i + k) 0) ≠ q.m_clusterID) →
    (∀ f, forLoop (outgoingEventStep map) i n q = .fail f →
      f.error = QueueError.NullEventHandler) ∧
    (q.m_eventHandler ≠ none → ∃ q2, forLoop (outgoingEventStep map) i n q = .ok q2) := by
  induction n with
  | zero =>
    intro i q _
    refine ⟨?_, fun _ => ⟨q, rfl⟩⟩
    intro f h
    rw [forLoop] at h
    cases h
  | succ n ih =>
    intro i q hrec
    have h0 := hrec 0 (by omega)
    rw [Nat.add_zero] at h0
    cases hh : q.m_eventHandler with
    | none =>
      have hstep : outgoingEventStep map q i = .fail ⟨QueueError.NullEventHandler, q⟩ := by
        unfold outgoingEventStep
        simp only []
        rw [if_pos h0, hh]
      refine ⟨?_, fun h => absurd rfl h⟩
      intro f h
      rw [forLoop, hstep] at h
      cases h
      rfl
    | some hd =>
      obtain ⟨q1, hq1⟩ : ∃ q1 : EventQueue, q1 = { q with m_eventHandler := (some
          (hd.addAnEvent
            (map.getSynapseIndex (q.m_interClustersOutgoingEvents.getD i 0))
            (map.getClusterIndex (q.m_interClustersOutgoingEvents.getD i 0)))) } := ⟨_, rfl⟩
      have hstep : outgoingEventStep map q i = .ok q1 := by
        unfold outgoingEventStep
        simp only []
        rw [if_pos h0, hh, hq1]
      have hrest := ih (i + 1) q1 (by
        intro k hk
        have := hrec (k + 1) (by omega)
        rw [show i + (k + 1) = i + 1 + k by omega] at this
        rw [hq1]
        exact this)
      refine ⟨?_, ?_⟩
      · intro f h
        rw [forLoop, hstep] at h
        exact hrest.1 f h
      · intro _
        rw [forLoop, hstep]
        exact hrest.2 (by rw [hq1]; simp)

theorem getD_memcpy (dst src : List Nat) (n i : Nat) (hi : i < n) (hn : n ≤ src.length) :
    (memcpy dst src n).getD i 0 = src.getD i 0 := by
  unfold memcpy
  have h1 : i < (List.take n src).length := by
    rw [List.length_take]
    omega
  rw [List.getD_eq_getElem?_getD, List.getElem?_append_left h1, List.getElem?_take_of_lt hi,
    ← List.getD_eq_getElem?_getD]

theorem length_memcpy (dst src : List Nat) (n : Nat) (h1 : n ≤ src.length)
    (h2 : n ≤ dst.length) : (memcpy dst src n).length = dst.length := by
  unfold memcpy
  rw [List.length_append, List.length_take, List.length_drop]
  omega

theorem process_outgoing_safe (map : SynapseIndexMap) (s : EventQueue × EventQueue)
    (hinv : RouterInv map s) :
    (∀ f, processInterClustersOutgoingEvents map s.1 s.2 = .fail f →
      f.error = QueueError.NullEventHandler) ∧
    (s.1.m_eventHandler ≠ none →
      ∃ q, processInterClustersOutgoingEvents map s.1 s.2 = .ok q) ∧
    (∀ q, processInterClustersOutgoingEvents map s.1 s.2 = .ok q → RouterInv map (q, s.2)) := by
  obtain ⟨⟨a1, a2, _⟩, ⟨b1, b2, b3⟩, hid, hmax⟩ := hinv
  obtain ⟨q1, hq1⟩ : ∃ q1 : EventQueue, q1 = { s.1 with
      m_nInterClustersOutgoingEvents := s.2.m_nInterClustersOutgoingEvents
      m_interClustersOutgoingEvents :=
        memcpy s.1.m_interClustersOutgoingEvents s.2.m_interClustersOutgoingEvents
          s.2.m_nInterClustersOutgoingEvents } := ⟨_, rfl⟩
  have hproc : processInterClustersOutgoingEvents map s.1 s.2 =
      (forLoop (outgoingEventStep map) 0 q1.m_nInterClustersOutgoingEvents q1).andThen
        fun q2 => .ok { q2 with m_nInterClustersOutgoingEvents := 0 } := by
    rw [hq1]
    rfl
  have hsafe := forLoop_outgoing_safe map q1.m_nInterClustersOutgoingEvents 0 q1 (by
    intro k hk
    rw [hq1] at hk ⊢
    simp only [Nat.zero_add] at hk ⊢
    rw [getD_memcpy _ _ _ _ hk (by omega), hid]
    exact b3 k hk)
  refine ⟨?_, ?_, ?_⟩
  · intro f hf
    rw [hproc] at hf
    cases hloop : forLoop (outgoingEventStep map) 0 q1.m_nInterClustersOutgoingEvents q1 with
    | fail f1 =>
      rw [hloop] at hf
      cases hf
      exact hsafe.1 _ hloop
    | ok q2 =>
      rw [hloop] at hf
      cases hf
  · intro hh
    obtain ⟨q2, hq2⟩ := hsafe.2 (by rw [hq1]; exact hh)
    exact ⟨_, by rw [hproc, hq2]; rfl⟩
  · intro q hq
    rw [hproc] at hq
    cases hloop : forLoop (outgoingEventStep map) 0 q1.m_nInterClustersOutgoingEvents q1 with
    | fail f1 =>
      rw [hloop] at hq
      cases hq
    | ok q2 =>
      rw [hloop] at hq
      simp only [Outcome.andThen] at hq
      cases hq
      have hframe := forLoop_outgoing_frame map _ 0 q1 q2 hloop
      refine ⟨⟨Nat.zero_le _, ?_, ?_⟩, ⟨b1, b2, b3⟩, ?_, ?_⟩
      · simp only []
        rw [hframe, hq1]
        simp only []
        rw [length_memcpy _ _ _ (by omega) (by omega)]
        exact a2
      · intro i hi
        exact absurd hi (Nat.not_lt_zero _)
      · simp only []
        rw [hframe, hq1]
        exact hid
      · simp only []
        rw [hframe, hq1]
        exact hmax

theorem routerStep_inv (cfg : BuildConfig) (map : SynapseIndexMap) (hgpu : cfg.USE_GPU = true)
    (s s1 : EventQueue × EventQueue) (op : RouterOp) (hinv : RouterInv map s)
    (hop : op.roundTrips map = true) (hstep : routerStep cfg map s op = some s1) :
    RouterInv map s1 := by
  obtain ⟨ha, hb, hid, hmax⟩ := hinv
  cases op with
  | hostAddAnEvent idx clusterID =>
    simp only [RouterOp.roundTrips, decide_eq_true_eq] at hop
    simp only [routerStep] at hstep
    cases hrun : addAnEvent cfg map s.1 idx clusterID with
    | fail f =>
      rw [hrun] at hstep
      cases hstep
    | ok q =>
      rw [hrun] at hstep
      cases hstep
      obtain ⟨h1, h2, h3⟩ := outgoingInv_addAnEvent cfg map hgpu s.1 q idx clusterID ha hop hrun
      exact ⟨h1, hb, by rw [h2]; exact hid, by rw [h3]; exact hmax⟩
  | deviceAddAnEvent idx clusterID =>
    simp only [RouterOp.roundTrips, decide_eq_true_eq] at hop
    simp only [routerStep] at hstep
    cases hrun : addAnEvent cfg map s.2 idx clusterID with
    | fail f =>
      rw [hrun] at hstep
      cases hstep
    | ok q =>
      rw [hrun] at hstep
      cases hstep
      obtain ⟨h1, h2, h3⟩ := outgoingInv_addAnEvent cfg map hgpu s.2 q idx clusterID hb hop hrun
      exact ⟨ha, h1, by rw [h2]; exact hid, by rw [h3]; exact hmax⟩
  | regEventHandler eventHandler =>
    simp only [routerStep] at hstep
    cases hstep
    exact ⟨ha, hb, hid, hmax⟩
  | processInterClustersOutgoingEvents =>
    simp only [routerStep] at hstep
    cases hrun : processInterClustersOutgoingEvents map s.1 s.2 with
    | fail f =>
      rw [hrun] at hstep
      cases hstep
    | ok q =>
      rw [hrun] at hstep
      cases hstep
      exact (process_outgoing_safe map s ⟨ha, hb, hid, hmax⟩).2.2 q hrun

theorem routerRun_inv (cfg : BuildConfig) (map : SynapseIndexMap) (hgpu : cfg.USE_GPU = true)
    (ops : List RouterOp) : ∀ (s s1 : EventQueue × EventQueue), RouterInv map s →
    (∀ op ∈ ops, op.roundTrips map = true) → routerRun cfg map s ops = some s1 →
    RouterInv map s1 := by
  induction ops with
  | nil =>
    intro s s1 hinv _ hrun
    rw [routerRun] at hrun
    cases hrun
    exact hinv
  | cons op rest ih =>
    intro s s1 hinv hops hrun
    rw [routerRun] at hrun
    cases hstep : routerStep cfg map s op with
    | none =>
      rw [hstep] at hrun
      cases hrun
    | some s2 =>
      rw [hstep] at hrun
      exact ih s2 s1
        (routerStep_inv cfg map hgpu s s2 op hinv (hops op (List.mem_cons_self _ _)) hstep)
        (fun o ho => hops o (List.mem_cons_of_mem _ ho)) hrun

theorem routerStep_side (cfg : BuildConfig) (map : SynapseIndexMap)
    (s s1 : EventQueue × EventQueue) (op : RouterOp)
    (hstep : routerStep cfg map s op = some s1) : s1.2 = s.2 ∨ s1.1 = s.1 := by
  cases op with
  | hostAddAnEvent idx clusterID =>
    simp only [routerStep] at hstep
    cases hrun : addAnEvent cfg map s.1 idx clusterID with
    | fail f =>
      rw [hrun] at hstep
      cases hstep
    | ok q =>
      rw [hrun] at hstep
      cases hstep
      exact Or.inl rfl
  | deviceAddAnEvent idx clusterID =>
    simp only [routerStep] at hstep
    cases hrun : addAnEvent cfg map s.2 idx clusterID with
    | fail f =>
      rw [hrun] at hstep
      cases hstep
    | ok q =>
      rw [hrun] at hstep
      cases hstep
      exact Or.inr rfl
  | regEventHandler eventHandler =>
    simp only [routerStep] at hstep
    cases hstep
    exact Or.inl rfl
  | processInterClustersOutgoingEvents =>
    simp only [routerStep] at hstep
    cases hrun : processInterClustersOutgoingEvents map s.1 s.2 with
    | fail f =>
      rw [hrun] at hstep
      cases hstep
    | ok q =>
      rw [hrun] at hstep
      cases hstep
      exact Or.inl rfl

theorem routerRun_max (cfg : BuildConfig) (map : SynapseIndexMap) (hgpu : cfg.USE_GPU = true)
    (ops : List RouterOp) : ∀ (s s1 : EventQueue × EventQueue), RouterInv map s →
    (∀ op ∈ ops, op.roundTrips map = true) → routerRun cfg map s ops = some s1 →
    s1.1.m_nMaxInterClustersOutgoingEvents = s.1.m_nMaxInterClustersOutgoingEvents := by
  induction ops with
  | nil =>
    intro s s1 _ _ hrun
    rw [routerRun] at hrun
    cases hrun
    rfl
  | cons op rest ih =>
    intro s s1 hinv hops hrun
    rw [routerRun] at hrun
    cases hstep : routerStep cfg map s op with
    | none =>
      rw [hstep] at hrun
      cases hrun
    | some s2 =>
      rw [hstep] at hrun
      have hinv2 := routerStep_inv cfg map hgpu s s2 op hinv
        (hops op (List.mem_cons_self _ _)) hstep
      rw [ih s2 s1 hinv2 (fun o ho => hops o (List.mem_cons_of_mem _ ho)) hrun]
      rcases routerStep_side cfg map s s2 op hstep with h | h
      · rw [hinv2.2.2.2, h, hinv.2.2.2]
      · rw [h]
/-- C30: in the `USE_GPU` build, take a host object after `initEventQueue` and the device
object `createEventQueueInDevice` makes for it, and any sequence of calls of `addAnEvent`
(on either object), `regEventHandler` and `processInterClustersOutgoingEvents` in which no
assertion fails and the packing gives back the cluster of each pair passed to `addAnEvent`.
In the state reached, the outgoing count of either object is at most the configured
capacity, every record held in either outgoing buffer names a cluster other than the own
cluster ID, and `processInterClustersOutgoingEvents` does not fail its assertion
`iCluster != m_clusterID`: it succeeds when a handler is registered, and can only stop on a
missing handler otherwise. -/
theorem outgoing_invariant (cfg : BuildConfig) (map : SynapseIndexMap)
    (hgpu : cfg.USE_GPU = true) (fresh fresh2 : Nat → Nat)
    (clusterID nMaxEvent nOut nIn : Nat) (ops : List RouterOp)
    (hops : ∀ op ∈ ops, op.roundTrips map = true) :
    ∀ s : EventQueue × EventQueue,
      routerRun cfg map
        (initEventQueue cfg fresh EventQueue.new clusterID nMaxEvent nOut nIn,
          createEventQueueInDevice fresh2
            (initEventQueue cfg fresh EventQueue.new clusterID nMaxEvent nOut nIn)) ops
        = some s →
      s.1.m_nInterClustersOutgoingEvents ≤ s.1.m_nMaxInterClustersOutgoingEvents ∧
      s.2.m_nInterClustersOutgoingEvents ≤ s.2.m_nMaxInterClustersOutgoingEvents ∧
      s.1.m_nMaxInterClustersOutgoingEvents = nOut ∧
      s.2.m_nMaxInterClustersOutgoingEvents = nOut ∧
      (∀ i, i < s.1.m_nInterClustersOutgoingEvents →
        map.getClusterIndex (s.1.m_interClustersOutgoingEvents.getD i 0) ≠ s.1.m_clusterID) ∧
      (∀ i, i < s.2.m_nInterClustersOutgoingEvents →
        map.getClusterIndex (s.2.m_interClustersOutgoingEvents.getD i 0) ≠ s.2.m_clusterID) ∧
      (∀ f, processInterClustersOutgoingEvents map s.1 s.2 = .fail f →
        f.error ≠ QueueError.OwnClusterInOutgoing) ∧
      (s.1.m_eventHandler ≠ none →
        ∃ q, processInterClustersOutgoingEvents map s.1 s.2 = .ok q) := by
  intro s hrun
  obtain ⟨hi1, hi2, hi3⟩ := outgoingInv_init cfg map hgpu fresh clusterID nMaxEvent nOut nIn
  obtain ⟨hc1, hc2, hc3⟩ := outgoingInv_create map fresh2
    (initEventQueue cfg fresh EventQueue.new clusterID nMaxEvent nOut nIn)
  have hinit : RouterInv map
      (initEventQueue cfg fresh EventQueue.new clusterID nMaxEvent nOut nIn,
        createEventQueueInDevice fresh2
          (initEventQueue cfg fresh EventQueue.new clusterID nMaxEvent nOut nIn)) :=
    ⟨hi1, hc1, hc2.symm, hc3.symm⟩
  have hinv := routerRun_inv cfg map hgpu ops _ s hinit hops hrun
  have hm := routerRun_max cfg map hgpu ops _ s hinit hops hrun
  simp only [] at hm
  obtain ⟨⟨a1, _, a3⟩, ⟨b1, _, b3⟩, _, hmax⟩ := hinv
  have hsafe := process_outgoing_safe map s (routerRun_inv cfg map hgpu ops _ s hinit hops hrun)
  refine ⟨a1, b1, by rw [hm, hi3], by rw [← hmax, hm, hi3], a3, b3, ?_, hsafe.2.1⟩
  intro f hf
  rw [hsafe.1 f hf]
  decide

/-- C30, concrete: a handler is registered, the device stages an event for cluster 1, takes
an own-cluster event, the host flushes, and the device stages an event for cluster 2; the
run goes through and the state reached satisfies the invariant. -/
theorem outgoing_invariant_witness :
    (routerRun cfgGpu32 shiftMap (initialHost, createEventQueueInDevice (fun _ => 4) initialHost)
        [RouterOp.regEventHandler { received := [] }, RouterOp.deviceAddAnEvent 3 1,
          RouterOp.deviceAddAnEvent 1 0, RouterOp.processInterClustersOutgoingEvents,
          RouterOp.deviceAddAnEvent 0 2]).isSome = true ∧
    ∀ s : EventQueue × EventQueue,
      routerRun cfgGpu32 shiftMap
        (initEventQueue cfgGpu32 (fun _ => 0) EventQueue.new 0 4 2 2,
          createEventQueueInDevice (fun _ => 4)
            (initEventQueue cfgGpu32 (fun _ => 0) EventQueue.new 0 4 2 2))
        [RouterOp.regEventHandler { received := [] }, RouterOp.deviceAddAnEvent 3 1,
          RouterOp.deviceAddAnEvent 1 0, RouterOp.processInterClustersOutgoingEvents,
          RouterOp.deviceAddAnEvent 0 2] = some s →
      s.1.m_nInterClustersOutgoingEvents ≤ s.1.m_nMaxInterClustersOutgoingEvents ∧
      s.2.m_nInterClustersOutgoingEvents ≤ s.2.m_nMaxInterClustersOutgoingEvents ∧
      s.1.m_nMaxInterClustersOutgoingEvents = 2 ∧
      s.2.m_nMaxInterClustersOutgoingEvents = 2 ∧
      (∀ i, i < s.1.m_nInterClustersOutgoingEvents →
        shiftMap.getClusterIndex (s.1.m_interClustersOutgoingEvents.getD i 0)
          ≠ s.1.m_clusterID) ∧
      (∀ i, i < s.2.m_nInterClustersOutgoingEvents →
        shiftMap.getClusterIndex (s.2.m_interClustersOutgoingEvents.getD i 0)
          ≠ s.2.m_clusterID) ∧
      (∀ f, processInterClustersOutgoingEvents shiftMap s.1 s.2 = .fail f →
        f.error ≠ QueueError.OwnClusterInOutgoing) ∧
      (s.1.m_eventHandler ≠ none →
        ∃ q, processInterClustersOutgoingEvents shiftMap s.1 s.2 = .ok q) :=
  ⟨by decide, outgoing_invariant cfgGpu32 shiftMap (by decide) (fun _ => 0) (fun _ => 4) 0 4 2 2
    _ (by decide)⟩

end BrainGrid
